import Mathlib

/-!
# image8bit: a shallow embedding of `image8bit.c`

The C module stores an 8-bit grey image as `struct image { int width; int height;
int maxval; uint8* pixel; }`, the pixel array being a raster scan (left to right,
top to bottom).

Modelling conventions.

* C `int` is `Int`.  Signed overflow is undefined in C and is the result `none`:
  where an argument can push a computation out of the range of `int`, the
  operation is written `addInt`, `subInt` or `mulInt`, which have no result
  when the mathematical one is not in `[INT_MIN, INT_MAX]`.  That is the case
  of `x + w` and `y + h` in `ImageValidRect` and of all the arithmetic of
  `ImageBlur` (`x - dx`, `x + dx`, the sum and the count of a window).  The
  other `int` computations are loop counters and positions already checked
  against the dimensions of an image.
* C `uint8` is a `Nat` below 256; a conversion to `uint8` is written explicitly
  (`toUint8`, `doubleToUint8`, `Double.toUint8`).
* C `double` has two models.
  - `ℚ`, exact arithmetic, where binary64 computes exactly what `ℚ` does.
    `ImageBrighten` with factor `1`, `ImageBlend` with alpha `0` or `1`: every
    intermediate value is an integer in `0..255` or such an integer plus one
    half, which binary64 represents and computes exactly.  The mean of
    `ImageBlur`, `S / N + 0.5` with `0 ≤ S ≤ 255 * N` and `N` an `int`: with `k`
    the floor of the exact value, `S / N` lies between `k - 1/2` and
    `k + 1/2 - 2^-32`, both binary64 numbers, so neither the rounded quotient
    nor the rounded sum crosses an integer and the truncation is `k` on the
    machine too.
  - `Double`, IEEE 754 values (finite, infinite, NaN) with the rounding of each
    operation a parameter `rnd`, for what is said of every factor or alpha:
    `IEEE.ImageBrighten`, `IEEE.ImageBlend`.  There the conversion of a
    `double` to `uint8` has no result when C leaves it undefined.
* A failed `assert` (a precondition fault) or an out-of-bounds array access is
  the result `none`.  Memory allocation is assumed to succeed.
* A function that mutates `img` in place returns the new value of `img`.
* The instrumentation counters (`PIXMEM`, ...) are not part of the model.
-/

namespace Image8bit

/-! ## Data model -/

/-- The C constant `PixMax`: the largest `maxval` accepted. -/
def PixMax : Nat := 255

/-- The C `struct image`. -/
structure Image where
  width : Int
  height : Int
  maxval : Int
  pixel : List Nat
deriving DecidableEq, Repr

/-- Conversion of a C `int` to `uint8`: reduction modulo `2^8`. -/
def toUint8 (v : Int) : Nat := (v % 256).toNat

/-- Conversion of a C `double` to `uint8`: truncation towards zero.  C defines the
result only when the truncated value is in `0..255`, which holds after
`clampDouble` to `[0, maxval]`; outside that range the model reduces modulo `2^8`. -/
def doubleToUint8 (d : ℚ) : Nat :=
  toUint8 (if 0 ≤ d then Int.floor d else Int.ceil d)

/-- The C `assert`. -/
def assert (c : Bool) : Option Unit := if c then some () else none

/-- The least value of the C type `int` (32 bits). -/
def INT_MIN : Int := -2147483648

/-- The greatest value of the C type `int` (32 bits). -/
def INT_MAX : Int := 2147483647

/-- Is `v` a value of the C type `int`? -/
def isInt (v : Int) : Bool := decide (INT_MIN ≤ v) && decide (v ≤ INT_MAX)

/-- The outcome of an `int` operation on the operands `a` and `b` whose
mathematical result is `r`: when `r` is not a value of type `int` the C
operation overflows, which is undefined behaviour: the result `none`.  (When an
operand is not itself an `int`, which no C state allows, `r` is kept.) -/
def intOp (a b r : Int) : Option Int :=
  if isInt a && isInt b && !isInt r then none else some r

/-- The `int` addition `a + b` of C. -/
def addInt (a b : Int) : Option Int := intOp a b (a + b)

/-- The `int` subtraction `a - b` of C. -/
def subInt (a b : Int) : Option Int := intOp a b (a - b)

/-- The `int` multiplication `a * b` of C. -/
def mulInt (a b : Int) : Option Int := intOp a b (a * b)

/-- The C loop `for (int k = 0; k < n; ++k) body`, threading the state `s`.  The
bound is read once, on entry: no loop body of the module changes a dimension. -/
def forRange {σ : Type} (n : Int) (body : Int → σ → Option σ) (s : σ) : Option σ :=
  (List.range n.toNat).foldlM (fun acc (k : Nat) => body (k : Int) acc) s

/-! ## Image management -/

/-- Function `ImageCreate` of the C source: a new black image. -/
def ImageCreate (width height : Int) (maxval : Nat) : Option Image :=
  assert (decide (width ≥ 0)) >>= fun _ =>
  assert (decide (height ≥ 0)) >>= fun _ =>
  assert (decide (0 < maxval) && decide (maxval ≤ PixMax)) >>= fun _ =>
  some { width := width, height := height, maxval := Int.ofNat maxval,
         pixel := List.replicate (width * height).toNat 0 }

/-- Function `ImageValidPos` of the C source: is `(x, y)` inside `img`? -/
def ImageValidPos (img : Image) (x y : Int) : Bool :=
  (decide (0 ≤ x) && decide (x < img.width)) && (decide (0 ≤ y) && decide (y < img.height))

/-- Function `ImageValidRect` of the C source: is the rectangle `(x, y, w, h)`
completely inside `img`?  The three conjuncts of the returned expression are
evaluated from left to right and only as far as needed (`&&`); the sums
`x + w` and `y + h` are `int` additions. -/
def ImageValidRect (img : Image) (x y w h : Int) : Option Bool :=
  assert (decide (x ≥ 0)) >>= fun _ =>
  assert (decide (y ≥ 0)) >>= fun _ =>
  assert (decide (w ≥ 0)) >>= fun _ =>
  assert (decide (h ≥ 0)) >>= fun _ =>
  if ImageValidPos img x y then
    addInt x w >>= fun xw =>
    if xw ≤ img.width then
      addInt y h >>= fun yh =>
      some (decide (yh ≤ img.height))
    else some false
  else some false

/-- Function `G` of the C source: the linear index of position `(x, y)`. -/
def G (img : Image) (x y : Int) : Option Int :=
  let index := y * img.width + x
  assert (decide (0 ≤ index) && decide (index < img.width * img.height)) >>= fun _ =>
  some index

/-- Function `ImageGetPixel` of the C source: the level at position `(x, y)`. -/
def ImageGetPixel (img : Image) (x y : Int) : Option Nat :=
  assert (ImageValidPos img x y) >>= fun _ =>
  G img x y >>= fun index =>
  img.pixel[index.toNat]?

/-- Function `ImageSetPixel` of the C source: store `level` at position `(x, y)`. -/
def ImageSetPixel (img : Image) (x y : Int) (level : Nat) : Option Image :=
  assert (ImageValidPos img x y) >>= fun _ =>
  G img x y >>= fun index =>
  assert (decide (index.toNat < img.pixel.length)) >>= fun _ =>
  some { img with pixel := img.pixel.set index.toNat level }

/-! ## Pixel transformations -/

/-- Function `ImageNegative` of the C source. -/
def ImageNegative (img : Image) : Option Image :=
  forRange img.height (fun y img =>
    forRange img.width (fun x img =>
      ImageGetPixel img x y >>= fun p =>
      ImageSetPixel img x y (toUint8 (img.maxval - Int.ofNat p))) img) img

/-- Function `ImageThreshold` of the C source. -/
def ImageThreshold (img : Image) (thr : Nat) : Option Image :=
  forRange img.height (fun y img =>
    forRange img.width (fun x img =>
      ImageGetPixel img x y >>= fun p =>
      ImageSetPixel img x y (toUint8 (if p < thr then 0 else img.maxval))) img) img

/-- Function `clampDouble` of the C source. -/
def clampDouble (x min max : ℚ) : ℚ :=
  if x > max then max
  else if x < min then min
  else x

/-- Function `ImageBrighten` of the C source. -/
def ImageBrighten (img : Image) (factor : ℚ) : Option Image :=
  forRange img.height (fun y img =>
    forRange img.width (fun x img =>
      ImageGetPixel img x y >>= fun p =>
      let brightenedValue : ℚ := factor * (p : ℚ)
      ImageSetPixel img x y
        (doubleToUint8 (clampDouble (brightenedValue + 1/2) 0 (img.maxval : ℚ)))) img) img

/-! ## Geometric transformations -/

/-- Function `ImageRotate` of the C source: rotation by 90 degrees anti-clockwise, into a new image. -/
def ImageRotate (img : Image) : Option Image :=
  ImageCreate img.height img.width (toUint8 img.maxval) >>= fun rotated =>
  forRange img.height (fun y rotated =>
    forRange img.width (fun x rotated =>
      ImageGetPixel img x y >>= fun p =>
      ImageSetPixel rotated y (rotated.height - 1 - x) p) rotated) rotated

/-- Function `ImageMirror` of the C source: left-right flip, into a new image. -/
def ImageMirror (img : Image) : Option Image :=
  ImageCreate img.width img.height (toUint8 img.maxval) >>= fun mirrored =>
  forRange img.height (fun y mirrored =>
    forRange img.width (fun x mirrored =>
      ImageGetPixel img x y >>= fun p =>
      ImageSetPixel mirrored (mirrored.width - 1 - x) y p) mirrored) mirrored

/-- Function `ImageCrop` of the C source: the sub-image `(x, y, w, h)` of `img`, as a new image. -/
def ImageCrop (img : Image) (x y w h : Int) : Option Image :=
  ImageValidRect img x y w h >>= fun ok =>
  assert ok >>= fun _ =>
  ImageCreate w h (toUint8 img.maxval) >>= fun cropped =>
  forRange h (fun j cropped =>
    forRange w (fun i cropped =>
      ImageGetPixel img (x + i) (y + j) >>= fun p =>
      ImageSetPixel cropped i j p) cropped) cropped >>= fun cropped =>
  assert (decide (cropped.width = w) && decide (cropped.height = h)) >>= fun _ =>
  some cropped

/-! ## Operations on two images -/

/-- Function `ImagePaste` of the C source: copy `img2` into `img1` at `(x, y)`; returns the new `img1`. -/
def ImagePaste (img1 : Image) (x y : Int) (img2 : Image) : Option Image :=
  ImageValidRect img1 x y img2.width img2.height >>= fun ok =>
  assert ok >>= fun _ =>
  forRange img2.height (fun j img1 =>
    forRange img2.width (fun i img1 =>
      ImageGetPixel img2 i j >>= fun pixel =>
      ImageSetPixel img1 (x + i) (y + j) pixel) img1) img1

/-- Function `ImageBlend` of the C source: blend `img2` into `img1` at `(x, y)`; returns the new `img1`. -/
def ImageBlend (img1 : Image) (x y : Int) (img2 : Image) (alpha : ℚ) : Option Image :=
  ImageValidRect img1 x y img2.width img2.height >>= fun ok =>
  assert ok >>= fun _ =>
  forRange img2.height (fun j img1 =>
    forRange img2.width (fun i img1 =>
      ImageGetPixel img1 (x + i) (y + j) >>= fun pixel1 =>
      ImageGetPixel img2 i j >>= fun pixel2 =>
      let blendedPixel : ℚ := (1 - alpha) * (pixel1 : ℚ) + alpha * (pixel2 : ℚ)
      ImageSetPixel img1 (x + i) (y + j)
        (doubleToUint8 (clampDouble (blendedPixel + 1/2) 0 (img1.maxval : ℚ)))) img1) img1

/-! ## The `double` computations with rounding, infinities and NaN

`ImageBrighten` and `ImageBlend` above compute in `ℚ`: exact arithmetic on
finite values.  The functions of this section are the same two C functions
with every operation of type `double` written out as an IEEE 754 operation:
the result of an operation on finite operands is the exact result rounded
(`rnd`), which may be an infinity; infinities and NaN propagate as the
standard says; a comparison with NaN is false; and the conversion of a
`double` to `uint8` is defined only when the truncated value is in `0..255`. -/

/-- A value of the C type `double` (IEEE 754 binary64): a finite number, an
infinity (`neg` tells its sign) or a NaN.  The two zeros are one value: no
operation of the module tells them apart. -/
inductive Double where
  | fin (q : ℚ)
  | inf (neg : Bool)
  | nan
deriving DecidableEq

/-- The conversion `(double) v` of an `int` or `uint8` value, which is exact. -/
def Double.ofInt (v : Int) : Double := Double.fin (v : ℚ)

/-- The C operation `a * b` on `double`.  `rnd q` is the `double` delivered when
the exact result of an operation on finite operands is `q`: `q` rounded, or an
infinity when it overflows. -/
def Double.mul (rnd : ℚ → Double) : Double → Double → Double
  | Double.nan, _ => Double.nan
  | _, Double.nan => Double.nan
  | Double.fin a, Double.fin b => rnd (a * b)
  | Double.fin a, Double.inf n =>
    if a = 0 then Double.nan else Double.inf (xor (decide (a < 0)) n)
  | Double.inf n, Double.fin b =>
    if b = 0 then Double.nan else Double.inf (xor n (decide (b < 0)))
  | Double.inf n, Double.inf m => Double.inf (xor n m)

/-- The C operation `a + b` on `double`. -/
def Double.add (rnd : ℚ → Double) : Double → Double → Double
  | Double.nan, _ => Double.nan
  | _, Double.nan => Double.nan
  | Double.fin a, Double.fin b => rnd (a + b)
  | Double.fin _, Double.inf n => Double.inf n
  | Double.inf n, Double.fin _ => Double.inf n
  | Double.inf n, Double.inf m => if n = m then Double.inf n else Double.nan

/-- The C operation `a - b` on `double`. -/
def Double.sub (rnd : ℚ → Double) : Double → Double → Double
  | Double.nan, _ => Double.nan
  | _, Double.nan => Double.nan
  | Double.fin a, Double.fin b => rnd (a - b)
  | Double.fin _, Double.inf n => Double.inf (!n)
  | Double.inf n, Double.fin _ => Double.inf n
  | Double.inf n, Double.inf m => if n = m then Double.nan else Double.inf n

/-- The C comparison `a < b` on `double`: false when an operand is a NaN. -/
def Double.lt : Double → Double → Bool
  | Double.nan, _ => false
  | _, Double.nan => false
  | Double.fin a, Double.fin b => decide (a < b)
  | Double.fin _, Double.inf n => !n
  | Double.inf n, Double.fin _ => n
  | Double.inf n, Double.inf m => n && !m

/-- The C conversion `(uint8) d` of a `double`: the value truncated towards
zero when that is in `0..255`; otherwise (also for an infinity or a NaN) the
behaviour is undefined: the result `none`. -/
def Double.toUint8 : Double → Option Nat
  | Double.fin q =>
    let t : Int := if 0 ≤ q then Int.floor q else Int.ceil q
    if 0 ≤ t ∧ t ≤ 255 then some t.toNat else none
  | _ => none

/-- Function `clampDouble` of the C source, on IEEE values: `x > max` is
`max < x`, and both comparisons are false of a NaN, which is returned as it is. -/
def IEEE.clampDouble (x min max : Double) : Double :=
  if Double.lt max x then max
  else if Double.lt x min then min
  else x

/-- Function `ImageBrighten` of the C source, in IEEE arithmetic. -/
def IEEE.ImageBrighten (rnd : ℚ → Double) (img : Image) (factor : Double) : Option Image :=
  forRange img.height (fun y img =>
    forRange img.width (fun x img =>
      ImageGetPixel img x y >>= fun p =>
      let brightenedValue : Double := Double.mul rnd factor (Double.ofInt (p : Int))
      Double.toUint8 (IEEE.clampDouble (Double.add rnd brightenedValue (Double.fin (1/2)))
        (Double.fin 0) (Double.ofInt img.maxval)) >>= fun level =>
      ImageSetPixel img x y level) img) img

/-- Function `ImageBlend` of the C source, in IEEE arithmetic; returns the new `img1`. -/
def IEEE.ImageBlend (rnd : ℚ → Double) (img1 : Image) (x y : Int) (img2 : Image)
    (alpha : Double) : Option Image :=
  ImageValidRect img1 x y img2.width img2.height >>= fun ok =>
  assert ok >>= fun _ =>
  forRange img2.height (fun j img1 =>
    forRange img2.width (fun i img1 =>
      ImageGetPixel img1 (x + i) (y + j) >>= fun pixel1 =>
      ImageGetPixel img2 i j >>= fun pixel2 =>
      let blendedPixel : Double :=
        Double.add rnd
          (Double.mul rnd (Double.sub rnd (Double.ofInt 1) alpha) (Double.ofInt (pixel1 : Int)))
          (Double.mul rnd alpha (Double.ofInt (pixel2 : Int)))
      Double.toUint8 (IEEE.clampDouble (Double.add rnd blendedPixel (Double.fin (1/2)))
        (Double.fin 0) (Double.ofInt img1.maxval)) >>= fun level =>
      ImageSetPixel img1 (x + i) (y + j) level) img1) img1

/-! ## Statistics, search and filtering -/

/-- The C loop `for (int k = lo; k <= hi; ++k) body`, threading the state `s`. -/
def forFromTo {σ : Type} (lo hi : Int) (body : Int → σ → Option σ) (s : σ) : Option σ :=
  (List.range (hi + 1 - lo).toNat).foldlM (fun acc (k : Nat) => body (lo + (k : Int)) acc) s

/-- The C loop `for (int k = 0; k < n; ++k) body` whose body may `return` a value
of the enclosing function: `some r` is "returned `r`", `none` is "fell
through"; once a value has been returned no further iteration runs. -/
def forRangeRet {ρ : Type} (n : Int) (body : Int → Option (Option ρ)) : Option (Option ρ) :=
  (List.range n.toNat).foldlM (fun (acc : Option ρ) (k : Nat) =>
    match acc with
    | some r => some (some r)
    | none => body (k : Int)) none

/-- Function `ImageStats` of the C source: `min` and `max` are the values found in
`*min` and `*max` on entry, the result is the pair left there on return. -/
def ImageStats (img : Image) (min max : Nat) : Option (Nat × Nat) :=
  forRange img.height (fun y mm =>
    forRange img.width (fun x mm =>
      ImageGetPixel img x y >>= fun pixelValue =>
      let mm1 : Nat × Nat := if pixelValue < mm.1 then (pixelValue, mm.2) else mm
      let mm2 : Nat × Nat := if pixelValue > mm1.2 then (mm1.1, pixelValue) else mm1
      some mm2) mm) (min, max)

/-- Function `minInt` of the C source. -/
def minInt (x y : Int) : Int :=
  if x < y then x else y

/-- Function `clampInt` of the C source. -/
def clampInt (x min max : Int) : Int :=
  if x < min then min
  else if x > max then max
  else x

/-- Function `ImageMatchSubImage` of the C source: `some 1` or `some 0`. -/
def ImageMatchSubImage (img1 : Image) (x y : Int) (img2 : Image) : Option Int :=
  assert (ImageValidPos img1 x y) >>= fun _ =>
  forRangeRet (minInt (img1.height - y) img2.width) (fun j =>
    forRangeRet (minInt (img1.width - x) img2.height) (fun i =>
      ImageGetPixel img1 (x + i) (y + j) >>= fun p1 =>
      ImageGetPixel img2 i j >>= fun p2 =>
      if p1 ≠ p2 then some (some 0) else some none)) >>= fun r =>
  match r with
  | some v => some v
  | none => some 1

/-- Function `ImageLocateSubImage` of the C source: `px` and `py` are the values
of `*px` and `*py` on entry; the result is the returned `int` with the values
left in `*px` and `*py`.  The loop tests `j <= n` are written `j < n + 1`. -/
def ImageLocateSubImage (img1 : Image) (px py : Int) (img2 : Image) :
    Option (Int × Int × Int) :=
  ImageValidRect img1 0 0 img2.width img2.height >>= fun ok =>
  assert ok >>= fun _ =>
  forRangeRet (img1.height - img2.height + 1) (fun j =>
    forRangeRet (img1.width - img2.width + 1) (fun i =>
      ImageMatchSubImage img1 i j img2 >>= fun m =>
      if m ≠ 0 then some (some ((1 : Int), i, j)) else some none)) >>= fun r =>
  match r with
  | some v => some v
  | none => some (0, px, py)

/-- Function `ImageBlur` of the C source; returns the new `img`.  Every `int`
operation is written out (`addInt`, `subInt`, `mulInt`): `x - dx`,
`img->width - 1`, `x + dx`, the same for `y`, `sum += pixel`, and
`(end_x - start_x + 1) * (end_y - start_y + 1)`. -/
def ImageBlur (img : Image) (dx dy : Int) : Option Image :=
  assert (decide (dx ≥ 0)) >>= fun _ =>
  assert (decide (dy ≥ 0)) >>= fun _ =>
  ImageCreate img.width img.height (toUint8 img.maxval) >>= fun blurred =>
  forRange img.height (fun y blurred =>
    forRange img.width (fun x blurred =>
      subInt x dx >>= fun x_lo =>
      subInt img.width 1 >>= fun w_max =>
      addInt x dx >>= fun x_hi =>
      subInt y dy >>= fun y_lo =>
      subInt img.height 1 >>= fun h_max =>
      addInt y dy >>= fun y_hi =>
      let start_x := clampInt x_lo 0 w_max
      let end_x := clampInt x_hi 0 w_max
      let start_y := clampInt y_lo 0 h_max
      let end_y := clampInt y_hi 0 h_max
      forFromTo start_y end_y (fun j sum =>
        forFromTo start_x end_x (fun i sum =>
          ImageGetPixel img i j >>= fun p => addInt sum (p : Int)) sum) (0 : Int)
        >>= fun sum =>
      subInt end_x start_x >>= fun span_x =>
      addInt span_x 1 >>= fun count_x =>
      subInt end_y start_y >>= fun span_y =>
      addInt span_y 1 >>= fun count_y =>
      mulInt count_x count_y >>= fun count =>
      ImageSetPixel blurred x y
        (doubleToUint8 ((sum : ℚ) / (count : ℚ) + 1/2))) blurred) blurred >>= fun blurred =>
  ImagePaste img 0 0 blurred

/-! ## Reference definitions, from the words of the specification -/

/-- The level at `(x, y)` by the data model of the specification: entry
`y * width + x` of the pixel sequence when `0 ≤ x < width` and `0 ≤ y < height`
(0 outside the image). -/
def pixelAt (img : Image) (x y : Int) : Nat :=
  if 0 ≤ x ∧ x < img.width ∧ 0 ≤ y ∧ y < img.height then
    img.pixel.getD (y * img.width + x).toNat 0
  else 0

/-- The `clamp(v, lo, hi)` of the specification: `v` brought into `[lo, hi]`. -/
def clampSpec (v lo hi : Int) : Int := max lo (min v hi)

/-- The sum of the levels of `img` in the window `[x0, x1] × [y0, y1]`. -/
def windowSum (img : Image) (x0 x1 y0 y1 : Int) : Nat :=
  Finset.sum (Finset.Icc y0 y1) fun j => Finset.sum (Finset.Icc x0 x1) fun i => pixelAt img i j

/-- The number of positions of the window `[x0, x1] × [y0, y1]`. -/
def windowCount (x0 x1 y0 y1 : Int) : Nat :=
  (Finset.Icc x0 x1 ×ˢ Finset.Icc y0 y1).card

/-- The blurred level of the specification at `(x, y)`: the mean of the levels of
`img` in the window `[clamp(x-dx,0,W-1), clamp(x+dx,0,W-1)] ×
[clamp(y-dy,0,H-1), clamp(y+dy,0,H-1)]`, rounded half up: `floor (S / N + 1/2)`. -/
def blurLevel (img : Image) (dx dy x y : Int) : Int :=
  let x0 := clampSpec (x - dx) 0 (img.width - 1)
  let x1 := clampSpec (x + dx) 0 (img.width - 1)
  let y0 := clampSpec (y - dy) 0 (img.height - 1)
  let y1 := clampSpec (y + dy) 0 (img.height - 1)
  Int.floor ((windowSum img x0 x1 y0 y1 : ℚ) / (windowCount x0 x1 y0 y1 : ℚ) + 1/2)

/-- The offsets of the reference search, in scan order: `j` outer, ascending over
`0..img1.height-img2.height`, `i` inner, ascending over `0..img1.width-img2.width`. -/
def scanOffsets (img1 img2 : Image) : List (Int × Int) :=
  (List.range (img1.height - img2.height + 1).toNat).flatMap fun (j : Nat) =>
    (List.range (img1.width - img2.width + 1).toNat).map fun (i : Nat) => ((i : Int), (j : Int))

/-- The first offset of the list at which `ImageMatchSubImage` succeeds (`some
none` when there is none); a faulting comparison makes the search fault. -/
def firstMatch (img1 img2 : Image) : List (Int × Int) → Option (Option (Int × Int))
  | [] => some none
  | o :: rest =>
    ImageMatchSubImage img1 o.1 o.2 img2 >>= fun m =>
    if m ≠ 0 then some (some o) else firstMatch img1 img2 rest

/-- The reference search of the specification: 1 and the first matching offset
of the scan, or 0 and the prior values of the output variables. -/
def locateReference (img1 : Image) (px py : Int) (img2 : Image) : Option (Int × Int × Int) :=
  ImageValidRect img1 0 0 img2.width img2.height >>= fun ok =>
  assert ok >>= fun _ =>
  firstMatch img1 img2 (scanOffsets img1 img2) >>= fun r =>
  match r with
  | some o => some (1, o.1, o.2)
  | none => some (0, px, py)

/-- A scan of a list of keys with early `return`: the list form of `forRangeRet`. -/
def scanRet {κ ρ : Type} (body : κ → Option (Option ρ)) : List κ → Option (Option ρ)
  | [] => some none
  | k :: rest =>
    body k >>= fun r =>
    match r with
    | some v => some (some v)
    | none => scanRet body rest

/-! ## Well-formed images -/

/-- What every image built by the module satisfies: the dimensions are
non-negative, `maxval` is in `1..255`, the pixel array has `width * height`
entries and every entry is an 8-bit value. -/
def Image.WF (img : Image) : Prop :=
  0 ≤ img.width ∧ 0 ≤ img.height ∧ 0 < img.maxval ∧ img.maxval ≤ 255 ∧
  img.pixel.length = (img.width * img.height).toNat ∧ ∀ p ∈ img.pixel, p < 256

instance (img : Image) : Decidable img.WF := by
  unfold Image.WF; infer_instance

/-- The data-model invariant of the specification: every pixel is at most `maxval`. -/
def Image.InRange (img : Image) : Prop :=
  ∀ p ∈ img.pixel, Int.ofNat p ≤ img.maxval

instance (img : Image) : Decidable img.InRange := by
  unfold Image.InRange; infer_instance

/-- The 4x3 image of the specification's scenario: all 0 except `(2,1) = 200`. -/
def scenario43 : Image :=
  { width := 4, height := 3, maxval := 255,
    pixel := [0, 0, 0, 0, 0, 0, 200, 0, 0, 0, 0, 0] }

/-- A 3x2 test image with distinct levels. -/
def sample32 : Image :=
  { width := 3, height := 2, maxval := 255, pixel := [1, 2, 3, 4, 5, 6] }

/-- A 1x1 image of maxval 100 holding level 0. -/
def dark100 : Image := { width := 1, height := 1, maxval := 100, pixel := [0] }

/-- A 1x1 image of maxval 255 holding level 200. -/
def bright255 : Image := { width := 1, height := 1, maxval := 255, pixel := [200] }

/-- A 2x1 image of maxval 255. -/
def pair21 : Image := { width := 2, height := 1, maxval := 255, pixel := [7, 9] }

/-- A 2x1 image of maxval 255 that differs from `pair21` at `(1, 0)` only. -/
def pair21b : Image := { width := 2, height := 1, maxval := 255, pixel := [7, 8] }

/-- A 1x1 image of maxval 255 holding level 5. -/
def single5 : Image := { width := 1, height := 1, maxval := 255, pixel := [5] }

/-- The empty image of maxval 255. -/
def empty00 : Image := { width := 0, height := 0, maxval := 255, pixel := [] }

/-- A 3x3 image of maxval 255, all 10. -/
def uniform33 : Image :=
  { width := 3, height := 3, maxval := 255, pixel := [10, 10, 10, 10, 10, 10, 10, 10, 10] }

/-- A 3x3 image of maxval 255, all 0. -/
def zero33 : Image :=
  { width := 3, height := 3, maxval := 255, pixel := [0, 0, 0, 0, 0, 0, 0, 0, 0] }

/-- A 1x2 image (one column, two rows) of maxval 255, all 0. -/
def column12 : Image := { width := 1, height := 2, maxval := 255, pixel := [0, 0] }

/-- The image of width 0 and height 3, of maxval 255: it has no pixel. -/
def empty03 : Image := { width := 0, height := 3, maxval := 255, pixel := [] }

/-- A 2x1 image of maxval 255 with levels 0 and 100. -/
def step21 : Image := { width := 2, height := 1, maxval := 255, pixel := [0, 100] }

/-- A 2x1 image of maxval 255 with levels 2 and 3: the pixels `(1, 0)` and
`(2, 0)` of `sample32`. -/
def pair23 : Image := { width := 2, height := 1, maxval := 255, pixel := [2, 3] }

/-! ## Loop reasoning -/

/-- The linear index of position `(x, y)` in a raster of width `W`. -/
def lin (W x y : Int) : Nat := (y * W + x).toNat

/-- Pixel `i` of the raster of `s` (0 outside the array). -/
def Image.rd (s : Image) (i : Nat) : Nat := s.pixel.getD i 0

/-- The image `s` has the given dimensions and `maxval`, and an array of matching size. -/
def Shaped (W H M : Int) (s : Image) : Prop :=
  s.width = W ∧ s.height = H ∧ s.maxval = M ∧ s.pixel.length = (W * H).toNat

theorem foldlM_range_spec {σ : Type} (P : σ → Prop) (rd : σ → Nat → Nat)
    (body : Int → σ → Option σ) (I : Int → Nat → Prop) (post : Nat → Nat → Nat → Prop)
    (m : Nat)
    (hdisj : ∀ a b : Nat, a < b → b < m → ∀ i, I (a : Int) i → ¬ I (b : Int) i)
    (hstep : ∀ k : Nat, k < m → ∀ s, P s → ∃ s2, body (k : Int) s = some s2 ∧ P s2 ∧
      (∀ i, I (k : Int) i → post i (rd s i) (rd s2 i)) ∧
      (∀ i, ¬ I (k : Int) i → rd s2 i = rd s i))
    (s0 : σ) (h0 : P s0) :
    ∃ s2, (List.range m).foldlM (fun acc (k : Nat) => body (k : Int) acc) s0 = some s2 ∧ P s2 ∧
      (∀ i, (∃ k : Nat, k < m ∧ I (k : Int) i) → post i (rd s0 i) (rd s2 i)) ∧
      (∀ i, (∀ k : Nat, k < m → ¬ I (k : Int) i) → rd s2 i = rd s0 i) := by
  induction m with
  | zero =>
    refine ⟨s0, by simp, h0, ?_, ?_⟩
    · rintro i ⟨k, hk, _⟩; omega
    · intro i _; rfl
  | succ m ih =>
    have hd : ∀ a b : Nat, a < b → b < m → ∀ i, I (a : Int) i → ¬ I (b : Int) i :=
      fun a b hab hb => hdisj a b hab (by omega)
    obtain ⟨s1, hrun, hP1, hin1, hout1⟩ := ih hd (fun k hk => hstep k (by omega))
    obtain ⟨s2, hrun2, hP2, hin2, hout2⟩ := hstep m (by omega) s1 hP1
    refine ⟨s2, ?_, hP2, ?_, ?_⟩
    · rw [List.range_succ, List.foldlM_append, hrun]
      simp [hrun2]
    · rintro i ⟨k, hk, hI⟩
      by_cases hkm : k = m
      · subst hkm
        have : rd s1 i = rd s0 i := hout1 i (fun a ha hIa => hdisj a k ha (by omega) i hIa hI)
        rw [← this]; exact hin2 i hI
      · have hlt : k < m := by omega
        have hnot : ¬ I (m : Int) i := hdisj k m hlt (by omega) i hI
        rw [hout2 i hnot]; exact hin1 i ⟨k, hlt, hI⟩
    · intro i hall
      rw [hout2 i (hall m (by omega)), hout1 i (fun k hk => hall k (by omega))]

/-- The rule for a `for` loop whose iterations act on pairwise disjoint sets of
pixels: iteration `k` changes the pixels of `I k` as `post` says and no other. -/
theorem forRange_spec {σ : Type} (P : σ → Prop) (rd : σ → Nat → Nat)
    (body : Int → σ → Option σ) (I : Int → Nat → Prop) (post : Nat → Nat → Nat → Prop)
    (n : Int)
    (hdisj : ∀ a b : Int, 0 ≤ a → a < b → b < n → ∀ i, I a i → ¬ I b i)
    (hstep : ∀ k : Int, 0 ≤ k → k < n → ∀ s, P s → ∃ s2, body k s = some s2 ∧ P s2 ∧
      (∀ i, I k i → post i (rd s i) (rd s2 i)) ∧ (∀ i, ¬ I k i → rd s2 i = rd s i))
    (s0 : σ) (h0 : P s0) :
    ∃ s2, forRange n body s0 = some s2 ∧ P s2 ∧
      (∀ i, (∃ k : Int, 0 ≤ k ∧ k < n ∧ I k i) → post i (rd s0 i) (rd s2 i)) ∧
      (∀ i, (∀ k : Int, 0 ≤ k → k < n → ¬ I k i) → rd s2 i = rd s0 i) := by
  have key := foldlM_range_spec P rd body I post n.toNat
    (fun a b hab hb => hdisj a b (by omega)
      (by omega) (by omega))
    (fun k hk => hstep k (by omega) (by omega)) s0 h0
  obtain ⟨s2, hrun, hP, hin, hout⟩ := key
  refine ⟨s2, hrun, hP, ?_, ?_⟩
  · rintro i ⟨k, hk0, hkn, hI⟩
    refine hin i ⟨k.toNat, by omega, ?_⟩
    have : ((k.toNat : Nat) : Int) = k := by omega
    rw [this]; exact hI
  · intro i hall
    exact hout i (fun k hk => hall k (by omega) (by omega))

/-- The rule for the raster scan `for y < H: for x < W: body x y`, each
iteration replacing the pixel at index `idx x y` by `val x y old`. -/
theorem raster_spec {σ : Type} (P : σ → Prop) (rd : σ → Nat → Nat)
    (body : Int → Int → σ → Option σ) (wOf : σ → Int) (W H : Int)
    (idx : Int → Int → Nat) (val : Int → Int → Nat → Nat)
    (hW : ∀ s, P s → wOf s = W)
    (hinj : ∀ x y x2 y2 : Int, 0 ≤ x → x < W → 0 ≤ y → y < H → 0 ≤ x2 → x2 < W →
      0 ≤ y2 → y2 < H → idx x y = idx x2 y2 → x = x2 ∧ y = y2)
    (hstep : ∀ x y : Int, 0 ≤ x → x < W → 0 ≤ y → y < H → ∀ s, P s →
      ∃ s2, body x y s = some s2 ∧ P s2 ∧ rd s2 (idx x y) = val x y (rd s (idx x y)) ∧
        ∀ i, i ≠ idx x y → rd s2 i = rd s i)
    (s0 : σ) (h0 : P s0) :
    ∃ s2, forRange H (fun y s => forRange (wOf s) (fun x s => body x y s) s) s0 = some s2 ∧
      P s2 ∧
      (∀ x y : Int, 0 ≤ x → x < W → 0 ≤ y → y < H →
        rd s2 (idx x y) = val x y (rd s0 (idx x y))) ∧
      (∀ i, (∀ x y : Int, 0 ≤ x → x < W → 0 ≤ y → y < H → i ≠ idx x y) →
        rd s2 i = rd s0 i) := by
  let post : Nat → Nat → Nat → Prop := fun i old new =>
    ∀ x y : Int, 0 ≤ x → x < W → 0 ≤ y → y < H → i = idx x y → new = val x y old
  have hrow : ∀ y : Int, 0 ≤ y → y < H → ∀ s, P s →
      ∃ s2, forRange (wOf s) (fun x s => body x y s) s = some s2 ∧ P s2 ∧
        (∀ i, (∃ x : Int, 0 ≤ x ∧ x < W ∧ i = idx x y) → post i (rd s i) (rd s2 i)) ∧
        (∀ i, ¬ (∃ x : Int, 0 ≤ x ∧ x < W ∧ i = idx x y) → rd s2 i = rd s i) := by
    intro y hy0 hyH s hs
    rw [hW s hs]
    obtain ⟨s2, hrun, hP, hin, hout⟩ := forRange_spec P rd (fun x s => body x y s)
      (fun x i => i = idx x y) post W
      (fun a b ha hab hb i hia hib => by
        have := (hinj a y b y ha (by omega) hy0 hyH (by omega) hb hy0 hyH
          (hia.symm.trans hib)).1
        omega)
      (fun x hx0 hxW t ht => by
        obtain ⟨t2, hrun, hP, hval, hframe⟩ := hstep x y hx0 hxW hy0 hyH t ht
        refine ⟨t2, hrun, hP, ?_, fun i hi => hframe i hi⟩
        intro i hi x2 y2 hx2 hx2W hy2 hy2H hi2
        obtain ⟨rfl, rfl⟩ := hinj x y x2 y2 hx0 hxW hy0 hyH hx2 hx2W hy2 hy2H
          (hi.symm.trans hi2)
        subst hi
        exact hval)
      s hs
    refine ⟨s2, hrun, hP, hin, ?_⟩
    intro i hi
    exact hout i (fun k hk0 hkW hik => hi ⟨k, hk0, hkW, hik⟩)
  obtain ⟨s2, hrun, hP, hin, hout⟩ := forRange_spec P rd
    (fun y s => forRange (wOf s) (fun x s => body x y s) s)
    (fun y i => ∃ x : Int, 0 ≤ x ∧ x < W ∧ i = idx x y) post H
    (fun a b ha hab hb i hia hib => by
      obtain ⟨xa, hxa0, hxaW, hia⟩ := hia
      obtain ⟨xb, hxb0, hxbW, hib⟩ := hib
      have := (hinj xa a xb b hxa0 hxaW ha (by omega) hxb0 hxbW (by omega) hb
        (hia.symm.trans hib)).2
      omega)
    hrow s0 h0
  refine ⟨s2, hrun, hP, ?_, ?_⟩
  · intro x y hx0 hxW hy0 hyH
    exact hin (idx x y) ⟨y, hy0, hyH, x, hx0, hxW, rfl⟩ x y hx0 hxW hy0 hyH rfl
  · intro i hi
    exact hout i (fun y hy0 hyH ⟨x, hx0, hxW, hix⟩ => hi x y hx0 hxW hy0 hyH hix)

/-! ## Raster addressing -/

theorem lin_lt {W H x y : Int} (hx0 : 0 ≤ x) (hxW : x < W) (hy0 : 0 ≤ y) (hyH : y < H) :
    0 ≤ y * W + x ∧ y * W + x < W * H := by
  have h1 : 0 ≤ y * W := Int.mul_nonneg hy0 (by omega)
  have h2 : (y + 1) * W ≤ H * W := Int.mul_le_mul_of_nonneg_right (by omega) (by omega)
  constructor
  · omega
  · have h3 : (y + 1) * W = y * W + W := by ring
    have h4 : H * W = W * H := Int.mul_comm H W
    omega

theorem lin_inj {W x y x2 y2 : Int} (hx0 : 0 ≤ x) (hxW : x < W) (hy0 : 0 ≤ y)
    (hx20 : 0 ≤ x2) (hx2W : x2 < W) (hy20 : 0 ≤ y2) (h : lin W x y = lin W x2 y2) :
    x = x2 ∧ y = y2 := by
  unfold lin at h
  have h1 : 0 ≤ y * W := Int.mul_nonneg hy0 (by omega)
  have h2 : 0 ≤ y2 * W := Int.mul_nonneg hy20 (by omega)
  have h3 : y * W + x = y2 * W + x2 := by omega
  have hy : y = y2 := by
    rcases lt_trichotomy y y2 with hlt | heq | hgt
    · have : (y + 1) * W ≤ y2 * W := Int.mul_le_mul_of_nonneg_right (by omega) (by omega)
      have h5 : (y + 1) * W = y * W + W := by ring
      omega
    · exact heq
    · have : (y2 + 1) * W ≤ y * W := Int.mul_le_mul_of_nonneg_right (by omega) (by omega)
      have h5 : (y2 + 1) * W = y2 * W + W := by ring
      omega
  subst hy
  exact ⟨by omega, rfl⟩

theorem lin_surj {W H : Int} {i : Nat} (hW0 : 0 ≤ W) (hi : i < (W * H).toNat) :
    ∃ x y : Int, 0 ≤ x ∧ x < W ∧ 0 ≤ y ∧ y < H ∧ i = lin W x y := by
  have hpos : 0 < W * H := by omega
  have hW : 0 < W := by
    rcases hW0.lt_or_eq with h | h
    · exact h
    · subst h; simp at hpos
  have hiWH : (i : Int) < H * W := by rw [Int.mul_comm]; omega
  refine ⟨(i : Int) % W, (i : Int) / W, Int.emod_nonneg _ (by omega),
    Int.emod_lt_of_pos _ hW, Int.ediv_nonneg (by omega) hW0,
    Int.ediv_lt_of_lt_mul hW hiWH, ?_⟩
  unfold lin
  have := Int.ediv_add_emod (i : Int) W
  have h2 : (i : Int) / W * W = W * ((i : Int) / W) := Int.mul_comm _ _
  omega

/-- Reading a valid position of a shaped image. -/
theorem getPixel_shaped {W H M : Int} {s : Image} (hs : Shaped W H M s) {x y : Int}
    (hx0 : 0 ≤ x) (hxW : x < W) (hy0 : 0 ≤ y) (hyH : y < H) :
    ImageGetPixel s x y = some (s.rd (lin W x y)) := by
  obtain ⟨hw, hh, _, hlen⟩ := hs
  obtain ⟨h1, h2⟩ := lin_lt hx0 hxW hy0 hyH
  have hlt : (y * W + x).toNat < s.pixel.length := by omega
  simp [ImageGetPixel, ImageValidPos, G, assert, hw, hh, hx0, hxW, hy0, hyH, h1, h2,
    Image.rd, lin, List.getD_eq_getElem?_getD, List.getElem?_eq_getElem hlt]

/-- Writing a valid position of a shaped image. -/
theorem setPixel_shaped {W H M : Int} {s : Image} (hs : Shaped W H M s) {x y : Int}
    (hx0 : 0 ≤ x) (hxW : x < W) (hy0 : 0 ≤ y) (hyH : y < H) (v : Nat) :
    ∃ s2, ImageSetPixel s x y v = some s2 ∧ Shaped W H M s2 ∧
      s2.rd (lin W x y) = v ∧ ∀ i, i ≠ lin W x y → s2.rd i = s.rd i := by
  obtain ⟨hw, hh, hm, hlen⟩ := hs
  obtain ⟨h1, h2⟩ := lin_lt hx0 hxW hy0 hyH
  have hlt : (y * W + x).toNat < s.pixel.length := by omega
  refine ⟨{ s with pixel := s.pixel.set (lin W x y) v }, ?_, ⟨hw, hh, hm, by simpa using hlen⟩,
    ?_, ?_⟩
  · simp [ImageSetPixel, ImageValidPos, G, assert, hw, hh, hx0, hxW, hy0, hyH, h1, h2, hlt, lin]
  · simp [Image.rd, lin, List.getD_eq_getElem?_getD, hlt]
  · intro i hi
    simp [Image.rd, List.getD_eq_getElem?_getD, List.getElem?_set_ne (Ne.symm hi)]

/-- Two shaped images of the same shape with the same pixel at every valid
position are equal. -/
theorem shaped_ext {W H M : Int} {a b : Image} (hW0 : 0 ≤ W) (ha : Shaped W H M a)
    (hb : Shaped W H M b)
    (h : ∀ x y : Int, 0 ≤ x → x < W → 0 ≤ y → y < H → a.rd (lin W x y) = b.rd (lin W x y)) :
    a = b := by
  obtain ⟨haw, hah, ham, hal⟩ := ha
  obtain ⟨hbw, hbh, hbm, hbl⟩ := hb
  have hpix : a.pixel = b.pixel := by
    apply List.ext_getElem (by omega)
    intro i h1 h2
    obtain ⟨x, y, hx0, hxW, hy0, hyH, rfl⟩ := lin_surj hW0 (by omega : i < (W * H).toNat)
    have := h x y hx0 hxW hy0 hyH
    simpa [Image.rd, List.getD_eq_getElem?_getD, List.getElem?_eq_getElem h1,
      List.getElem?_eq_getElem h2] using this
  cases a; cases b
  simp_all

theorem shaped_of_wf {img : Image} (h : img.WF) :
    Shaped img.width img.height img.maxval img :=
  ⟨rfl, rfl, rfl, h.2.2.2.2.1⟩

theorem create_shaped {W H M : Int} (hW : 0 ≤ W) (hH : 0 ≤ H) (hM0 : 0 < M) (hM : M ≤ 255) :
    ∃ s, ImageCreate W H (toUint8 M) = some s ∧ Shaped W H M s ∧ ∀ i, s.rd i = 0 := by
  have hm : ((M % 256).toNat : Int) = M := by omega
  have hm1 : 0 < (M % 256).toNat := by omega
  have hm2 : (M % 256).toNat ≤ 255 := by omega
  refine ⟨{ width := W, height := H, maxval := M,
             pixel := List.replicate (W * H).toNat 0 }, ?_, ⟨rfl, rfl, rfl, by simp⟩, ?_⟩
  · simp [ImageCreate, assert, toUint8, PixMax, hW, hH, hm1, hm2, hm]
  · intro i
    simp only [Image.rd, List.getD_eq_getElem?_getD, List.getElem?_replicate]
    split <;> rfl

/-- The rule for a raster scan over `w × h` whose iteration `(x, y)` stores
`val x y old` at position `(dx x y, dy x y)` of the image being built, `old`
being the level found there. -/
theorem write_spec {W H M : Int} (body : Int → Int → Image → Option Image)
    (wOf : Image → Int) (w h : Int) (dx dy : Int → Int → Int) (val : Int → Int → Nat → Nat)
    (hW : ∀ s, Shaped W H M s → wOf s = w)
    (hpos : ∀ x y : Int, 0 ≤ x → x < w → 0 ≤ y → y < h →
      0 ≤ dx x y ∧ dx x y < W ∧ 0 ≤ dy x y ∧ dy x y < H)
    (hinj : ∀ x y x2 y2 : Int, 0 ≤ x → x < w → 0 ≤ y → y < h → 0 ≤ x2 → x2 < w →
      0 ≤ y2 → y2 < h → dx x y = dx x2 y2 → dy x y = dy x2 y2 → x = x2 ∧ y = y2)
    (hbody : ∀ x y : Int, 0 ≤ x → x < w → 0 ≤ y → y < h → ∀ s, Shaped W H M s →
      body x y s = ImageSetPixel s (dx x y) (dy x y)
        (val x y (s.rd (lin W (dx x y) (dy x y)))))
    (s0 : Image) (h0 : Shaped W H M s0) :
    ∃ r, forRange h (fun y s => forRange (wOf s) (fun x s => body x y s) s) s0 = some r ∧
      Shaped W H M r ∧
      (∀ x y : Int, 0 ≤ x → x < w → 0 ≤ y → y < h →
        r.rd (lin W (dx x y) (dy x y)) = val x y (s0.rd (lin W (dx x y) (dy x y)))) ∧
      (∀ px py : Int, 0 ≤ px → px < W → 0 ≤ py →
        (∀ x y : Int, 0 ≤ x → x < w → 0 ≤ y → y < h → ¬ (dx x y = px ∧ dy x y = py)) →
        r.rd (lin W px py) = s0.rd (lin W px py)) := by
  obtain ⟨r, hrun, hP, hin, hout⟩ := raster_spec (Shaped W H M) Image.rd body wOf w h
    (fun x y => lin W (dx x y) (dy x y)) val hW
    (fun x y x2 y2 hx0 hxw hy0 hyh hx20 hx2w hy20 hy2h hidx => by
      obtain ⟨a1, a2, a3, _⟩ := hpos x y hx0 hxw hy0 hyh
      obtain ⟨b1, b2, b3, _⟩ := hpos x2 y2 hx20 hx2w hy20 hy2h
      obtain ⟨e1, e2⟩ := lin_inj a1 a2 a3 b1 b2 b3 hidx
      exact hinj x y x2 y2 hx0 hxw hy0 hyh hx20 hx2w hy20 hy2h e1 e2)
    (fun x y hx0 hxw hy0 hyh s hs => by
      obtain ⟨a1, a2, a3, a4⟩ := hpos x y hx0 hxw hy0 hyh
      rw [hbody x y hx0 hxw hy0 hyh s hs]
      exact setPixel_shaped hs a1 a2 a3 a4 _)
    s0 h0
  refine ⟨r, hrun, hP, hin, ?_⟩
  intro px py hp0 hpW hq0 hfree
  apply hout
  intro x y hx0 hxw hy0 hyh hidx
  obtain ⟨a1, a2, a3, _⟩ := hpos x y hx0 hxw hy0 hyh
  obtain ⟨e1, e2⟩ := lin_inj a1 a2 a3 hp0 hpW hq0 hidx.symm
  exact hfree x y hx0 hxw hy0 hyh ⟨e1, e2⟩

/-- In-place point transforms: every pixel `p` becomes `g maxval p`. -/
theorem inplace_spec (g : Int → Nat → Nat) {W H M : Int} {img : Image}
    (hs : Shaped W H M img) :
    ∃ r, forRange H (fun y s => forRange s.width (fun x s =>
        ImageGetPixel s x y >>= fun p => ImageSetPixel s x y (g s.maxval p)) s) img = some r ∧
      Shaped W H M r ∧
      (∀ x y : Int, 0 ≤ x → x < W → 0 ≤ y → y < H →
        r.rd (lin W x y) = g M (img.rd (lin W x y))) := by
  obtain ⟨r, hrun, hP, hin, _⟩ := write_spec
    (fun x y s => ImageGetPixel s x y >>= fun p => ImageSetPixel s x y (g s.maxval p))
    Image.width W H (fun x _ => x) (fun _ y => y) (fun _ _ old => g M old)
    (fun s hs => hs.1)
    (fun x y hx0 hxW hy0 hyH => ⟨hx0, hxW, hy0, hyH⟩)
    (fun x y x2 y2 _ _ _ _ _ _ _ _ e1 e2 => ⟨e1, e2⟩)
    (fun x y hx0 hxW hy0 hyH s hs => by
      show (ImageGetPixel s x y >>= fun p => ImageSetPixel s x y (g s.maxval p)) =
        ImageSetPixel s x y (g M (s.rd (lin W x y)))
      rw [getPixel_shaped hs hx0 hxW hy0 hyH, hs.2.2.1]
      rfl)
    img hs
  exact ⟨r, hrun, hP, hin⟩

/-- Copying transforms: iteration `(x, y)` of a `w × h` scan reads `src` at
`(sx x y, sy x y)` and stores the level at `(dx x y, dy x y)` of the target. -/
theorem copy_spec {W H M Ws Hs Ms : Int} {src : Image} (hsrc : Shaped Ws Hs Ms src)
    (wOf : Image → Int) (w h : Int) (sx sy dx dy : Image → Int → Int → Int)
    (SX SY DX DY : Int → Int → Int)
    (hW : ∀ s, Shaped W H M s → wOf s = w)
    (hmap : ∀ s, Shaped W H M s → ∀ x y, sx s x y = SX x y ∧ sy s x y = SY x y ∧
      dx s x y = DX x y ∧ dy s x y = DY x y)
    (hspos : ∀ x y : Int, 0 ≤ x → x < w → 0 ≤ y → y < h →
      0 ≤ SX x y ∧ SX x y < Ws ∧ 0 ≤ SY x y ∧ SY x y < Hs)
    (hpos : ∀ x y : Int, 0 ≤ x → x < w → 0 ≤ y → y < h →
      0 ≤ DX x y ∧ DX x y < W ∧ 0 ≤ DY x y ∧ DY x y < H)
    (hinj : ∀ x y x2 y2 : Int, 0 ≤ x → x < w → 0 ≤ y → y < h → 0 ≤ x2 → x2 < w →
      0 ≤ y2 → y2 < h → DX x y = DX x2 y2 → DY x y = DY x2 y2 → x = x2 ∧ y = y2)
    (s0 : Image) (h0 : Shaped W H M s0) :
    ∃ r, forRange h (fun y s => forRange (wOf s) (fun x s =>
        ImageGetPixel src (sx s x y) (sy s x y) >>= fun p =>
        ImageSetPixel s (dx s x y) (dy s x y) p) s) s0 = some r ∧
      Shaped W H M r ∧
      (∀ x y : Int, 0 ≤ x → x < w → 0 ≤ y → y < h →
        r.rd (lin W (DX x y) (DY x y)) = src.rd (lin Ws (SX x y) (SY x y))) ∧
      (∀ px py : Int, 0 ≤ px → px < W → 0 ≤ py →
        (∀ x y : Int, 0 ≤ x → x < w → 0 ≤ y → y < h → ¬ (DX x y = px ∧ DY x y = py)) →
        r.rd (lin W px py) = s0.rd (lin W px py)) := by
  exact write_spec
    (fun x y s => ImageGetPixel src (sx s x y) (sy s x y) >>= fun p =>
      ImageSetPixel s (dx s x y) (dy s x y) p)
    wOf w h DX DY (fun x y _ => src.rd (lin Ws (SX x y) (SY x y))) hW hpos hinj
    (fun x y hx0 hxw hy0 hyh s hs => by
      obtain ⟨e1, e2, e3, e4⟩ := hmap s hs x y
      obtain ⟨a1, a2, a3, a4⟩ := hspos x y hx0 hxw hy0 hyh
      show (ImageGetPixel src (sx s x y) (sy s x y) >>= fun p =>
          ImageSetPixel s (dx s x y) (dy s x y) p) =
        ImageSetPixel s (DX x y) (DY x y) (src.rd (lin Ws (SX x y) (SY x y)))
      rw [e1, e2, e3, e4, getPixel_shaped hsrc a1 a2 a3 a4]
      rfl)
    s0 h0

/-! ## The operations, one by one -/

theorem intOp_ok {a b r : Int} (h1 : INT_MIN ≤ r) (h2 : r ≤ INT_MAX) : intOp a b r = some r := by
  simp [intOp, isInt, h1, h2]

theorem intOp_some {a b r v : Int} (h : intOp a b r = some v) : v = r := by
  unfold intOp at h
  split at h
  · simp at h
  · simp only [Option.some.injEq] at h
    exact h.symm

theorem validRect_true {img : Image} {x y w h : Int}
    (hr : ImageValidRect img x y w h = some true) :
    0 ≤ x ∧ 0 ≤ y ∧ 0 ≤ w ∧ 0 ≤ h ∧ x < img.width ∧ y < img.height ∧
      x + w ≤ img.width ∧ y + h ≤ img.height := by
  unfold ImageValidRect at hr
  have hx : 0 ≤ x := by
    by_contra hc
    simp [assert, hc] at hr
  have hy : 0 ≤ y := by
    by_contra hc
    simp [assert, hx, hc] at hr
  have hw : 0 ≤ w := by
    by_contra hc
    simp [assert, hx, hy, hc] at hr
  have hh : 0 ≤ h := by
    by_contra hc
    simp [assert, hx, hy, hw, hc] at hr
  simp only [assert, ge_iff_le, hx, hy, hw, hh, decide_True, if_true, Option.bind_eq_bind,
    Option.some_bind] at hr
  cases hv : ImageValidPos img x y with
  | false => simp [hv] at hr
  | true =>
    rw [hv] at hr
    simp only [if_true] at hr
    cases hxw : addInt x w with
    | none => simp [hxw] at hr
    | some xw =>
      rw [hxw] at hr
      simp only [Option.some_bind] at hr
      have e1 := intOp_some hxw
      subst e1
      by_cases hle : x + w ≤ img.width
      · rw [if_pos hle] at hr
        cases hyh : addInt y h with
        | none => simp [hyh] at hr
        | some yh =>
          rw [hyh] at hr
          simp only [Option.some_bind, Option.some.injEq, decide_eq_true_eq] at hr
          have e2 := intOp_some hyh
          subst e2
          have hv2 : (0 ≤ x ∧ x < img.width) ∧ 0 ≤ y ∧ y < img.height := by
            simpa [ImageValidPos] using hv
          omega
      · rw [if_neg hle] at hr
        simp at hr

/-- The whole of a non-empty image is accepted as a rectangle at the origin. -/
theorem validRect_origin {img : Image} {w h : Int} (hW : 1 ≤ img.width) (hH : 1 ≤ img.height)
    (hw : w = img.width) (hh : h = img.height) : ImageValidRect img 0 0 w h = some true := by
  subst hw hh
  have h1 : addInt 0 img.width = some (0 + img.width) := by
    unfold addInt intOp
    rw [zero_add]
    cases isInt img.width <;> simp
  have h2 : addInt 0 img.height = some (0 + img.height) := by
    unfold addInt intOp
    rw [zero_add]
    cases isInt img.height <;> simp
  have hw0 : (0 : Int) < img.width := by omega
  have hh0 : (0 : Int) < img.height := by omega
  have hw1 : (0 : Int) ≤ img.width := by omega
  have hh1 : (0 : Int) ≤ img.height := by omega
  simp [ImageValidRect, assert, ImageValidPos, h1, h2, hw0, hh0, hw1, hh1]

theorem validPos_true {img : Image} {x y : Int} (h : ImageValidPos img x y = true) :
    0 ≤ x ∧ x < img.width ∧ 0 ≤ y ∧ y < img.height := by
  simpa [ImageValidPos, and_assoc] using h

theorem crop_spec {img : Image} (hwf : img.WF) {x y w h : Int}
    (hr : ImageValidRect img x y w h = some true) :
    ∃ c, ImageCrop img x y w h = some c ∧ Shaped w h img.maxval c ∧
      ∀ i j : Int, 0 ≤ i → i < w → 0 ≤ j → j < h →
        c.rd (lin w i j) = img.rd (lin img.width (x + i) (y + j)) := by
  obtain ⟨hx, hy, hw, hh, hxW, hyH, hxw, hyh⟩ := validRect_true hr
  obtain ⟨c0, hc0, hs0, _⟩ := create_shaped hw hh hwf.2.2.1 hwf.2.2.2.1
  obtain ⟨c, hrun, hsc, hin, _⟩ := copy_spec (shaped_of_wf hwf) (fun _ => w) w h
    (fun _ i _ => x + i) (fun _ _ j => y + j) (fun _ i _ => i) (fun _ _ j => j)
    (fun i _ => x + i) (fun _ j => y + j) (fun i _ => i) (fun _ j => j)
    (fun _ _ => rfl) (fun _ _ _ _ => ⟨rfl, rfl, rfl, rfl⟩)
    (fun i j hi0 hiw hj0 hjh => by beta_reduce; omega)
    (fun i j hi0 hiw hj0 hjh => ⟨hi0, hiw, hj0, hjh⟩)
    (fun _ _ _ _ _ _ _ _ _ _ _ _ e1 e2 => ⟨e1, e2⟩) c0 hs0
  refine ⟨c, ?_, hsc, hin⟩
  unfold ImageCrop
  rw [hr]
  simp only [Option.bind_eq_bind, Option.some_bind, assert, if_true, hc0] at hrun ⊢
  rw [hrun]
  simp [hsc.1, hsc.2.1]

theorem paste_spec {W H M w h m : Int} {dst src : Image} (hd : Shaped W H M dst)
    (hsrc : Shaped w h m src) {x y : Int}
    (hr : ImageValidRect dst x y src.width src.height = some true) :
    ∃ r, ImagePaste dst x y src = some r ∧ Shaped W H M r ∧
      (∀ i j : Int, 0 ≤ i → i < w → 0 ≤ j → j < h →
        r.rd (lin W (x + i) (y + j)) = src.rd (lin w i j)) ∧
      (∀ px py : Int, 0 ≤ px → px < W → 0 ≤ py →
        ¬ (x ≤ px ∧ px < x + w ∧ y ≤ py ∧ py < y + h) →
        r.rd (lin W px py) = dst.rd (lin W px py)) := by
  obtain ⟨hx, hy, hw, hh, hxW, hyH, hxw, hyh⟩ := validRect_true hr
  rw [hd.1] at hxW
  rw [hd.2.1] at hyH
  rw [hd.1, hsrc.1] at hxw
  rw [hd.2.1, hsrc.2.1] at hyh
  obtain ⟨r, hrun, hsr, hin, hout⟩ := copy_spec hsrc (fun _ => src.width) w h
    (fun _ i _ => i) (fun _ _ j => j) (fun _ i _ => x + i) (fun _ _ j => y + j)
    (fun i _ => i) (fun _ j => j) (fun i _ => x + i) (fun _ j => y + j)
    (fun _ _ => hsrc.1) (fun _ _ _ _ => ⟨rfl, rfl, rfl, rfl⟩)
    (fun i j hi0 hiw hj0 hjh => ⟨hi0, hiw, hj0, hjh⟩)
    (fun i j hi0 hiw hj0 hjh => by beta_reduce; omega)
    (fun _ _ _ _ _ _ _ _ _ _ _ _ e1 e2 => by beta_reduce at e1 e2; omega) dst hd
  refine ⟨r, ?_, hsr, hin, ?_⟩
  · unfold ImagePaste
    rw [hr]
    simp only [Option.bind_eq_bind, Option.some_bind, assert, if_true] at hrun ⊢
    rw [hsrc.2.1]
    exact hrun
  · intro px py hp0 hpW hq0 hnot
    apply hout px py hp0 hpW hq0
    intro i j hi0 hiw hj0 hjh ⟨e1, e2⟩
    exact hnot ⟨by omega, by omega, by omega, by omega⟩

/-- Claim C1. Crop then paste back: for a well-formed image `img` and a rectangle
`(x, y, w, h)` accepted by `ImageValidRect`, `ImageCrop` returns an image `c`,
and `ImagePaste` of `c` at `(x, y)` into (a copy of) `img` returns `img` itself:
same width, height, maxval and the same pixel at every position. -/
theorem C1_crop_paste_roundtrip (img : Image) (x y w h : Int) (hwf : img.WF)
    (hr : ImageValidRect img x y w h = some true) :
    ∃ c, ImageCrop img x y w h = some c ∧ ImagePaste img x y c = some img := by
  obtain ⟨c, hc, hsc, hcpix⟩ := crop_spec hwf hr
  have hr2 : ImageValidRect img x y c.width c.height = some true := by
    rw [hsc.1, hsc.2.1]; exact hr
  obtain ⟨r, hp, hsr, hin, hout⟩ := paste_spec (shaped_of_wf hwf) hsc hr2
  refine ⟨c, hc, ?_⟩
  rw [hp]
  congr 1
  apply shaped_ext hwf.1 hsr (shaped_of_wf hwf)
  intro px py hp0 hpW hq0 hqH
  by_cases hin_rect : x ≤ px ∧ px < x + w ∧ y ≤ py ∧ py < y + h
  · have h1 := hin (px - x) (py - y) (by omega) (by omega) (by omega) (by omega)
    have h2 := hcpix (px - x) (py - y) (by omega) (by omega) (by omega) (by omega)
    have ex : x + (px - x) = px := by omega
    have ey : y + (py - y) = py := by omega
    rw [ex, ey] at h1 h2
    rw [h1, h2]
  · exact hout px py hp0 hpW hq0 hin_rect

/-- C1 at the 3x2 sample image and the rectangle `(1, 0, 2, 2)`. -/
theorem C1_crop_paste_roundtrip_witness :
    ∃ c, ImageCrop sample32 1 0 2 2 = some c ∧ ImagePaste sample32 1 0 c = some sample32 :=
  C1_crop_paste_roundtrip sample32 1 0 2 2 (by decide) (by decide)

theorem rotate_spec {W H M : Int} {img : Image} (hs : Shaped W H M img) (hW : 0 ≤ W)
    (hH : 0 ≤ H) (hM0 : 0 < M) (hM : M ≤ 255) :
    ∃ r, ImageRotate img = some r ∧ Shaped H W M r ∧
      ∀ x y : Int, 0 ≤ x → x < W → 0 ≤ y → y < H →
        r.rd (lin H y (W - 1 - x)) = img.rd (lin W x y) := by
  obtain ⟨r0, hr0, hs0, _⟩ := create_shaped hH hW hM0 hM
  obtain ⟨r, hrun, hsr, hin, _⟩ := copy_spec hs (fun _ => img.width) W H
    (fun _ x _ => x) (fun _ _ y => y) (fun _ _ y => y) (fun s x _ => s.height - 1 - x)
    (fun x _ => x) (fun _ y => y) (fun _ y => y) (fun x _ => W - 1 - x)
    (fun _ _ => hs.1) (fun s hs x y => ⟨rfl, rfl, rfl, by show s.height - 1 - x = W - 1 - x; rw [hs.2.1]⟩)
    (fun x y hx0 hxW hy0 hyH => ⟨hx0, hxW, hy0, hyH⟩)
    (fun x y hx0 hxW hy0 hyH => by beta_reduce; omega)
    (fun _ _ _ _ _ _ _ _ _ _ _ _ e1 e2 => by beta_reduce at e1 e2; omega) r0 hs0
  refine ⟨r, ?_, hsr, hin⟩
  unfold ImageRotate
  rw [hs.1, hs.2.1, hs.2.2.1, hr0]
  rw [hs.1] at hrun
  exact hrun

theorem mirror_spec {W H M : Int} {img : Image} (hs : Shaped W H M img) (hW : 0 ≤ W)
    (hH : 0 ≤ H) (hM0 : 0 < M) (hM : M ≤ 255) :
    ∃ r, ImageMirror img = some r ∧ Shaped W H M r ∧
      ∀ x y : Int, 0 ≤ x → x < W → 0 ≤ y → y < H →
        r.rd (lin W (W - 1 - x) y) = img.rd (lin W x y) := by
  obtain ⟨r0, hr0, hs0, _⟩ := create_shaped hW hH hM0 hM
  obtain ⟨r, hrun, hsr, hin, _⟩ := copy_spec hs (fun _ => img.width) W H
    (fun _ x _ => x) (fun _ _ y => y) (fun s x _ => s.width - 1 - x) (fun _ _ y => y)
    (fun x _ => x) (fun _ y => y) (fun x _ => W - 1 - x) (fun _ y => y)
    (fun _ _ => hs.1) (fun s hs x y => ⟨rfl, rfl, by show s.width - 1 - x = W - 1 - x; rw [hs.1], rfl⟩)
    (fun x y hx0 hxW hy0 hyH => ⟨hx0, hxW, hy0, hyH⟩)
    (fun x y hx0 hxW hy0 hyH => by beta_reduce; omega)
    (fun _ _ _ _ _ _ _ _ _ _ _ _ e1 e2 => by beta_reduce at e1 e2; omega) r0 hs0
  refine ⟨r, ?_, hsr, hin⟩
  unfold ImageMirror
  rw [hs.1, hs.2.1, hs.2.2.1, hr0]
  rw [hs.1] at hrun
  exact hrun

/-- Claim C2. Four rotations: for every well-formed image (any width and height
`≥ 0`, square or not) four successive `ImageRotate` calls all succeed and the
last one returns an image equal to `img`: same width, height, maxval and the
same pixel at every position. -/
theorem C2_rotate_four_times (img : Image) (hwf : img.WF) :
    (ImageRotate img >>= ImageRotate >>= ImageRotate >>= ImageRotate) = some img := by
  have hs := shaped_of_wf hwf
  obtain ⟨hW, hH, hM0, hM, _, _⟩ := hwf
  obtain ⟨r1, e1, s1, p1⟩ := rotate_spec hs hW hH hM0 hM
  obtain ⟨r2, e2, s2, p2⟩ := rotate_spec s1 hH hW hM0 hM
  obtain ⟨r3, e3, s3, p3⟩ := rotate_spec s2 hW hH hM0 hM
  obtain ⟨r4, e4, s4, p4⟩ := rotate_spec s3 hH hW hM0 hM
  simp only [Option.bind_eq_bind, e1, Option.some_bind, e2, e3, e4]
  congr 1
  apply shaped_ext hW s4 hs
  intro x y hx0 hxW hy0 hyH
  have q1 := p1 x y hx0 hxW hy0 hyH
  have q2 := p2 y (img.width - 1 - x) hy0 hyH (by omega) (by omega)
  have q3 := p3 (img.width - 1 - x) (img.height - 1 - y) (by omega) (by omega)
    (by omega) (by omega)
  have q4 := p4 (img.height - 1 - y) x (by omega) (by omega) hx0 hxW
  have ex : img.width - 1 - (img.width - 1 - x) = x := by omega
  have ey : img.height - 1 - (img.height - 1 - y) = y := by omega
  rw [ex] at q3
  rw [ey] at q4
  rw [q4, q3, q2, q1]

/-- C2 at the 3x2 sample image. -/
theorem C2_rotate_four_times_witness :
    (ImageRotate sample32 >>= ImageRotate >>= ImageRotate >>= ImageRotate) = some sample32 :=
  C2_rotate_four_times sample32 (by decide)

/-- Claim C3. Rotation mapping: for a well-formed image `src` of width `W` and
height `H`, `ImageRotate src` returns an image of width `H`, height `W` and the
same maxval whose pixel at `(y, W-1-x)` is the pixel of `src` at `(x, y)`, for
every valid position `(x, y)` of `src`. -/
theorem C3_rotate_mapping (src : Image) (hwf : src.WF) :
    ∃ dst, ImageRotate src = some dst ∧ dst.width = src.height ∧
      dst.height = src.width ∧ dst.maxval = src.maxval ∧
      ∀ x y : Int, ImageValidPos src x y = true →
        ∃ p, ImageGetPixel src x y = some p ∧
          ImageGetPixel dst y (src.width - 1 - x) = some p := by
  have hs := shaped_of_wf hwf
  obtain ⟨hW, hH, hM0, hM, _, _⟩ := hwf
  obtain ⟨r, hr, hsr, hpix⟩ := rotate_spec hs hW hH hM0 hM
  refine ⟨r, hr, hsr.1, hsr.2.1, hsr.2.2.1, ?_⟩
  intro x y hv
  obtain ⟨hx0, hxW, hy0, hyH⟩ := validPos_true hv
  refine ⟨src.rd (lin src.width x y), getPixel_shaped hs hx0 hxW hy0 hyH, ?_⟩
  rw [getPixel_shaped hsr hy0 hyH (by omega) (by omega), hpix x y hx0 hxW hy0 hyH]

/-- C3 at the 3x2 sample image. -/
theorem C3_rotate_mapping_witness :
    ∃ dst, ImageRotate sample32 = some dst ∧ dst.width = sample32.height ∧
      dst.height = sample32.width ∧ dst.maxval = sample32.maxval ∧
      ∀ x y : Int, ImageValidPos sample32 x y = true →
        ∃ p, ImageGetPixel sample32 x y = some p ∧
          ImageGetPixel dst y (sample32.width - 1 - x) = some p :=
  C3_rotate_mapping sample32 (by decide)

/-- Claim C4. Mirror twice: for every well-formed image two successive
`ImageMirror` calls succeed and return an image equal to `img`: same width,
height, maxval and the same pixel at every position. -/
theorem C4_mirror_twice (img : Image) (hwf : img.WF) :
    (ImageMirror img >>= ImageMirror) = some img := by
  have hs := shaped_of_wf hwf
  obtain ⟨hW, hH, hM0, hM, _, _⟩ := hwf
  obtain ⟨r1, e1, s1, p1⟩ := mirror_spec hs hW hH hM0 hM
  obtain ⟨r2, e2, s2, p2⟩ := mirror_spec s1 hW hH hM0 hM
  simp only [Option.bind_eq_bind, e1, Option.some_bind, e2]
  congr 1
  apply shaped_ext hW s2 hs
  intro x y hx0 hxW hy0 hyH
  have q1 := p1 x y hx0 hxW hy0 hyH
  have q2 := p2 (img.width - 1 - x) y (by omega) (by omega) hy0 hyH
  have ex : img.width - 1 - (img.width - 1 - x) = x := by omega
  rw [ex] at q2
  rw [q2, q1]

/-- C4 at the 3x2 sample image. -/
theorem C4_mirror_twice_witness :
    (ImageMirror sample32 >>= ImageMirror) = some sample32 :=
  C4_mirror_twice sample32 (by decide)

theorem rd_lt {img : Image} (h : ∀ p ∈ img.pixel, p < 256) (i : Nat) : img.rd i < 256 := by
  unfold Image.rd
  rw [List.getD_eq_getElem?_getD]
  by_cases hi : i < img.pixel.length
  · rw [List.getElem?_eq_getElem hi]
    exact h _ (List.getElem_mem hi)
  · rw [List.getElem?_eq_none (by omega)]
    decide

theorem rd_le {img : Image} (hM : 0 < img.maxval) (h : img.InRange) (i : Nat) :
    (img.rd i : Int) ≤ img.maxval := by
  unfold Image.rd
  rw [List.getD_eq_getElem?_getD]
  by_cases hi : i < img.pixel.length
  · rw [List.getElem?_eq_getElem hi]
    exact h _ (List.getElem_mem hi)
  · rw [List.getElem?_eq_none (by omega)]
    simp only [Option.getD_none, Nat.cast_zero]
    omega

theorem negative_spec {W H M : Int} {img : Image} (hs : Shaped W H M img) :
    ∃ r, ImageNegative img = some r ∧ Shaped W H M r ∧
      ∀ x y : Int, 0 ≤ x → x < W → 0 ≤ y → y < H →
        r.rd (lin W x y) = toUint8 (M - Int.ofNat (img.rd (lin W x y))) := by
  unfold ImageNegative
  rw [hs.2.1]
  exact inplace_spec (fun M p => toUint8 (M - Int.ofNat p)) hs

theorem threshold_spec {W H M : Int} {img : Image} (hs : Shaped W H M img) (thr : Nat) :
    ∃ r, ImageThreshold img thr = some r ∧ Shaped W H M r ∧
      ∀ x y : Int, 0 ≤ x → x < W → 0 ≤ y → y < H →
        r.rd (lin W x y) = toUint8 (if img.rd (lin W x y) < thr then 0 else M) := by
  unfold ImageThreshold
  rw [hs.2.1]
  exact inplace_spec (fun M p => toUint8 (if p < thr then 0 else M)) hs

theorem brighten_spec {W H M : Int} {img : Image} (hs : Shaped W H M img) (factor : ℚ) :
    ∃ r, ImageBrighten img factor = some r ∧ Shaped W H M r ∧
      ∀ x y : Int, 0 ≤ x → x < W → 0 ≤ y → y < H →
        r.rd (lin W x y) =
          doubleToUint8 (clampDouble (factor * (img.rd (lin W x y) : ℚ) + 1/2) 0 (M : ℚ)) := by
  unfold ImageBrighten
  rw [hs.2.1]
  exact inplace_spec
    (fun M p => doubleToUint8 (clampDouble (factor * (p : ℚ) + 1/2) 0 (M : ℚ))) hs

/-- Adding one half to a level `L ≤ M ≤ 255`, clamping to `[0, M]` and converting
to `uint8` gives `L` back. -/
theorem round_half (L : Nat) (M : Int) (hL : (L : Int) ≤ M) (hM : M ≤ 255) :
    doubleToUint8 (clampDouble ((L : ℚ) + 1/2) 0 (M : ℚ)) = L := by
  have hLq : (L : ℚ) ≤ (M : ℚ) := by exact_mod_cast hL
  have hL0 : (0 : ℚ) ≤ (L : ℚ) := by positivity
  unfold clampDouble doubleToUint8 toUint8
  by_cases htop : (L : ℚ) + 1/2 > (M : ℚ)
  · have hle : M ≤ (L : Int) := by
      by_contra hcon
      have h1 : (L : Int) + 1 ≤ M := by omega
      have h2 : (L : ℚ) + 1 ≤ (M : ℚ) := by exact_mod_cast h1
      linarith
    have hML : M = (L : Int) := by omega
    subst hML
    rw [if_pos htop]
    have h0 : (0 : ℚ) ≤ ((L : Int) : ℚ) := by exact_mod_cast hL0
    rw [if_pos h0, Int.floor_intCast]
    omega
  · rw [if_neg htop]
    have hnlt : ¬ ((L : ℚ) + 1/2 < 0) := by linarith
    rw [if_neg hnlt]
    have h0 : (0 : ℚ) ≤ (L : ℚ) + 1/2 := by linarith
    rw [if_pos h0]
    have hfl : Int.floor ((L : ℚ) + 1/2) = (L : Int) := by
      rw [Int.floor_eq_iff]
      constructor
      · push_cast; linarith
      · push_cast; linarith
    rw [hfl]
    omega

/-- Adding one half to any level `L`, clamping to `[0, M]` (with `0 ≤ M ≤ 255`)
and converting to `uint8` gives `min L M`. -/
theorem round_half_min (L : Nat) (M : Int) (hM0 : 0 ≤ M) (hM : M ≤ 255) :
    ((doubleToUint8 (clampDouble ((L : ℚ) + 1/2) 0 (M : ℚ)) : Nat) : Int) = min (L : Int) M := by
  by_cases hL : (L : Int) ≤ M
  · rw [round_half L M hL hM, min_eq_left hL]
  · have hlt : M < (L : Int) := by omega
    have hq : (M : ℚ) < (L : ℚ) := by exact_mod_cast hlt
    have htop : (L : ℚ) + 1/2 > (M : ℚ) := by linarith
    have h0 : (0 : ℚ) ≤ (M : ℚ) := by exact_mod_cast hM0
    unfold clampDouble doubleToUint8 toUint8
    rw [if_pos htop, if_pos h0, Int.floor_intCast, min_eq_right (by omega)]
    omega

theorem blend_spec {W H M w h m : Int} {dst src : Image} (hd : Shaped W H M dst)
    (hsrc : Shaped w h m src) {x y : Int} (alpha : ℚ)
    (hr : ImageValidRect dst x y src.width src.height = some true) :
    ∃ r, ImageBlend dst x y src alpha = some r ∧ Shaped W H M r ∧
      (∀ i j : Int, 0 ≤ i → i < w → 0 ≤ j → j < h →
        r.rd (lin W (x + i) (y + j)) =
          doubleToUint8 (clampDouble ((1 - alpha) * (dst.rd (lin W (x + i) (y + j)) : ℚ)
            + alpha * (src.rd (lin w i j) : ℚ) + 1/2) 0 (M : ℚ))) ∧
      (∀ px py : Int, 0 ≤ px → px < W → 0 ≤ py →
        ¬ (x ≤ px ∧ px < x + w ∧ y ≤ py ∧ py < y + h) →
        r.rd (lin W px py) = dst.rd (lin W px py)) := by
  obtain ⟨hx, hy, hw, hh, hxW, hyH, hxw, hyh⟩ := validRect_true hr
  rw [hd.1] at hxW
  rw [hd.2.1] at hyH
  rw [hd.1, hsrc.1] at hxw
  rw [hd.2.1, hsrc.2.1] at hyh
  obtain ⟨r, hrun, hsr, hin, hout⟩ := write_spec
    (fun i j s => ImageGetPixel s (x + i) (y + j) >>= fun pixel1 =>
      ImageGetPixel src i j >>= fun pixel2 =>
      ImageSetPixel s (x + i) (y + j)
        (doubleToUint8 (clampDouble ((1 - alpha) * (pixel1 : ℚ) + alpha * (pixel2 : ℚ) + 1/2)
          0 (s.maxval : ℚ))))
    (fun _ => src.width) w h (fun i _ => x + i) (fun _ j => y + j)
    (fun i j old => doubleToUint8 (clampDouble ((1 - alpha) * (old : ℚ)
      + alpha * (src.rd (lin w i j) : ℚ) + 1/2) 0 (M : ℚ)))
    (fun _ _ => hsrc.1)
    (fun i j hi0 hiw hj0 hjh => by beta_reduce; omega)
    (fun _ _ _ _ _ _ _ _ _ _ _ _ e1 e2 => by beta_reduce at e1 e2; omega)
    (fun i j hi0 hiw hj0 hjh s hs => by
      show (ImageGetPixel s (x + i) (y + j) >>= fun pixel1 =>
          ImageGetPixel src i j >>= fun pixel2 =>
          ImageSetPixel s (x + i) (y + j)
            (doubleToUint8 (clampDouble ((1 - alpha) * (pixel1 : ℚ) + alpha * (pixel2 : ℚ)
              + 1/2) 0 (s.maxval : ℚ)))) =
        ImageSetPixel s (x + i) (y + j)
          (doubleToUint8 (clampDouble ((1 - alpha) * (s.rd (lin W (x + i) (y + j)) : ℚ)
            + alpha * (src.rd (lin w i j) : ℚ) + 1/2) 0 (M : ℚ)))
      rw [getPixel_shaped hs (by omega) (by omega) (by omega) (by omega),
        getPixel_shaped hsrc hi0 hiw hj0 hjh, hs.2.2.1]
      rfl)
    dst hd
  refine ⟨r, ?_, hsr, hin, ?_⟩
  · unfold ImageBlend
    rw [hr]
    simp only [Option.bind_eq_bind, Option.some_bind, assert, if_true] at hrun ⊢
    rw [hsrc.2.1]
    exact hrun
  · intro px py hp0 hpW hq0 hnot
    apply hout px py hp0 hpW hq0
    intro i j hi0 hiw hj0 hjh ⟨e1, e2⟩
    exact hnot ⟨by omega, by omega, by omega, by omega⟩

/-! ## Point transforms -/

/-- Claim C5. Negative twice: for every well-formed image, `ImageNegative`
succeeds and stores at every position the 8-bit truncation of `maxval` minus
the level read, and a second `ImageNegative` returns `img` itself: every pixel
is back at its original level, with width, height and maxval unchanged. -/
theorem C5_negative_twice (img : Image) (hwf : img.WF) :
    ∃ r1, ImageNegative img = some r1 ∧
      (∀ x y : Int, ImageValidPos img x y = true →
        ∃ p, ImageGetPixel img x y = some p ∧
          ImageGetPixel r1 x y = some (toUint8 (img.maxval - Int.ofNat p))) ∧
      ImageNegative r1 = some img := by
  have hs := shaped_of_wf hwf
  obtain ⟨r1, e1, s1, p1⟩ := negative_spec hs
  obtain ⟨r2, e2, s2, p2⟩ := negative_spec s1
  refine ⟨r1, e1, ?_, ?_⟩
  · intro x y hv
    obtain ⟨hx0, hxW, hy0, hyH⟩ := validPos_true hv
    refine ⟨_, getPixel_shaped hs hx0 hxW hy0 hyH, ?_⟩
    rw [getPixel_shaped s1 hx0 hxW hy0 hyH, p1 x y hx0 hxW hy0 hyH]
  · rw [e2]
    congr 1
    apply shaped_ext hwf.1 s2 hs
    intro x y hx0 hxW hy0 hyH
    rw [p2 x y hx0 hxW hy0 hyH, p1 x y hx0 hxW hy0 hyH]
    have hlt := rd_lt hwf.2.2.2.2.2 (lin img.width x y)
    unfold toUint8
    simp only [Int.ofNat_eq_coe]
    omega

/-- C5 at the 4x3 scenario image. -/
theorem C5_negative_twice_witness :
    ∃ r1, ImageNegative scenario43 = some r1 ∧
      (∀ x y : Int, ImageValidPos scenario43 x y = true →
        ∃ p, ImageGetPixel scenario43 x y = some p ∧
          ImageGetPixel r1 x y = some (toUint8 (scenario43.maxval - Int.ofNat p))) ∧
      ImageNegative r1 = some scenario43 :=
  C5_negative_twice scenario43 (by decide)

/-- Claim C6. Negative: for every well-formed image whose pixels are all
`≤ maxval`, `ImageNegative` succeeds, keeps width, height and maxval, and
leaves at every position the level `maxval - L`, `L` being the level before. -/
theorem C6_negative_levels (img : Image) (hwf : img.WF) (hrange : img.InRange) :
    ∃ r, ImageNegative img = some r ∧ r.width = img.width ∧ r.height = img.height ∧
      r.maxval = img.maxval ∧
      ∀ x y : Int, ImageValidPos img x y = true →
        ∃ p q, ImageGetPixel img x y = some p ∧ ImageGetPixel r x y = some q ∧
          (q : Int) = img.maxval - (p : Int) := by
  have hs := shaped_of_wf hwf
  obtain ⟨r, e, sr, pr⟩ := negative_spec hs
  refine ⟨r, e, sr.1, sr.2.1, sr.2.2.1, ?_⟩
  intro x y hv
  obtain ⟨hx0, hxW, hy0, hyH⟩ := validPos_true hv
  refine ⟨_, _, getPixel_shaped hs hx0 hxW hy0 hyH, getPixel_shaped sr hx0 hxW hy0 hyH, ?_⟩
  rw [pr x y hx0 hxW hy0 hyH]
  have hle := rd_le hwf.2.2.1 hrange (lin img.width x y)
  have hM := hwf.2.2.2.1
  unfold toUint8
  simp only [Int.ofNat_eq_coe]
  omega

/-- C6 at the scenario of the specification: the 4x3 image of maxval 255, all
0 except `(2,1) = 200`, becomes all 255 except `(2,1) = 55`. -/
theorem C6_negative_levels_witness :
    scenario43.WF ∧ scenario43.InRange ∧
    ImageNegative scenario43 =
      some ⟨4, 3, 255, [255, 255, 255, 255, 255, 255, 55, 255, 255, 255, 255, 255]⟩ ∧
    ∃ r, ImageNegative scenario43 = some r ∧ r.width = scenario43.width ∧
      r.height = scenario43.height ∧ r.maxval = scenario43.maxval ∧
      ∀ x y : Int, ImageValidPos scenario43 x y = true →
        ∃ p q, ImageGetPixel scenario43 x y = some p ∧ ImageGetPixel r x y = some q ∧
          (q : Int) = scenario43.maxval - (p : Int) :=
  ⟨by decide, by decide, by decide, C6_negative_levels scenario43 (by decide) (by decide)⟩

/-- Claim C7. Threshold: for every well-formed image and every threshold `thr`,
`ImageThreshold` succeeds and leaves at every position 0 if the level before
was `< thr` and `maxval` if it was `≥ thr`; so every output pixel is 0 or
`maxval`. -/
theorem C7_threshold_levels (img : Image) (thr : Nat) (hwf : img.WF) :
    ∃ r, ImageThreshold img thr = some r ∧ r.width = img.width ∧ r.height = img.height ∧
      r.maxval = img.maxval ∧
      ∀ x y : Int, ImageValidPos img x y = true →
        ∃ p q, ImageGetPixel img x y = some p ∧ ImageGetPixel r x y = some q ∧
          (p < thr → q = 0) ∧ (thr ≤ p → (q : Int) = img.maxval) ∧
          (q = 0 ∨ (q : Int) = img.maxval) := by
  have hs := shaped_of_wf hwf
  obtain ⟨r, e, sr, pr⟩ := threshold_spec hs thr
  refine ⟨r, e, sr.1, sr.2.1, sr.2.2.1, ?_⟩
  intro x y hv
  obtain ⟨hx0, hxW, hy0, hyH⟩ := validPos_true hv
  refine ⟨_, _, getPixel_shaped hs hx0 hxW hy0 hyH, getPixel_shaped sr hx0 hxW hy0 hyH, ?_⟩
  rw [pr x y hx0 hxW hy0 hyH]
  have hM0 := hwf.2.2.1
  have hM := hwf.2.2.2.1
  unfold toUint8
  by_cases hlt : img.rd (lin img.width x y) < thr
  · rw [if_pos hlt]
    refine ⟨fun _ => by decide, fun h => by omega, Or.inl (by decide)⟩
  · rw [if_neg hlt]
    refine ⟨fun h => absurd h hlt, fun _ => by omega, Or.inr (by omega)⟩

/-- C7 at the scenario of the specification: `threshold(100)` on the 4x3 image
gives `(2,1) = 255` and 0 elsewhere. -/
theorem C7_threshold_levels_witness :
    scenario43.WF ∧
    ImageThreshold scenario43 100 =
      some ⟨4, 3, 255, [0, 0, 0, 0, 0, 0, 255, 0, 0, 0, 0, 0]⟩ ∧
    ∃ r, ImageThreshold scenario43 100 = some r ∧ r.width = scenario43.width ∧
      r.height = scenario43.height ∧ r.maxval = scenario43.maxval ∧
      ∀ x y : Int, ImageValidPos scenario43 x y = true →
        ∃ p q, ImageGetPixel scenario43 x y = some p ∧ ImageGetPixel r x y = some q ∧
          (p < 100 → q = 0) ∧ (100 ≤ p → (q : Int) = scenario43.maxval) ∧
          (q = 0 ∨ (q : Int) = scenario43.maxval) :=
  ⟨by decide, by decide, C7_threshold_levels scenario43 100 (by decide)⟩

/-- Claim C8. Brighten by 1: for every well-formed image whose pixels are all
`≤ maxval`, `ImageBrighten` with factor 1 returns `img` itself, every pixel
unchanged; and for every level `L` in `0..maxval`, clamping `1*L + 1/2` to
`[0, maxval]` and truncating gives `L`. -/
theorem C8_brighten_one_identity (img : Image) (hwf : img.WF) (hrange : img.InRange) :
    ImageBrighten img 1 = some img ∧
    ∀ L : Nat, (L : Int) ≤ img.maxval →
      doubleToUint8 (clampDouble (1 * (L : ℚ) + 1/2) 0 (img.maxval : ℚ)) = L := by
  have hs := shaped_of_wf hwf
  have harith : ∀ L : Nat, (L : Int) ≤ img.maxval →
      doubleToUint8 (clampDouble (1 * (L : ℚ) + 1/2) 0 (img.maxval : ℚ)) = L := by
    intro L hL
    rw [one_mul]
    exact round_half L img.maxval hL hwf.2.2.2.1
  refine ⟨?_, harith⟩
  obtain ⟨r, e, sr, pr⟩ := brighten_spec hs 1
  rw [e]
  congr 1
  apply shaped_ext hwf.1 sr hs
  intro x y hx0 hxW hy0 hyH
  rw [pr x y hx0 hxW hy0 hyH]
  exact harith _ (rd_le hwf.2.2.1 hrange _)

/-- C8 at the 4x3 scenario image. -/
theorem C8_brighten_one_identity_witness :
    scenario43.WF ∧ scenario43.InRange ∧ ImageBrighten scenario43 1 = some scenario43 :=
  ⟨by decide, by decide, (C8_brighten_one_identity scenario43 (by decide) (by decide)).1⟩

/-! ## Blending -/

/-- Claim C9. Blend with alpha 0: for every well-formed `dst` whose pixels are all
`≤ dst.maxval`, every well-formed `src` and every `(x, y)` at which `src` fits
inside `dst`, `ImageBlend` with alpha 0 returns `dst` itself: every pixel of
`dst` is unchanged. -/
theorem C9_blend_alpha_zero (dst src : Image) (x y : Int) (hd : dst.WF)
    (hdr : dst.InRange) (hs : src.WF)
    (hr : ImageValidRect dst x y src.width src.height = some true) :
    ImageBlend dst x y src 0 = some dst := by
  have sd := shaped_of_wf hd
  obtain ⟨r, e, sr, hin, hout⟩ := blend_spec sd (shaped_of_wf hs) 0 hr
  rw [e]
  congr 1
  apply shaped_ext hd.1 sr sd
  intro px py hp0 hpW hq0 hqH
  by_cases hrect : x ≤ px ∧ px < x + src.width ∧ y ≤ py ∧ py < y + src.height
  · have h1 := hin (px - x) (py - y) (by omega) (by omega) (by omega) (by omega)
    have ex : x + (px - x) = px := by omega
    have ey : y + (py - y) = py := by omega
    rw [ex, ey] at h1
    rw [h1]
    have : (1 - (0 : ℚ)) * (dst.rd (lin dst.width px py) : ℚ)
        + 0 * (src.rd (lin src.width (px - x) (py - y)) : ℚ) + 1/2
        = (dst.rd (lin dst.width px py) : ℚ) + 1/2 := by ring
    rw [this]
    exact round_half _ dst.maxval (rd_le hd.2.2.1 hdr _) hd.2.2.2.1
  · exact hout px py hp0 hpW hq0 hrect

/-- C9 at the 3x2 sample image, blending a 2x1 image at `(1, 1)`. -/
theorem C9_blend_alpha_zero_witness :
    ImageValidRect sample32 1 1 pair21.width pair21.height = some true ∧
    ImageBlend sample32 1 1 pair21 0 = some sample32 :=
  ⟨by decide, C9_blend_alpha_zero sample32 pair21 1 1 (by decide) (by decide) (by decide)
    (by decide)⟩

/-- Claim C10 as stated fails. `dst` is 1x1 with maxval 100 and pixel 0, `src`
is 1x1 with maxval 255 and pixel 200; both have all pixels `≤` their own maxval
and `src` fits at `(0, 0)`.  `ImageBlend` with alpha 1 leaves 100 in `dst`, not
200: the blended level is clamped to `dst.maxval`. -/
theorem blend_alpha_one_clamped_counterexample :
    dark100.WF ∧ dark100.InRange ∧ bright255.WF ∧ bright255.InRange ∧
    ImageValidRect dark100 0 0 bright255.width bright255.height = some true ∧
    ImageValidPos bright255 0 0 = true ∧
    ImageGetPixel bright255 0 0 = some 200 ∧
    ImageBlend dark100 0 0 bright255 1 = some ⟨1, 1, 100, [100]⟩ ∧
    ImageGetPixel ⟨1, 1, 100, [100]⟩ (0 + 0) (0 + 0) = some 100 := by
  refine ⟨by decide, by decide, by decide, by decide, by decide, by decide, by decide, ?_,
    by decide⟩
  have sd : Shaped 1 1 100 dark100 := ⟨rfl, rfl, rfl, rfl⟩
  have ss : Shaped 1 1 255 bright255 := ⟨rfl, rfl, rfl, rfl⟩
  have hfit : ImageValidRect dark100 0 0 bright255.width bright255.height = some true := by
    decide
  have sres : Shaped 1 1 100 (⟨1, 1, 100, [100]⟩ : Image) := ⟨rfl, rfl, rfl, rfl⟩
  obtain ⟨r, e, sr, hin, _⟩ := blend_spec sd ss 1 hfit
  rw [e]
  congr 1
  apply shaped_ext (by decide) sr sres
  intro px py h1 h2 h3 h4
  have hx : px = 0 := by omega
  have hy : py = 0 := by omega
  subst hx hy
  have hpix := hin 0 0 (by decide) (by decide) (by decide) (by decide)
  have hd0 : dark100.rd (lin 1 (0 + 0) (0 + 0)) = 0 := by decide
  have hs0 : bright255.rd (lin 1 0 0) = 200 := by decide
  rw [hd0, hs0] at hpix
  have hsum : (1 - (1 : ℚ)) * ((0 : Nat) : ℚ) + 1 * ((200 : Nat) : ℚ) + 1/2
      = ((200 : Nat) : ℚ) + 1/2 := by ring
  rw [hsum] at hpix
  have hmin := round_half_min 200 100 (by decide) (by decide)
  have hval : min ((200 : Nat) : Int) 100 = 100 := by decide
  rw [hval] at hmin
  have hres : r.rd (lin 1 0 0) = 100 := by
    have h0 : lin 1 (0 + 0) (0 + 0) = lin 1 0 0 := by decide
    rw [h0] at hpix
    rw [hpix]
    exact_mod_cast hmin
  rw [hres]
  decide

/-- Claim C10, amended. Blend with alpha 1: for every well-formed `dst` and
`src` (each with all pixels `≤` its own maxval) and every `(x, y)` at which
`src` fits inside `dst`, `ImageBlend` with alpha 1 succeeds and leaves at
`(x+i, y+j)` the level `min (src pixel at (i,j)) dst.maxval`, for every valid
position `(i, j)` of `src`; this is exactly the pixel of `src` whenever that
pixel is `≤ dst.maxval`. -/
theorem C10_blend_alpha_one (dst src : Image) (x y : Int) (hd : dst.WF)
    (_hdr : dst.InRange) (hs : src.WF) (_hsr : src.InRange)
    (hr : ImageValidRect dst x y src.width src.height = some true) :
    ∃ r, ImageBlend dst x y src 1 = some r ∧
      ∀ i j : Int, ImageValidPos src i j = true →
        ∃ p q, ImageGetPixel src i j = some p ∧ ImageGetPixel r (x + i) (y + j) = some q ∧
          (q : Int) = min (p : Int) dst.maxval ∧ ((p : Int) ≤ dst.maxval → q = p) := by
  have sd := shaped_of_wf hd
  have ss := shaped_of_wf hs
  obtain ⟨hx, hy, hw, hh, hxW, hyH, hxw, hyh⟩ := validRect_true hr
  obtain ⟨r, e, sr, hin, _⟩ := blend_spec sd ss 1 hr
  refine ⟨r, e, ?_⟩
  intro i j hv
  obtain ⟨hi0, hiw, hj0, hjh⟩ := validPos_true hv
  have hq : (r.rd (lin dst.width (x + i) (y + j)) : Int)
      = min (src.rd (lin src.width i j) : Int) dst.maxval := by
    rw [hin i j hi0 hiw hj0 hjh]
    have : (1 - (1 : ℚ)) * (dst.rd (lin dst.width (x + i) (y + j)) : ℚ)
        + 1 * (src.rd (lin src.width i j) : ℚ) + 1/2
        = (src.rd (lin src.width i j) : ℚ) + 1/2 := by ring
    rw [this]
    exact round_half_min _ dst.maxval (by have := hd.2.2.1; omega) hd.2.2.2.1
  refine ⟨_, _, getPixel_shaped ss hi0 hiw hj0 hjh,
    getPixel_shaped sr (by omega) (by omega) (by omega) (by omega), hq, ?_⟩
  intro hle
  rw [min_eq_left hle] at hq
  exact_mod_cast hq

/-- C10 (amended) at the 3x2 sample image, blending a 2x1 image at `(1, 1)`. -/
theorem C10_blend_alpha_one_witness :
    ImageValidRect sample32 1 1 pair21.width pair21.height = some true ∧
    ∃ r, ImageBlend sample32 1 1 pair21 1 = some r ∧
      ∀ i j : Int, ImageValidPos pair21 i j = true →
        ∃ p q, ImageGetPixel pair21 i j = some p ∧ ImageGetPixel r (1 + i) (1 + j) = some q ∧
          (q : Int) = min (p : Int) sample32.maxval ∧ ((p : Int) ≤ sample32.maxval → q = p) :=
  ⟨by decide, C10_blend_alpha_one sample32 pair21 1 1 (by decide) (by decide) (by decide)
    (by decide) (by decide)⟩

/-! ## Pixel access, rectangles and paste -/

/-- Claim C16. Paste: for well-formed `dst` and `src` and `(x, y)` at which `src`
fits inside `dst`, `ImagePaste` succeeds; afterwards the pixel of `dst` at
`(x+i, y+j)` is the pixel of `src` at `(i, j)` for every valid `(i, j)` of
`src`, every pixel of `dst` outside `[x, x+src.width) × [y, y+src.height)` is
unchanged, and width, height and maxval of `dst` are unchanged. -/
theorem C16_paste_frame (dst src : Image) (x y : Int) (hd : dst.WF) (hs : src.WF)
    (hr : ImageValidRect dst x y src.width src.height = some true) :
    ∃ r, ImagePaste dst x y src = some r ∧
      r.width = dst.width ∧ r.height = dst.height ∧ r.maxval = dst.maxval ∧
      (∀ i j : Int, ImageValidPos src i j = true →
        ∃ p, ImageGetPixel src i j = some p ∧ ImageGetPixel r (x + i) (y + j) = some p) ∧
      (∀ px py : Int, ImageValidPos dst px py = true →
        ¬ (x ≤ px ∧ px < x + src.width ∧ y ≤ py ∧ py < y + src.height) →
        ImageGetPixel r px py = ImageGetPixel dst px py) := by
  have sd := shaped_of_wf hd
  have ss := shaped_of_wf hs
  obtain ⟨hx, hy, hw, hh, hxW, hyH, hxw, hyh⟩ := validRect_true hr
  obtain ⟨r, e, sr, hin, hout⟩ := paste_spec sd ss hr
  refine ⟨r, e, sr.1, sr.2.1, sr.2.2.1, ?_, ?_⟩
  · intro i j hv
    obtain ⟨hi0, hiw, hj0, hjh⟩ := validPos_true hv
    refine ⟨_, getPixel_shaped ss hi0 hiw hj0 hjh, ?_⟩
    rw [getPixel_shaped sr (by omega) (by omega) (by omega) (by omega),
      hin i j hi0 hiw hj0 hjh]
  · intro px py hv hnot
    obtain ⟨hp0, hpW, hq0, hqH⟩ := validPos_true hv
    rw [getPixel_shaped sr hp0 hpW hq0 hqH, getPixel_shaped sd hp0 hpW hq0 hqH,
      hout px py hp0 hpW hq0 hnot]

/-- C16 at the 3x2 sample image, pasting a 2x1 image at `(1, 1)`. -/
theorem C16_paste_frame_witness :
    ImagePaste sample32 1 1 pair21 = some ⟨3, 2, 255, [1, 2, 3, 4, 7, 9]⟩ ∧
    ∃ r, ImagePaste sample32 1 1 pair21 = some r ∧
      r.width = sample32.width ∧ r.height = sample32.height ∧ r.maxval = sample32.maxval ∧
      (∀ i j : Int, ImageValidPos pair21 i j = true →
        ∃ p, ImageGetPixel pair21 i j = some p ∧ ImageGetPixel r (1 + i) (1 + j) = some p) ∧
      (∀ px py : Int, ImageValidPos sample32 px py = true →
        ¬ (1 ≤ px ∧ px < 1 + pair21.width ∧ 1 ≤ py ∧ py < 1 + pair21.height) →
        ImageGetPixel r px py = ImageGetPixel sample32 px py) :=
  ⟨by decide, C16_paste_frame sample32 pair21 1 1 (by decide) (by decide) (by decide)⟩

/-- Claim C17. Set then get: for every well-formed image, every valid position
`(x, y)` and every level `v` (in particular every `v` in `[0, maxval]`),
`ImageSetPixel` succeeds and `ImageGetPixel` at `(x, y)` of the image it leaves
returns `v`. -/
theorem C17_get_after_set (img : Image) (x y : Int) (v : Nat) (hwf : img.WF)
    (hv : ImageValidPos img x y = true) :
    ∃ img2, ImageSetPixel img x y v = some img2 ∧ ImageGetPixel img2 x y = some v := by
  have hs := shaped_of_wf hwf
  obtain ⟨hx0, hxW, hy0, hyH⟩ := validPos_true hv
  obtain ⟨s2, e, sh2, hval, _⟩ := setPixel_shaped hs hx0 hxW hy0 hyH v
  exact ⟨s2, e, by rw [getPixel_shaped sh2 hx0 hxW hy0 hyH, hval]⟩

/-- C17 at position `(2, 1)` of the 3x2 sample image, level 77. -/
theorem C17_get_after_set_witness :
    ImageValidPos sample32 2 1 = true ∧
    ∃ img2, ImageSetPixel sample32 2 1 77 = some img2 ∧ ImageGetPixel img2 2 1 = some 77 :=
  ⟨by decide, C17_get_after_set sample32 2 1 77 (by decide) (by decide)⟩

/-- Claim C19 fails on the code. The image is 1x1 with the single level 5, and
`*min = 0`, `*max = 255` on entry (initialized values): `ImageStats` leaves
`*min = 0` and `*max = 255`, not the minimum 5 and the maximum 5 of the image,
because it never resets the two variables before the scan. -/
theorem C19_stats_keeps_initial_values :
    single5.WF ∧ ImageGetPixel single5 0 0 = some 5 ∧
    ImageStats single5 0 255 = some (0, 255) := by
  decide

/-! ## Sub-image comparison -/

/-- Claim C13 fails on the code. Both images are 2x1, `img2` fits inside `img1`
at `(0, 0)` and the two differ at `(1, 0)` (9 against 8), yet
`ImageMatchSubImage` returns 1: it scans `min(img1.height - y, img2.width) = 1`
row and `min(img1.width - x, img2.height) = 1` column, so it compares `(0, 0)`
only.  And with the 1x2 all-zero `img2` fitting at `(0, 0)` of the 3x3 all-zero
`img1` it does not return at all: it scans 2 columns and reads `(1, 0)` of
`img2`, which is not a valid position. -/
theorem C13_match_skips_columns :
    ImageValidRect pair21 0 0 pair21b.width pair21b.height = some true ∧
    ImageGetPixel pair21 (0 + 1) (0 + 0) = some 9 ∧ ImageGetPixel pair21b 1 0 = some 8 ∧
    ImageMatchSubImage pair21 0 0 pair21b = some 1 ∧
    ImageValidRect zero33 0 0 column12.width column12.height = some true ∧
    ImageValidPos column12 1 0 = false ∧
    ImageMatchSubImage zero33 0 0 column12 = none := by
  decide

/-! ## The mean filter -/

theorem addInt_ok {a b : Int} (h1 : -2147483648 ≤ a + b) (h2 : a + b ≤ 2147483647) :
    addInt a b = some (a + b) :=
  intOp_ok h1 h2

theorem subInt_ok {a b : Int} (h1 : -2147483648 ≤ a - b) (h2 : a - b ≤ 2147483647) :
    subInt a b = some (a - b) :=
  intOp_ok h1 h2

theorem mulInt_ok {a b : Int} (h1 : -2147483648 ≤ a * b) (h2 : a * b ≤ 2147483647) :
    mulInt a b = some (a * b) :=
  intOp_ok h1 h2

theorem foldlM_range_sum (g : Nat → Int → Option Int) (f : Nat → Nat) (B : Int) (n : Nat)
    (h : ∀ k, k < n → ∀ s : Int, 0 ≤ s → s + (f k : Int) ≤ B → g k s = some (s + (f k : Int)))
    (s0 : Int) (h0 : 0 ≤ s0)
    (hB : s0 + ((Finset.sum (Finset.range n) f : Nat) : Int) ≤ B) :
    (List.range n).foldlM (fun acc (k : Nat) => g k acc) s0 =
      some (s0 + ((Finset.sum (Finset.range n) f : Nat) : Int)) := by
  induction n with
  | zero => simp
  | succ n ih =>
    rw [Finset.sum_range_succ] at hB
    push_cast at hB
    have hfn : (0 : Int) ≤ (f n : Int) := Int.ofNat_nonneg _
    have hsum : (0 : Int) ≤ ((Finset.sum (Finset.range n) f : Nat) : Int) := Int.ofNat_nonneg _
    rw [List.range_succ, List.foldlM_append,
      ih (fun k hk => h k (by omega)) (by push_cast; omega)]
    simp only [Option.bind_eq_bind, Option.some_bind, List.foldlM_cons, List.foldlM_nil]
    rw [h n (by omega) _ (by omega) (by push_cast; omega)]
    rw [Finset.sum_range_succ]
    push_cast
    simp only [Option.pure_def, Option.bind_some, Option.some.injEq]
    ring

/-- A summing loop `for (k = lo; k <= hi; ++k) sum += F k` adds to the
accumulator the sum of `F` over `[lo, hi]`, as long as the total stays at most
`B` (each step being defined while the running sum is between 0 and `B`). -/
theorem forFromTo_sum (lo hi : Int) (body : Int → Int → Option Int) (F : Int → Nat) (B : Int)
    (h : ∀ i, lo ≤ i → i ≤ hi → ∀ s : Int, 0 ≤ s → s + (F i : Int) ≤ B →
      body i s = some (s + (F i : Int)))
    (s0 : Int) (h0 : 0 ≤ s0)
    (hB : s0 + ((Finset.sum (Finset.Icc lo hi) F : Nat) : Int) ≤ B) :
    forFromTo lo hi body s0 = some (s0 + ((Finset.sum (Finset.Icc lo hi) F : Nat) : Int)) := by
  have hsum : Finset.sum (Finset.Icc lo hi) F =
      Finset.sum (Finset.range (hi + 1 - lo).toNat) (fun k => F (lo + (k : Int))) := by
    rw [Int.Icc_eq_finset_map, Finset.sum_map]
    rfl
  rw [hsum] at hB ⊢
  unfold forFromTo
  exact foldlM_range_sum (fun k s => body (lo + (k : Int)) s) (fun k => F (lo + (k : Int))) B
    (hi + 1 - lo).toNat (fun k hk s hs0 hsB => h _ (by omega) (by omega) s hs0 hsB) s0 h0 hB

theorem clampInt_mem {v hi : Int} (hhi : 0 ≤ hi) : 0 ≤ clampInt v 0 hi ∧ clampInt v 0 hi ≤ hi := by
  unfold clampInt
  split
  · omega
  · split <;> omega

theorem clampInt_mono {u v hi : Int} (huv : u ≤ v) (hhi : 0 ≤ hi) :
    clampInt u 0 hi ≤ clampInt v 0 hi := by
  unfold clampInt
  split <;> split <;> (try split) <;> (try split) <;> omega

/-- The function `clampInt` of the code is the clamp of the specification. -/
theorem clampInt_eq_spec (v : Int) {hi : Int} (hhi : 0 ≤ hi) :
    clampInt v 0 hi = clampSpec v 0 hi := by
  unfold clampInt clampSpec
  split
  · rw [max_eq_left]
    exact le_trans (min_le_left _ _) (by omega)
  · split
    · rw [min_eq_right (by omega), max_eq_right hhi]
    · rw [min_eq_left (by omega), max_eq_right (by omega)]

theorem pixelAt_shaped {W H M : Int} {s : Image} (hs : Shaped W H M s) {x y : Int}
    (hx0 : 0 ≤ x) (hxW : x < W) (hy0 : 0 ≤ y) (hyH : y < H) :
    ImageGetPixel s x y = some (pixelAt s x y) ∧ pixelAt s x y = s.rd (lin W x y) := by
  have h := getPixel_shaped hs hx0 hxW hy0 hyH
  have hp : pixelAt s x y = s.rd (lin W x y) := by
    unfold pixelAt Image.rd lin
    rw [hs.1, hs.2.1, if_pos ⟨hx0, hxW, hy0, hyH⟩]
  rw [h, hp]
  exact ⟨rfl, rfl⟩

theorem pixelAt_lt {img : Image} (hp : ∀ p ∈ img.pixel, p < 256) (x y : Int) :
    pixelAt img x y < 256 := by
  unfold pixelAt
  split
  · exact rd_lt hp _
  · decide

/-- The two nested summing loops of `ImageBlur` compute `windowSum`, when that
sum is a value of type `int`. -/
theorem window_loops {W H M : Int} {img : Image} (hs : Shaped W H M img) {x0 x1 y0 y1 : Int}
    (hx0 : 0 ≤ x0) (hx1 : x1 < W) (hy0 : 0 ≤ y0) (hy1 : y1 < H)
    (hB : ((windowSum img x0 x1 y0 y1 : Nat) : Int) ≤ 2147483647) :
    forFromTo y0 y1 (fun j sum =>
      forFromTo x0 x1 (fun i sum =>
        ImageGetPixel img i j >>= fun p => addInt sum (p : Int)) sum) (0 : Int)
      = some ((windowSum img x0 x1 y0 y1 : Nat) : Int) := by
  have hrow : ∀ j, y0 ≤ j → j ≤ y1 → ∀ s : Int, 0 ≤ s →
      s + ((Finset.sum (Finset.Icc x0 x1) (fun i => pixelAt img i j) : Nat) : Int)
        ≤ 2147483647 →
      forFromTo x0 x1 (fun i sum =>
        ImageGetPixel img i j >>= fun p => addInt sum (p : Int)) s
      = some (s + ((Finset.sum (Finset.Icc x0 x1) (fun i => pixelAt img i j) : Nat) : Int)) := by
    intro j hj0 hj1 s hs0 hsB
    apply forFromTo_sum x0 x1 _ (fun i => pixelAt img i j) 2147483647 _ s hs0 hsB
    intro i hi0 hi1 t ht0 htB
    rw [(pixelAt_shaped hs (by omega) (by omega) (by omega) (by omega)).1]
    have hnn : (0 : Int) ≤ (pixelAt img i j : Int) := Int.ofNat_nonneg _
    exact addInt_ok (by omega) htB
  have h := forFromTo_sum y0 y1 _
    (fun j => Finset.sum (Finset.Icc x0 x1) (fun i => pixelAt img i j)) 2147483647 hrow 0
    (le_refl 0) (by rw [zero_add]; exact hB)
  rw [zero_add] at h
  exact h

theorem windowCount_eq {x0 x1 y0 y1 : Int} (hx : x0 ≤ x1) (hy : y0 ≤ y1) :
    ((windowCount x0 x1 y0 y1 : Nat) : Int) = (x1 - x0 + 1) * (y1 - y0 + 1) := by
  unfold windowCount
  rw [Finset.card_product, Int.card_Icc, Int.card_Icc]
  push_cast
  rw [Int.toNat_of_nonneg (by omega), Int.toNat_of_nonneg (by omega)]
  ring

theorem windowCount_pos {x0 x1 y0 y1 : Int} (hx : x0 ≤ x1) (hy : y0 ≤ y1) :
    0 < windowCount x0 x1 y0 y1 := by
  have h := windowCount_eq hx hy
  have h1 : 0 < (x1 - x0 + 1) * (y1 - y0 + 1) := Int.mul_pos (by omega) (by omega)
  omega

/-- If every level of the window is at most `B`, the sum is at most `B` times the count. -/
theorem windowSum_le (img : Image) (x0 x1 y0 y1 : Int) (B : Nat)
    (h : ∀ i j, x0 ≤ i → i ≤ x1 → y0 ≤ j → j ≤ y1 → pixelAt img i j ≤ B) :
    windowSum img x0 x1 y0 y1 ≤ B * windowCount x0 x1 y0 y1 := by
  unfold windowSum windowCount
  rw [Finset.card_product]
  have hrow : ∀ j ∈ Finset.Icc y0 y1,
      Finset.sum (Finset.Icc x0 x1) (fun i => pixelAt img i j) ≤ (Finset.Icc x0 x1).card * B := by
    intro j hj
    rw [Finset.mem_Icc] at hj
    have := Finset.sum_le_card_nsmul (Finset.Icc x0 x1) (fun i => pixelAt img i j) B
      (fun i hi => by rw [Finset.mem_Icc] at hi; exact h i j hi.1 hi.2 hj.1 hj.2)
    simpa using this
  have := Finset.sum_le_card_nsmul (Finset.Icc y0 y1)
    (fun j => Finset.sum (Finset.Icc x0 x1) (fun i => pixelAt img i j))
    ((Finset.Icc x0 x1).card * B) hrow
  calc _ ≤ (Finset.Icc y0 y1).card • ((Finset.Icc x0 x1).card * B) := this
    _ = B * ((Finset.Icc x0 x1).card * (Finset.Icc y0 y1).card) := by
      simp only [smul_eq_mul]; ring

/-- If every level of the window is `c`, the sum is `c` times the count. -/
theorem windowSum_const (img : Image) (x0 x1 y0 y1 : Int) (c : Nat)
    (h : ∀ i j, x0 ≤ i → i ≤ x1 → y0 ≤ j → j ≤ y1 → pixelAt img i j = c) :
    windowSum img x0 x1 y0 y1 = c * windowCount x0 x1 y0 y1 := by
  unfold windowSum windowCount
  rw [Finset.card_product]
  have hrow : ∀ j ∈ Finset.Icc y0 y1,
      Finset.sum (Finset.Icc x0 x1) (fun i => pixelAt img i j) = (Finset.Icc x0 x1).card * c := by
    intro j hj
    rw [Finset.mem_Icc] at hj
    have hc : Finset.sum (Finset.Icc x0 x1) (fun i => pixelAt img i j)
        = Finset.sum (Finset.Icc x0 x1) (fun _ => c) :=
      Finset.sum_congr rfl (fun i hi => by
        rw [Finset.mem_Icc] at hi; exact h i j hi.1 hi.2 hj.1 hj.2)
    rw [hc]
    simp
  rw [Finset.sum_congr rfl hrow]
  simp only [Finset.sum_const, smul_eq_mul]
  ring

theorem doubleToUint8_floor (v : ℚ) (h0 : 0 ≤ v) (h1 : v < 256) :
    ((doubleToUint8 v : Nat) : Int) = Int.floor v := by
  unfold doubleToUint8 toUint8
  rw [if_pos h0]
  have hf0 : 0 ≤ Int.floor v := Int.floor_nonneg.mpr h0
  have hf1 : Int.floor v < 256 := by
    rw [Int.floor_lt]
    exact_mod_cast h1
  omega

/-- The rounded mean of levels bounded by `B` is between 0 and `B`. -/
theorem mean_round_bounds (S N : Nat) (B : Int) (hN : 0 < N) (hS : (S : Int) ≤ B * (N : Int)) :
    0 ≤ (S : ℚ) / (N : ℚ) + 1/2 ∧ (S : ℚ) / (N : ℚ) + 1/2 < (B : ℚ) + 1 ∧
      Int.floor ((S : ℚ) / (N : ℚ) + 1/2) ≤ B := by
  have hNq : (0 : ℚ) < (N : ℚ) := by exact_mod_cast hN
  have hSq : (S : ℚ) ≤ (B : ℚ) * (N : ℚ) := by exact_mod_cast hS
  have hdiv : (S : ℚ) / (N : ℚ) ≤ (B : ℚ) := by
    rw [div_le_iff₀ hNq]
    exact hSq
  have hnn : (0 : ℚ) ≤ (S : ℚ) / (N : ℚ) := by positivity
  refine ⟨by linarith, by linarith, ?_⟩
  have : Int.floor ((S : ℚ) / (N : ℚ) + 1/2) < B + 1 := by
    rw [Int.floor_lt]
    push_cast
    linarith
  omega

/-- The level stored by the code of `ImageBlur` is the rounded mean of the
specification, when the window has at least one position and 8-bit levels. -/
theorem blur_value (img : Image) (hp : ∀ p ∈ img.pixel, p < 256)
    {x0 x1 y0 y1 : Int} (hx : x0 ≤ x1) (hy : y0 ≤ y1) :
    ((doubleToUint8 ((((windowSum img x0 x1 y0 y1 : Nat) : Int) : ℚ)
        / (((x1 - x0 + 1) * (y1 - y0 + 1) : Int) : ℚ) + 1/2) : Nat) : Int)
      = Int.floor ((windowSum img x0 x1 y0 y1 : ℚ) / (windowCount x0 x1 y0 y1 : ℚ) + 1/2) := by
  have hcast : (((x1 - x0 + 1) * (y1 - y0 + 1) : Int) : ℚ) = (windowCount x0 x1 y0 y1 : ℚ) := by
    rw [← windowCount_eq hx hy]
    simp
  have hcastS : (((windowSum img x0 x1 y0 y1 : Nat) : Int) : ℚ)
      = (windowSum img x0 x1 y0 y1 : ℚ) := by simp
  rw [hcast, hcastS]
  have hle : windowSum img x0 x1 y0 y1 ≤ 255 * windowCount x0 x1 y0 y1 := by
    apply windowSum_le
    intro i j _ _ _ _
    have := pixelAt_lt hp i j
    omega
  obtain ⟨h0, h1, _⟩ := mean_round_bounds (windowSum img x0 x1 y0 y1)
    (windowCount x0 x1 y0 y1) 255 (windowCount_pos hx hy) (by exact_mod_cast hle)
  apply doubleToUint8_floor _ h0
  have : ((255 : Int) : ℚ) + 1 = 256 := by norm_num
  linarith

/-- The clamped window of a valid coordinate `x` has between 1 and
`min W (2 * dx + 1)` positions, and lies in `[0, W - 1]`. -/
theorem span_bounds {W x dx : Int} (hx0 : 0 ≤ x) (hxW : x < W) (hdx : 0 ≤ dx) :
    0 ≤ clampInt (x - dx) 0 (W - 1) ∧
    clampInt (x - dx) 0 (W - 1) ≤ clampInt (x + dx) 0 (W - 1) ∧
    clampInt (x + dx) 0 (W - 1) < W ∧
    clampInt (x + dx) 0 (W - 1) - clampInt (x - dx) 0 (W - 1) + 1 ≤ min W (2 * dx + 1) := by
  have hmin : min W (2 * dx + 1) = W ∨ min W (2 * dx + 1) = 2 * dx + 1 := by
    rcases le_total W (2 * dx + 1) with h | h
    · exact Or.inl (min_eq_left h)
    · exact Or.inr (min_eq_right h)
  have hm1 : min W (2 * dx + 1) ≤ W := min_le_left _ _
  have hm2 : min W (2 * dx + 1) ≤ 2 * dx + 1 := min_le_right _ _
  unfold clampInt
  split <;> split <;> (try split) <;> (try split) <;>
    refine ⟨by omega, by omega, by omega, ?_⟩ <;> rcases hmin with h | h <;> omega

/-- The number of positions and the sum of the levels of a window are values of
type `int` when 255 times the largest window size is. -/
theorem window_fits (img : Image) (hp : ∀ p ∈ img.pixel, p < 256) {x0 x1 y0 y1 mx my : Int}
    (hx : x0 ≤ x1) (hy : y0 ≤ y1) (hmx : x1 - x0 + 1 ≤ mx) (hmy : y1 - y0 + 1 ≤ my)
    (hwin : 255 * (mx * my) ≤ 2147483647) :
    (x1 - x0 + 1) * (y1 - y0 + 1) ≤ 2147483647 ∧
    ((windowSum img x0 x1 y0 y1 : Nat) : Int) ≤ 2147483647 := by
  have hprod : (x1 - x0 + 1) * (y1 - y0 + 1) ≤ mx * my :=
    Int.mul_le_mul hmx hmy (by omega) (by omega)
  have hle : windowSum img x0 x1 y0 y1 ≤ 255 * windowCount x0 x1 y0 y1 := by
    apply windowSum_le
    intro i j _ _ _ _
    have := pixelAt_lt hp i j
    omega
  have hc := windowCount_eq hx hy
  have hle2 : ((windowSum img x0 x1 y0 y1 : Nat) : Int)
      ≤ 255 * ((windowCount x0 x1 y0 y1 : Nat) : Int) := by exact_mod_cast hle
  have hpos : 0 < (x1 - x0 + 1) * (y1 - y0 + 1) := Int.mul_pos (by omega) (by omega)
  constructor <;> omega

/-- One iteration of the loops of `ImageBlur`, at a valid position `(x, y)`:
when no `int` operation overflows, it stores the rounded mean of the window. -/
theorem blur_body {img : Image} (hs : Shaped img.width img.height img.maxval img)
    (hp : ∀ p ∈ img.pixel, p < 256) {dx dy : Int} (hdx : 0 ≤ dx) (hdy : 0 ≤ dy)
    (hxo : dx + img.width ≤ 2147483648) (hyo : dy + img.height ≤ 2147483648)
    (hwin : 255 * (min img.width (2 * dx + 1) * min img.height (2 * dy + 1)) ≤ 2147483647)
    {x y : Int} (hx0 : 0 ≤ x) (hxW : x < img.width) (hy0 : 0 ≤ y) (hyH : y < img.height)
    (s : Image) :
    (subInt x dx >>= fun x_lo =>
      subInt img.width 1 >>= fun w_max =>
      addInt x dx >>= fun x_hi =>
      subInt y dy >>= fun y_lo =>
      subInt img.height 1 >>= fun h_max =>
      addInt y dy >>= fun y_hi =>
      let start_x := clampInt x_lo 0 w_max
      let end_x := clampInt x_hi 0 w_max
      let start_y := clampInt y_lo 0 h_max
      let end_y := clampInt y_hi 0 h_max
      forFromTo start_y end_y (fun j sum =>
        forFromTo start_x end_x (fun i sum =>
          ImageGetPixel img i j >>= fun p => addInt sum (p : Int)) sum) (0 : Int)
        >>= fun sum =>
      subInt end_x start_x >>= fun span_x =>
      addInt span_x 1 >>= fun count_x =>
      subInt end_y start_y >>= fun span_y =>
      addInt span_y 1 >>= fun count_y =>
      mulInt count_x count_y >>= fun count =>
      ImageSetPixel s x y
        (doubleToUint8 ((sum : ℚ) / (count : ℚ) + 1/2)))
    = ImageSetPixel s x y
        (doubleToUint8 ((((windowSum img (clampInt (x - dx) 0 (img.width - 1))
          (clampInt (x + dx) 0 (img.width - 1)) (clampInt (y - dy) 0 (img.height - 1))
          (clampInt (y + dy) 0 (img.height - 1)) : Nat) : Int) : ℚ) /
        (((clampInt (x + dx) 0 (img.width - 1) - clampInt (x - dx) 0 (img.width - 1) + 1) *
          (clampInt (y + dy) 0 (img.height - 1) - clampInt (y - dy) 0 (img.height - 1) + 1)
          : Int) : ℚ) + 1/2)) := by
  obtain ⟨ax0, ax1, ax2, ax3⟩ := @span_bounds img.width x dx hx0 hxW hdx
  obtain ⟨ay0, ay1, ay2, ay3⟩ := @span_bounds img.height y dy hy0 hyH hdy
  obtain ⟨hcnt, hsum⟩ := window_fits img hp ax1 ay1 ax3 ay3 hwin
  have hl := window_loops hs ax0 ax2 ay0 ay2 hsum
  have hcpos : 0 < (clampInt (x + dx) 0 (img.width - 1) - clampInt (x - dx) 0 (img.width - 1) + 1)
      * (clampInt (y + dy) 0 (img.height - 1) - clampInt (y - dy) 0 (img.height - 1) + 1) :=
    Int.mul_pos (by omega) (by omega)
  rw [subInt_ok (show (-2147483648 : Int) ≤ x - dx by omega) (show x - dx ≤ 2147483647 by omega),
    subInt_ok (show (-2147483648 : Int) ≤ img.width - 1 by omega)
      (show img.width - 1 ≤ 2147483647 by omega),
    addInt_ok (show (-2147483648 : Int) ≤ x + dx by omega) (show x + dx ≤ 2147483647 by omega),
    subInt_ok (show (-2147483648 : Int) ≤ y - dy by omega) (show y - dy ≤ 2147483647 by omega),
    subInt_ok (show (-2147483648 : Int) ≤ img.height - 1 by omega)
      (show img.height - 1 ≤ 2147483647 by omega),
    addInt_ok (show (-2147483648 : Int) ≤ y + dy by omega) (show y + dy ≤ 2147483647 by omega)]
  simp only [Option.bind_eq_bind, Option.some_bind] at hl ⊢
  rw [hl]
  simp only [Option.some_bind]
  rw [subInt_ok (show (-2147483648 : Int) ≤ clampInt (x + dx) 0 (img.width - 1)
        - clampInt (x - dx) 0 (img.width - 1) by omega)
      (show clampInt (x + dx) 0 (img.width - 1)
        - clampInt (x - dx) 0 (img.width - 1) ≤ 2147483647 by omega)]
  simp only [Option.some_bind]
  rw [addInt_ok (show (-2147483648 : Int) ≤ clampInt (x + dx) 0 (img.width - 1)
        - clampInt (x - dx) 0 (img.width - 1) + 1 by omega)
      (show clampInt (x + dx) 0 (img.width - 1)
        - clampInt (x - dx) 0 (img.width - 1) + 1 ≤ 2147483647 by omega)]
  simp only [Option.some_bind]
  rw [subInt_ok (show (-2147483648 : Int) ≤ clampInt (y + dy) 0 (img.height - 1)
        - clampInt (y - dy) 0 (img.height - 1) by omega)
      (show clampInt (y + dy) 0 (img.height - 1)
        - clampInt (y - dy) 0 (img.height - 1) ≤ 2147483647 by omega)]
  simp only [Option.some_bind]
  rw [addInt_ok (show (-2147483648 : Int) ≤ clampInt (y + dy) 0 (img.height - 1)
        - clampInt (y - dy) 0 (img.height - 1) + 1 by omega)
      (show clampInt (y + dy) 0 (img.height - 1)
        - clampInt (y - dy) 0 (img.height - 1) + 1 ≤ 2147483647 by omega)]
  simp only [Option.some_bind]
  rw [mulInt_ok (by omega) hcnt]
  simp only [Option.some_bind]

/-- The level `blurLevel` of the specification, in terms of the clamp of the code. -/
theorem blurLevel_eq (img : Image) (dx dy x y : Int) (hW : 1 ≤ img.width)
    (hH : 1 ≤ img.height) :
    blurLevel img dx dy x y =
      Int.floor ((windowSum img (clampInt (x - dx) 0 (img.width - 1))
          (clampInt (x + dx) 0 (img.width - 1)) (clampInt (y - dy) 0 (img.height - 1))
          (clampInt (y + dy) 0 (img.height - 1)) : ℚ) /
        (windowCount (clampInt (x - dx) 0 (img.width - 1))
          (clampInt (x + dx) 0 (img.width - 1)) (clampInt (y - dy) 0 (img.height - 1))
          (clampInt (y + dy) 0 (img.height - 1)) : ℚ) + 1/2) := by
  unfold blurLevel
  rw [clampInt_eq_spec (x - dx) (show (0 : Int) ≤ img.width - 1 by omega),
    clampInt_eq_spec (x + dx) (show (0 : Int) ≤ img.width - 1 by omega),
    clampInt_eq_spec (y - dy) (show (0 : Int) ≤ img.height - 1 by omega),
    clampInt_eq_spec (y + dy) (show (0 : Int) ≤ img.height - 1 by omega)]

/-- The mean filter: on a well-formed image with at least one pixel, when no
`int` operation overflows (`x + dx`, `y + dy`, the sum and the count of a
window), `ImageBlur` returns an image of the same shape whose level at every
position is the `blurLevel` of the image before the call. -/
theorem blur_spec {img : Image} (hwf : img.WF) (hW : 1 ≤ img.width) (hH : 1 ≤ img.height)
    {dx dy : Int} (hdx : 0 ≤ dx) (hdy : 0 ≤ dy)
    (hxo : dx + img.width ≤ 2147483648) (hyo : dy + img.height ≤ 2147483648)
    (hwin : 255 * (min img.width (2 * dx + 1) * min img.height (2 * dy + 1)) ≤ 2147483647) :
    ∃ r, ImageBlur img dx dy = some r ∧ Shaped img.width img.height img.maxval r ∧
      ∀ x y : Int, 0 ≤ x → x < img.width → 0 ≤ y → y < img.height →
        ((r.rd (lin img.width x y) : Nat) : Int) = blurLevel img dx dy x y := by
  have hs := shaped_of_wf hwf
  obtain ⟨b0, hb0, sb0, _⟩ := create_shaped hwf.1 hwf.2.1 hwf.2.2.1 hwf.2.2.2.1
  obtain ⟨b, hrun, sb, hin, _⟩ := write_spec
    (fun x y s =>
      subInt x dx >>= fun x_lo =>
      subInt img.width 1 >>= fun w_max =>
      addInt x dx >>= fun x_hi =>
      subInt y dy >>= fun y_lo =>
      subInt img.height 1 >>= fun h_max =>
      addInt y dy >>= fun y_hi =>
      let start_x := clampInt x_lo 0 w_max
      let end_x := clampInt x_hi 0 w_max
      let start_y := clampInt y_lo 0 h_max
      let end_y := clampInt y_hi 0 h_max
      forFromTo start_y end_y (fun j sum =>
        forFromTo start_x end_x (fun i sum =>
          ImageGetPixel img i j >>= fun p => addInt sum (p : Int)) sum) (0 : Int)
        >>= fun sum =>
      subInt end_x start_x >>= fun span_x =>
      addInt span_x 1 >>= fun count_x =>
      subInt end_y start_y >>= fun span_y =>
      addInt span_y 1 >>= fun count_y =>
      mulInt count_x count_y >>= fun count =>
      ImageSetPixel s x y
        (doubleToUint8 ((sum : ℚ) / (count : ℚ) + 1/2)))
    (fun _ => img.width) img.width img.height (fun x _ => x) (fun _ y => y)
    (fun x y _ =>
      doubleToUint8 ((((windowSum img (clampInt (x - dx) 0 (img.width - 1))
          (clampInt (x + dx) 0 (img.width - 1)) (clampInt (y - dy) 0 (img.height - 1))
          (clampInt (y + dy) 0 (img.height - 1)) : Nat) : Int) : ℚ) /
        (((clampInt (x + dx) 0 (img.width - 1) - clampInt (x - dx) 0 (img.width - 1) + 1) *
          (clampInt (y + dy) 0 (img.height - 1) - clampInt (y - dy) 0 (img.height - 1) + 1)
          : Int) : ℚ) + 1/2))
    (fun _ _ => rfl)
    (fun x y hx0 hxW hy0 hyH => ⟨hx0, hxW, hy0, hyH⟩)
    (fun _ _ _ _ _ _ _ _ _ _ _ _ e1 e2 => ⟨e1, e2⟩)
    (fun x y hx0 hxW hy0 hyH s _ =>
      blur_body hs hwf.2.2.2.2.2 hdx hdy hxo hyo hwin hx0 hxW hy0 hyH s)
    b0 sb0
  have hr : ImageValidRect img 0 0 b.width b.height = some true :=
    validRect_origin hW hH sb.1 sb.2.1
  obtain ⟨r, e, sr, hpaste, _⟩ := paste_spec hs sb hr
  refine ⟨r, ?_, sr, ?_⟩
  · unfold ImageBlur
    have h1 : assert (decide (dx ≥ 0)) = some () := by simp [assert, hdx]
    have h2 : assert (decide (dy ≥ 0)) = some () := by simp [assert, hdy]
    rw [h1, h2, hb0]
    exact (congrArg (fun o => o >>= fun blurred => ImagePaste img 0 0 blurred) hrun).trans e
  · intro x y hx0 hxW hy0 hyH
    have h1 := hpaste x y hx0 hxW hy0 hyH
    rw [zero_add, zero_add] at h1
    rw [h1, hin x y hx0 hxW hy0 hyH, blurLevel_eq img dx dy x y hW hH]
    exact blur_value img hwf.2.2.2.2.2
      (clampInt_mono (by omega) (by omega)) (clampInt_mono (by omega) (by omega))

theorem rd_mem {W H M : Int} {s : Image} (hs : Shaped W H M s) {x y : Int}
    (hx0 : 0 ≤ x) (hxW : x < W) (hy0 : 0 ≤ y) (hyH : y < H) :
    s.rd (lin W x y) ∈ s.pixel := by
  obtain ⟨h1, h2⟩ := lin_lt hx0 hxW hy0 hyH
  have hlt : lin W x y < s.pixel.length := by
    rw [hs.2.2.2]; unfold lin; omega
  unfold Image.rd
  rw [List.getD_eq_getElem?_getD, List.getElem?_eq_getElem hlt]
  exact List.getElem_mem hlt

theorem inRange_of_rd {W H M : Int} {r : Image} (sr : Shaped W H M r) (hW : 0 ≤ W)
    (h : ∀ x y : Int, 0 ≤ x → x < W → 0 ≤ y → y < H → ((r.rd (lin W x y) : Nat) : Int) ≤ M) :
    r.InRange := by
  intro p hp
  obtain ⟨i, hi, rfl⟩ := List.mem_iff_getElem.mp hp
  obtain ⟨x, y, hx0, hxW, hy0, hyH, rfl⟩ := lin_surj hW (by rw [← sr.2.2.2]; exact hi)
  have := h x y hx0 hxW hy0 hyH
  rw [sr.2.2.1]
  simpa [Image.rd, List.getD_eq_getElem?_getD, List.getElem?_eq_getElem hi] using this

theorem foldlM_none_of_mem {σ : Type} (f : σ → Nat → Option σ) (l : List Nat) (k : Nat)
    (hk : k ∈ l) (hf : ∀ s, f s k = none) (s0 : σ) : l.foldlM f s0 = none := by
  induction l generalizing s0 with
  | nil => cases hk
  | cons a l ih =>
    rw [List.foldlM_cons]
    by_cases hak : a = k
    · rw [hak, hf s0]
      rfl
    · have hkl : k ∈ l := by
        rcases List.mem_cons.mp hk with h | h
        · exact absurd h.symm hak
        · exact h
      cases hfa : f s0 a with
      | none => rfl
      | some s1 => exact ih hkl s1

/-- A loop one of whose iterations has no defined result, whatever the state it
starts from, has no defined result. -/
theorem forRange_none {σ : Type} (n : Int) (body : Int → σ → Option σ) (k : Int)
    (hk0 : 0 ≤ k) (hkn : k < n) (hf : ∀ s, body k s = none) (s0 : σ) :
    forRange n body s0 = none := by
  unfold forRange
  apply foldlM_none_of_mem _ _ k.toNat (List.mem_range.mpr (by omega))
  intro s
  have hcast : ((k.toNat : Nat) : Int) = k := by omega
  rw [hcast]
  exact hf s

theorem bind_none_left {α β : Type} (o : Option α) (f : α → Option β) (h : o = none) :
    o.bind f = none := by
  rw [h]
  rfl

/-- Claim C11 as stated fails. The image is 2x1 with levels 0 and 100 (maxval
255), `dx = 2147483647` (the greatest `int`), `dy = 0`: the image is
well-formed, of width and height at least 1, and `dx, dy ≥ 0`.  The window of
the claim at `(1, 0)` is `[0, 1] × [0, 0]`, with sum 100 and 2 positions, so
the claim puts level 50 there.  The code computes `x + dx` with `x = 1` in type
`int`: `1 + 2147483647` overflows, the behaviour is undefined, and `ImageBlur`
has no defined result. -/
theorem blur_overflow_counterexample :
    step21.WF ∧ 1 ≤ step21.width ∧ 1 ≤ step21.height ∧
    (0 : Int) ≤ 2147483647 ∧ (2147483647 : Int) ≤ INT_MAX ∧
    clampSpec (1 - 2147483647) 0 (step21.width - 1) = 0 ∧
    clampSpec (1 + 2147483647) 0 (step21.width - 1) = 1 ∧
    clampSpec (0 - 0) 0 (step21.height - 1) = 0 ∧
    clampSpec (0 + 0) 0 (step21.height - 1) = 0 ∧
    windowSum step21 0 1 0 0 = 100 ∧ windowCount 0 1 0 0 = 2 ∧
    blurLevel step21 2147483647 0 1 0 = 50 ∧
    addInt 1 2147483647 = none ∧
    ImageBlur step21 2147483647 0 = none := by
  have hx0 : clampSpec (1 - 2147483647) 0 (step21.width - 1) = 0 := by decide
  have hx1 : clampSpec (1 + 2147483647) 0 (step21.width - 1) = 1 := by decide
  have hy0 : clampSpec (0 - 0) 0 (step21.height - 1) = 0 := by decide
  have hy1 : clampSpec (0 + 0) 0 (step21.height - 1) = 0 := by decide
  have hS : windowSum step21 0 1 0 0 = 100 := by decide
  have hN : windowCount 0 1 0 0 = 2 := by decide
  have hlevel : blurLevel step21 2147483647 0 1 0 = 50 := by
    unfold blurLevel
    simp only []
    rw [hx0, hx1, hy0, hy1, hS, hN, Int.floor_eq_iff]
    constructor <;> norm_num
  refine ⟨by decide, by decide, by decide, by decide, by decide, hx0, hx1, hy0, hy1, hS, hN,
    hlevel, by decide, ?_⟩
  have hc : ImageCreate step21.width step21.height (toUint8 step21.maxval)
      = some ⟨2, 1, 255, [0, 0]⟩ := by decide
  unfold ImageBlur
  rw [show assert (decide ((2147483647 : Int) ≥ 0)) = some () from rfl,
    show assert (decide ((0 : Int) ≥ 0)) = some () from rfl, hc]
  simp only [Option.bind_eq_bind, Option.some_bind]
  apply bind_none_left
  apply forRange_none _ _ 0 (by decide) (by decide)
  intro s
  apply forRange_none _ _ 1 (by decide) (by decide)
  intro s
  rfl

/-- The bound on the window size of `ImageBlur` that keeps the sum of a window
within type `int` holds whenever the image has at most 8421504 pixels. -/
theorem window_bound_of_size {W H dx dy : Int} (hW : 0 ≤ W) (hH : 0 ≤ H)
    (hdy : 0 ≤ dy) (h : 255 * (W * H) ≤ 2147483647) :
    255 * (min W (2 * dx + 1) * min H (2 * dy + 1)) ≤ INT_MAX := by
  unfold INT_MAX
  rcases le_total W (2 * dx + 1) with h1 | h1 <;> rcases le_total H (2 * dy + 1) with h2 | h2
  · rw [min_eq_left h1, min_eq_left h2]
    exact h
  · rw [min_eq_left h1, min_eq_right h2]
    have : W * (2 * dy + 1) ≤ W * H := Int.mul_le_mul_of_nonneg_left h2 hW
    omega
  · rw [min_eq_right h1, min_eq_left h2]
    have : (2 * dx + 1) * H ≤ W * H := Int.mul_le_mul_of_nonneg_right h1 hH
    omega
  · rw [min_eq_right h1, min_eq_right h2]
    have h3 : (2 * dx + 1) * (2 * dy + 1) ≤ W * (2 * dy + 1) :=
      Int.mul_le_mul_of_nonneg_right h1 (by omega)
    have h5 : W * (2 * dy + 1) ≤ W * H := Int.mul_le_mul_of_nonneg_left h2 hW
    omega

/-- Claim C11, amended. Blur: for every well-formed image with width and height
at least 1 and every `dx, dy ≥ 0` for which the `int` arithmetic of the code
does not overflow (`(width - 1) + dx` and `(height - 1) + dy` are at most
`INT_MAX`, and 255 times the largest window size,
`min(width, 2 dx + 1) * min(height, 2 dy + 1)`, is at most `INT_MAX`),
`ImageBlur` succeeds, keeps width, height and maxval, and leaves at every
position `(x, y)` the level `floor (S / N + 1/2)`, `S` being the sum and `N`
the number of the pixels of the image before the call in the clamped window
(`blurLevel`, computed on `img` itself: no output pixel depends on a blurred
value). -/
theorem C11_blur_mean (img : Image) (dx dy : Int) (hwf : img.WF) (hW : 1 ≤ img.width)
    (hH : 1 ≤ img.height) (hdx : 0 ≤ dx) (hdy : 0 ≤ dy)
    (hxo : (img.width - 1) + dx ≤ INT_MAX) (hyo : (img.height - 1) + dy ≤ INT_MAX)
    (hwin : 255 * (min img.width (2 * dx + 1) * min img.height (2 * dy + 1)) ≤ INT_MAX) :
    ∃ r, ImageBlur img dx dy = some r ∧
      r.width = img.width ∧ r.height = img.height ∧ r.maxval = img.maxval ∧
      ∀ x y : Int, ImageValidPos img x y = true →
        ∃ q, ImageGetPixel r x y = some q ∧ (q : Int) = blurLevel img dx dy x y := by
  unfold INT_MAX at hxo hyo hwin
  obtain ⟨r, e, sr, hpix⟩ := blur_spec hwf hW hH hdx hdy (by omega) (by omega) hwin
  refine ⟨r, e, sr.1, sr.2.1, sr.2.2.1, ?_⟩
  intro x y hv
  obtain ⟨hx0, hxW, hy0, hyH⟩ := validPos_true hv
  exact ⟨_, getPixel_shaped sr hx0 hxW hy0 hyH, hpix x y hx0 hxW hy0 hyH⟩

/-- C11 (amended) at the 4x3 scenario image with `dx = dy = 1`; at `(3, 0)` the
window is `[2, 3] × [0, 1]`, with sum 200 and 4 positions. -/
theorem C11_blur_mean_witness :
    windowSum scenario43 2 3 0 1 = 200 ∧ windowCount 2 3 0 1 = 4 ∧
    ∃ r, ImageBlur scenario43 1 1 = some r ∧
      r.width = scenario43.width ∧ r.height = scenario43.height ∧
      r.maxval = scenario43.maxval ∧
      ∀ x y : Int, ImageValidPos scenario43 x y = true →
        ∃ q, ImageGetPixel r x y = some q ∧ (q : Int) = blurLevel scenario43 1 1 x y :=
  ⟨by decide, by decide,
    C11_blur_mean scenario43 1 1 (by decide) (by decide) (by decide) (by decide) (by decide)
      (by decide) (by decide) (by decide)⟩

/-- Claim C12 fails on the code. The empty image (width 0 and height 0, as
`ImageCreate` builds it) has all its pixels at level 10 (it has none), and so
has the image of width 0 and height 3; `dx = dy = 1`.  `ImageBlur` does not
leave the image as it is, it does not return: no pixel is read or written,
and the final `ImagePaste(img, 0, 0, blurred)` fails its assertion,
`ImageValidRect(img, 0, 0, img.width, img.height)` being false because
`(0, 0)` is not a valid position of an image without pixels. -/
theorem C12_blur_uniform_faults_on_empty_image :
    ImageCreate 0 0 255 = some empty00 ∧ empty00.WF ∧ (∀ p ∈ empty00.pixel, p = 10) ∧
    ImageValidRect empty00 0 0 empty00.width empty00.height = some false ∧
    ImageBlur empty00 1 1 = none ∧
    empty03.WF ∧ (∀ p ∈ empty03.pixel, p = 10) ∧
    ImageValidRect empty03 0 0 empty03.width empty03.height = some false ∧
    ImageBlur empty03 1 1 = none := by
  decide

/-- The mean of a constant field is the constant: on a well-formed image with
width and height at least 1 whose pixels all have the same level `c`, and for
`dx, dy ≥ 0` within the `int` bounds of `blur_spec`, `ImageBlur` succeeds and
returns the image unchanged. -/
theorem blur_uniform_nonempty (img : Image) (c : Nat) (dx dy : Int) (hwf : img.WF)
    (hW : 1 ≤ img.width) (hH : 1 ≤ img.height) (hdx : 0 ≤ dx) (hdy : 0 ≤ dy)
    (hxo : dx + img.width ≤ 2147483648) (hyo : dy + img.height ≤ 2147483648)
    (hwin : 255 * (min img.width (2 * dx + 1) * min img.height (2 * dy + 1)) ≤ 2147483647)
    (hc : ∀ p ∈ img.pixel, p = c) :
    ∃ r, ImageBlur img dx dy = some r ∧ (∀ p ∈ r.pixel, p = c) ∧ r = img := by
  have hs := shaped_of_wf hwf
  obtain ⟨r, e, sr, hpix⟩ := blur_spec hwf hW hH hdx hdy hxo hyo hwin
  have hrimg : r = img := by
    apply shaped_ext hwf.1 sr hs
    intro x y hx0 hxW hy0 hyH
    have himg : img.rd (lin img.width x y) = c := hc _ (rd_mem hs hx0 hxW hy0 hyH)
    have hq := hpix x y hx0 hxW hy0 hyH
    have cx0 := @clampInt_mem (x - dx) (img.width - 1) (by omega)
    have cx1 := @clampInt_mem (x + dx) (img.width - 1) (by omega)
    have cy0 := @clampInt_mem (y - dy) (img.height - 1) (by omega)
    have cy1 := @clampInt_mem (y + dy) (img.height - 1) (by omega)
    have hxle : clampInt (x - dx) 0 (img.width - 1) ≤ clampInt (x + dx) 0 (img.width - 1) :=
      clampInt_mono (by omega) (by omega)
    have hyle : clampInt (y - dy) 0 (img.height - 1) ≤ clampInt (y + dy) 0 (img.height - 1) :=
      clampInt_mono (by omega) (by omega)
    have hsum := windowSum_const img (clampInt (x - dx) 0 (img.width - 1))
      (clampInt (x + dx) 0 (img.width - 1)) (clampInt (y - dy) 0 (img.height - 1))
      (clampInt (y + dy) 0 (img.height - 1)) c (fun i j hi0 hi1 hj0 hj1 => by
        rw [(pixelAt_shaped hs (by omega : 0 ≤ i) (by omega : i < img.width)
          (by omega : 0 ≤ j) (by omega : j < img.height)).2]
        exact hc _ (rd_mem hs (by omega) (by omega) (by omega) (by omega)))
    have hNpos := windowCount_pos hxle hyle
    have hlevel : blurLevel img dx dy x y = (c : Int) := by
      rw [blurLevel_eq img dx dy x y hW hH, hsum]
      have hNq : ((windowCount (clampInt (x - dx) 0 (img.width - 1))
          (clampInt (x + dx) 0 (img.width - 1)) (clampInt (y - dy) 0 (img.height - 1))
          (clampInt (y + dy) 0 (img.height - 1)) : Nat) : ℚ) ≠ 0 := by
        exact_mod_cast (Nat.pos_iff_ne_zero.mp hNpos)
      push_cast
      rw [mul_div_assoc, div_self hNq, mul_one, Int.floor_eq_iff]
      constructor
      · push_cast; linarith
      · push_cast; linarith
    rw [hlevel] at hq
    rw [himg]
    exact_mod_cast hq
  refine ⟨r, e, ?_, hrimg⟩
  rw [hrimg]
  exact hc

/-! ## The range invariant -/

/-- A `double` that is not a NaN, clamped to `[0, M]` (with `0 ≤ M ≤ 255`),
converts to a `uint8` that is at most `M`. -/
theorem clamp_cast (v : Double) (M : Int) (hM0 : 0 ≤ M) (hM : M ≤ 255) (hv : v ≠ Double.nan) :
    ∃ k : Nat, Double.toUint8 (IEEE.clampDouble v (Double.fin 0) (Double.ofInt M)) = some k ∧
      (k : Int) ≤ M := by
  have hMq0 : (0 : ℚ) ≤ (M : ℚ) := by exact_mod_cast hM0
  have hfM : Int.floor (M : ℚ) = M := Int.floor_intCast M
  have hcM : Double.toUint8 (Double.fin (M : ℚ)) = some M.toNat := by
    simp only [Double.toUint8, if_pos hMq0, hfM]
    rw [if_pos ⟨hM0, hM⟩]
  have hc0 : Double.toUint8 (Double.fin 0) = some 0 := by
    simp [Double.toUint8]
  cases v with
  | nan => exact absurd rfl hv
  | inf n =>
    cases n with
    | false =>
      refine ⟨M.toNat, ?_, by omega⟩
      simp only [IEEE.clampDouble, Double.ofInt, Double.lt, Bool.not_false, if_true]
      exact hcM
    | true =>
      refine ⟨0, ?_, by omega⟩
      simp only [IEEE.clampDouble, Double.ofInt, Double.lt, Bool.not_true, if_true]
      exact hc0
  | fin q =>
    unfold IEEE.clampDouble Double.ofInt
    simp only [Double.lt]
    by_cases h1 : (M : ℚ) < q
    · rw [if_pos (by simpa using h1)]
      exact ⟨M.toNat, hcM, by omega⟩
    · rw [if_neg (by simpa using h1)]
      by_cases h2 : q < 0
      · rw [if_pos (by simpa using h2)]
        exact ⟨0, hc0, by omega⟩
      · rw [if_neg (by simpa using h2)]
        push_neg at h1 h2
        have hf0 : 0 ≤ Int.floor q := Int.floor_nonneg.mpr h2
        have hfq : Int.floor q ≤ M := by
          have h3 : Int.floor q ≤ Int.floor (M : ℚ) := Int.floor_mono h1
          rw [hfM] at h3
          exact h3
        refine ⟨(Int.floor q).toNat, ?_, by omega⟩
        simp only [Double.toUint8, if_pos h2]
        rw [if_pos ⟨hf0, by omega⟩]

/-- The rule `write_spec` for states whose pixels are 8-bit values: the body
need only behave on such states, and stores 8-bit values. -/
theorem write_spec_bytes {W H M : Int} (body : Int → Int → Image → Option Image)
    (wOf : Image → Int) (w h : Int) (dx dy : Int → Int → Int) (val : Int → Int → Nat → Nat)
    (hW : ∀ s, Shaped W H M s → wOf s = w)
    (hpos : ∀ x y : Int, 0 ≤ x → x < w → 0 ≤ y → y < h →
      0 ≤ dx x y ∧ dx x y < W ∧ 0 ≤ dy x y ∧ dy x y < H)
    (hinj : ∀ x y x2 y2 : Int, 0 ≤ x → x < w → 0 ≤ y → y < h → 0 ≤ x2 → x2 < w →
      0 ≤ y2 → y2 < h → dx x y = dx x2 y2 → dy x y = dy x2 y2 → x = x2 ∧ y = y2)
    (hbody : ∀ x y : Int, 0 ≤ x → x < w → 0 ≤ y → y < h → ∀ s, Shaped W H M s →
      (∀ i, s.rd i < 256) →
      body x y s = ImageSetPixel s (dx x y) (dy x y)
        (val x y (s.rd (lin W (dx x y) (dy x y)))) ∧
      val x y (s.rd (lin W (dx x y) (dy x y))) < 256)
    (s0 : Image) (h0 : Shaped W H M s0) (h8 : ∀ i, s0.rd i < 256) :
    ∃ r, forRange h (fun y s => forRange (wOf s) (fun x s => body x y s) s) s0 = some r ∧
      Shaped W H M r ∧
      (∀ x y : Int, 0 ≤ x → x < w → 0 ≤ y → y < h →
        r.rd (lin W (dx x y) (dy x y)) = val x y (s0.rd (lin W (dx x y) (dy x y)))) ∧
      (∀ px py : Int, 0 ≤ px → px < W → 0 ≤ py →
        (∀ x y : Int, 0 ≤ x → x < w → 0 ≤ y → y < h → ¬ (dx x y = px ∧ dy x y = py)) →
        r.rd (lin W px py) = s0.rd (lin W px py)) := by
  obtain ⟨r, hrun, hP, hin, hout⟩ := raster_spec
    (fun s => Shaped W H M s ∧ ∀ i, s.rd i < 256) Image.rd body wOf w h
    (fun x y => lin W (dx x y) (dy x y)) val (fun s hs => hW s hs.1)
    (fun x y x2 y2 hx0 hxw hy0 hyh hx20 hx2w hy20 hy2h hidx => by
      obtain ⟨a1, a2, a3, _⟩ := hpos x y hx0 hxw hy0 hyh
      obtain ⟨b1, b2, b3, _⟩ := hpos x2 y2 hx20 hx2w hy20 hy2h
      obtain ⟨e1, e2⟩ := lin_inj a1 a2 a3 b1 b2 b3 hidx
      exact hinj x y x2 y2 hx0 hxw hy0 hyh hx20 hx2w hy20 hy2h e1 e2)
    (fun x y hx0 hxw hy0 hyh s hs => by
      obtain ⟨a1, a2, a3, a4⟩ := hpos x y hx0 hxw hy0 hyh
      obtain ⟨hb, hv8⟩ := hbody x y hx0 hxw hy0 hyh s hs.1 hs.2
      obtain ⟨s2, e, sh2, hv, hframe⟩ := setPixel_shaped hs.1 a1 a2 a3 a4
        (val x y (s.rd (lin W (dx x y) (dy x y))))
      refine ⟨s2, hb.trans e, ⟨sh2, ?_⟩, hv, hframe⟩
      intro i
      by_cases hi : i = lin W (dx x y) (dy x y)
      · rw [hi, hv]
        exact hv8
      · rw [hframe i hi]
        exact hs.2 i)
    s0 ⟨h0, h8⟩
  refine ⟨r, hrun, hP.1, hin, ?_⟩
  intro px py hp0 hpW hq0 hfree
  apply hout
  intro x y hx0 hxw hy0 hyh hidx
  obtain ⟨a1, a2, a3, _⟩ := hpos x y hx0 hxw hy0 hyh
  obtain ⟨e1, e2⟩ := lin_inj a1 a2 a3 hp0 hpW hq0 hidx.symm
  exact hfree x y hx0 hxw hy0 hyh ⟨e1, e2⟩

/-- The sum of a `double` that is not a NaN and a finite one is not a NaN,
provided rounding never delivers a NaN. -/
theorem add_fin_ne_nan (rnd : ℚ → Double) (hrnd : ∀ q, rnd q ≠ Double.nan) (v : Double)
    (hv : v ≠ Double.nan) (c : ℚ) : Double.add rnd v (Double.fin c) ≠ Double.nan := by
  cases v with
  | nan => exact absurd rfl hv
  | inf n => simp [Double.add]
  | fin q =>
    simp only [Double.add]
    exact hrnd _

/-- With a finite factor the value that `ImageBrighten` clamps is not a NaN. -/
theorem brighten_value_ne_nan (rnd : ℚ → Double) (hrnd : ∀ q, rnd q ≠ Double.nan)
    (factor : ℚ) (p : Nat) :
    Double.add rnd (Double.mul rnd (Double.fin factor) (Double.ofInt (p : Int)))
      (Double.fin (1/2)) ≠ Double.nan := by
  apply add_fin_ne_nan rnd hrnd
  simp only [Double.mul, Double.ofInt]
  exact hrnd _

/-- The function `ImageBrighten` in IEEE arithmetic: when the value it clamps
is a NaN for no 8-bit level, it returns an image of the same shape with every
level at most `maxval`. -/
theorem brighten_ieee_spec {img : Image} (hwf : img.WF) (rnd : ℚ → Double) (factor : Double)
    (hnan : ∀ p : Nat, p < 256 →
      Double.add rnd (Double.mul rnd factor (Double.ofInt (p : Int))) (Double.fin (1/2))
        ≠ Double.nan) :
    ∃ r, IEEE.ImageBrighten rnd img factor = some r ∧
      Shaped img.width img.height img.maxval r ∧
      ∀ x y : Int, 0 ≤ x → x < img.width → 0 ≤ y → y < img.height →
        Double.toUint8 (IEEE.clampDouble
          (Double.add rnd
            (Double.mul rnd factor (Double.ofInt ((img.rd (lin img.width x y) : Nat) : Int)))
            (Double.fin (1/2)))
          (Double.fin 0) (Double.ofInt img.maxval)) = some (r.rd (lin img.width x y)) ∧
        ((r.rd (lin img.width x y) : Nat) : Int) ≤ img.maxval := by
  have hs := shaped_of_wf hwf
  have hM0 : 0 ≤ img.maxval := le_of_lt hwf.2.2.1
  have hM := hwf.2.2.2.1
  have h8 : ∀ i, img.rd i < 256 := rd_lt hwf.2.2.2.2.2
  have hcast : ∀ old : Nat, old < 256 → ∃ k : Nat,
      Double.toUint8 (IEEE.clampDouble
        (Double.add rnd (Double.mul rnd factor (Double.ofInt (old : Int))) (Double.fin (1/2)))
        (Double.fin 0) (Double.ofInt img.maxval)) = some k ∧ (k : Int) ≤ img.maxval :=
    fun old hold => clamp_cast _ img.maxval hM0 hM (hnan old hold)
  obtain ⟨r, hrun, sr, hin, _⟩ := write_spec_bytes
    (fun x y s => ImageGetPixel s x y >>= fun p =>
      Double.toUint8 (IEEE.clampDouble
        (Double.add rnd (Double.mul rnd factor (Double.ofInt (p : Int))) (Double.fin (1/2)))
        (Double.fin 0) (Double.ofInt s.maxval)) >>= fun level =>
      ImageSetPixel s x y level)
    Image.width img.width img.height (fun x _ => x) (fun _ y => y)
    (fun _ _ old => (Double.toUint8 (IEEE.clampDouble
        (Double.add rnd (Double.mul rnd factor (Double.ofInt (old : Int))) (Double.fin (1/2)))
        (Double.fin 0) (Double.ofInt img.maxval))).getD 0)
    (fun s hs => hs.1)
    (fun x y hx0 hxW hy0 hyH => ⟨hx0, hxW, hy0, hyH⟩)
    (fun x y x2 y2 _ _ _ _ _ _ _ _ e1 e2 => ⟨e1, e2⟩)
    (fun x y hx0 hxW hy0 hyH s hs hs8 => by
      obtain ⟨k, hk, hkM⟩ := hcast (s.rd (lin img.width x y)) (hs8 _)
      beta_reduce
      rw [getPixel_shaped hs hx0 hxW hy0 hyH, hs.2.2.1]
      simp only [Option.bind_eq_bind, Option.some_bind]
      rw [hk]
      exact ⟨rfl, by simp only [Option.getD_some]; omega⟩)
    img hs h8
  refine ⟨r, hrun, sr, ?_⟩
  intro x y hx0 hxW hy0 hyH
  rw [hin x y hx0 hxW hy0 hyH]
  obtain ⟨k, hk, hkM⟩ := hcast (img.rd (lin img.width x y)) (h8 _)
  rw [hk]
  exact ⟨rfl, hkM⟩

/-- The function `ImageBlend` in IEEE arithmetic: when the value it clamps is a
NaN for no pair of 8-bit levels, it returns an image of the same shape, with
every level of the rectangle at most `maxval` and the others unchanged. -/
theorem blend_ieee_spec {dst src : Image} (hd : dst.WF) (hsrc : src.WF) {x y : Int}
    (rnd : ℚ → Double) (alpha : Double)
    (hr : ImageValidRect dst x y src.width src.height = some true)
    (hnan : ∀ p1 p2 : Nat, p1 < 256 → p2 < 256 →
      Double.add rnd
        (Double.add rnd
          (Double.mul rnd (Double.sub rnd (Double.ofInt 1) alpha) (Double.ofInt (p1 : Int)))
          (Double.mul rnd alpha (Double.ofInt (p2 : Int))))
        (Double.fin (1/2)) ≠ Double.nan) :
    ∃ r, IEEE.ImageBlend rnd dst x y src alpha = some r ∧
      Shaped dst.width dst.height dst.maxval r ∧
      (∀ i j : Int, 0 ≤ i → i < src.width → 0 ≤ j → j < src.height →
        Double.toUint8 (IEEE.clampDouble
          (Double.add rnd
            (Double.add rnd
              (Double.mul rnd (Double.sub rnd (Double.ofInt 1) alpha)
                (Double.ofInt ((dst.rd (lin dst.width (x + i) (y + j)) : Nat) : Int)))
              (Double.mul rnd alpha (Double.ofInt ((src.rd (lin src.width i j) : Nat) : Int))))
            (Double.fin (1/2)))
          (Double.fin 0) (Double.ofInt dst.maxval))
          = some (r.rd (lin dst.width (x + i) (y + j))) ∧
        ((r.rd (lin dst.width (x + i) (y + j)) : Nat) : Int) ≤ dst.maxval) ∧
      (∀ px py : Int, 0 ≤ px → px < dst.width → 0 ≤ py →
        ¬ (x ≤ px ∧ px < x + src.width ∧ y ≤ py ∧ py < y + src.height) →
        r.rd (lin dst.width px py) = dst.rd (lin dst.width px py)) := by
  have sd := shaped_of_wf hd
  have ss := shaped_of_wf hsrc
  have hM0 : 0 ≤ dst.maxval := le_of_lt hd.2.2.1
  have hM := hd.2.2.2.1
  have h8 : ∀ i, dst.rd i < 256 := rd_lt hd.2.2.2.2.2
  have hs8 : ∀ i, src.rd i < 256 := rd_lt hsrc.2.2.2.2.2
  obtain ⟨hx, hy, hw, hh, hxW, hyH, hxw, hyh⟩ := validRect_true hr
  have hcast : ∀ p1 p2 : Nat, p1 < 256 → p2 < 256 → ∃ k : Nat,
      Double.toUint8 (IEEE.clampDouble
        (Double.add rnd
          (Double.add rnd
            (Double.mul rnd (Double.sub rnd (Double.ofInt 1) alpha) (Double.ofInt (p1 : Int)))
            (Double.mul rnd alpha (Double.ofInt (p2 : Int))))
          (Double.fin (1/2)))
        (Double.fin 0) (Double.ofInt dst.maxval)) = some k ∧ (k : Int) ≤ dst.maxval :=
    fun p1 p2 h1 h2 => clamp_cast _ dst.maxval hM0 hM (hnan p1 p2 h1 h2)
  obtain ⟨r, hrun, sr, hin, hout⟩ := write_spec_bytes
    (fun i j s => ImageGetPixel s (x + i) (y + j) >>= fun pixel1 =>
      ImageGetPixel src i j >>= fun pixel2 =>
      Double.toUint8 (IEEE.clampDouble
        (Double.add rnd
          (Double.add rnd
            (Double.mul rnd (Double.sub rnd (Double.ofInt 1) alpha)
              (Double.ofInt (pixel1 : Int)))
            (Double.mul rnd alpha (Double.ofInt (pixel2 : Int))))
          (Double.fin (1/2)))
        (Double.fin 0) (Double.ofInt s.maxval)) >>= fun level =>
      ImageSetPixel s (x + i) (y + j) level)
    (fun _ => src.width) src.width src.height (fun i _ => x + i) (fun _ j => y + j)
    (fun i j old => (Double.toUint8 (IEEE.clampDouble
        (Double.add rnd
          (Double.add rnd
            (Double.mul rnd (Double.sub rnd (Double.ofInt 1) alpha) (Double.ofInt (old : Int)))
            (Double.mul rnd alpha (Double.ofInt ((src.rd (lin src.width i j) : Nat) : Int))))
          (Double.fin (1/2)))
        (Double.fin 0) (Double.ofInt dst.maxval))).getD 0)
    (fun _ _ => rfl)
    (fun i j hi0 hiw hj0 hjh => by beta_reduce; omega)
    (fun _ _ _ _ _ _ _ _ _ _ _ _ e1 e2 => by beta_reduce at e1 e2; omega)
    (fun i j hi0 hiw hj0 hjh s hs hsb => by
      obtain ⟨k, hk, hkM⟩ := hcast (s.rd (lin dst.width (x + i) (y + j)))
        (src.rd (lin src.width i j)) (hsb _) (hs8 _)
      beta_reduce
      rw [getPixel_shaped hs (by omega) (by omega) (by omega) (by omega),
        getPixel_shaped ss hi0 hiw hj0 hjh, hs.2.2.1]
      simp only [Option.bind_eq_bind, Option.some_bind]
      rw [hk]
      exact ⟨rfl, by simp only [Option.getD_some]; omega⟩)
    dst sd h8
  refine ⟨r, ?_, sr, ?_, ?_⟩
  · unfold IEEE.ImageBlend
    rw [hr]
    exact hrun
  · intro i j hi0 hiw hj0 hjh
    rw [hin i j hi0 hiw hj0 hjh]
    obtain ⟨k, hk, hkM⟩ := hcast (dst.rd (lin dst.width (x + i) (y + j)))
      (src.rd (lin src.width i j)) (h8 _) (hs8 _)
    rw [hk]
    exact ⟨rfl, hkM⟩
  · intro px py hp0 hpW hq0 hnot
    apply hout px py hp0 hpW hq0
    intro i j hi0 hiw hj0 hjh ⟨e1, e2⟩
    exact hnot ⟨by omega, by omega, by omega, by omega⟩

/-- With exact rounding, clamping a finite value to `[0, M]` and converting it
to `uint8` is what the computation in `ℚ` does. -/
theorem clamp_exact (v : ℚ) (M : Int) (hM0 : 0 ≤ M) (hM : M ≤ 255) :
    Double.toUint8 (IEEE.clampDouble (Double.fin v) (Double.fin 0) (Double.ofInt M))
      = some (doubleToUint8 (clampDouble v 0 (M : ℚ))) := by
  have hMq0 : (0 : ℚ) ≤ (M : ℚ) := by exact_mod_cast hM0
  have hMq : (M : ℚ) < 256 := by
    have : (M : ℚ) ≤ 255 := by exact_mod_cast hM
    linarith
  have hcast : ∀ c : ℚ, 0 ≤ c → c ≤ (M : ℚ) →
      Double.toUint8 (Double.fin c) = some (doubleToUint8 c) := by
    intro c hc0 hcM
    have hfl := doubleToUint8_floor c hc0 (by linarith)
    have hf0 : 0 ≤ Int.floor c := Int.floor_nonneg.mpr hc0
    have hf1 : Int.floor c < 256 := by
      rw [Int.floor_lt]
      push_cast
      linarith
    simp only [Double.toUint8, if_pos hc0]
    rw [if_pos ⟨hf0, by omega⟩]
    congr 1
    omega
  unfold IEEE.clampDouble Double.ofInt clampDouble
  simp only [Double.lt]
  by_cases h1 : (M : ℚ) < v
  · rw [if_pos (by simpa using h1), if_pos h1]
    exact hcast _ hMq0 (le_refl _)
  · rw [if_neg (by simpa using h1), if_neg h1]
    by_cases h2 : v < 0
    · rw [if_pos (by simpa using h2), if_pos h2]
      exact hcast _ (le_refl _) hMq0
    · rw [if_neg (by simpa using h2), if_neg h2]
      push_neg at h1 h2
      exact hcast _ h2 h1

/-- The function `ImageBrighten` computed in `ℚ` is `IEEE.ImageBrighten` with
exact rounding and a finite factor. -/
theorem brighten_exact_rounding (img : Image) (hwf : img.WF) (factor : ℚ) :
    IEEE.ImageBrighten Double.fin img (Double.fin factor) = ImageBrighten img factor := by
  have hs := shaped_of_wf hwf
  obtain ⟨r1, e1, s1, p1⟩ := brighten_spec hs factor
  obtain ⟨r2, e2, s2, p2⟩ := brighten_ieee_spec hwf Double.fin (Double.fin factor)
    (fun p _ => brighten_value_ne_nan Double.fin (fun _ => by simp) factor p)
  rw [e1, e2]
  congr 1
  apply shaped_ext hwf.1 s2 s1
  intro x y hx0 hxW hy0 hyH
  have h2 := (p2 x y hx0 hxW hy0 hyH).1
  have hc := clamp_exact (factor * (((img.rd (lin img.width x y) : Nat) : Int) : ℚ) + 1/2)
    img.maxval (le_of_lt hwf.2.2.1) hwf.2.2.2.1
  simp only [Double.mul, Double.add, Double.ofInt] at h2 hc
  rw [hc] at h2
  rw [p1 x y hx0 hxW hy0 hyH]
  have h3 := Option.some.inj h2
  rw [← h3]
  push_cast
  rfl

/-- The function `ImageBlend` computed in `ℚ` is `IEEE.ImageBlend` with exact
rounding and a finite alpha. -/
theorem blend_exact_rounding (dst src : Image) (x y : Int) (hd : dst.WF) (hsrc : src.WF)
    (alpha : ℚ) (hr : ImageValidRect dst x y src.width src.height = some true) :
    IEEE.ImageBlend Double.fin dst x y src (Double.fin alpha)
      = ImageBlend dst x y src alpha := by
  have sd := shaped_of_wf hd
  have ss := shaped_of_wf hsrc
  obtain ⟨r1, e1, s1, in1, out1⟩ := blend_spec sd ss alpha hr
  obtain ⟨r2, e2, s2, in2, out2⟩ := blend_ieee_spec hd hsrc Double.fin (Double.fin alpha) hr
    (fun _ _ _ _ => by simp [Double.add, Double.mul, Double.sub, Double.ofInt])
  rw [e1, e2]
  congr 1
  apply shaped_ext hd.1 s2 s1
  intro px py hp0 hpW hq0 hqH
  by_cases hrect : x ≤ px ∧ px < x + src.width ∧ y ≤ py ∧ py < y + src.height
  · have ex : x + (px - x) = px := by omega
    have ey : y + (py - y) = py := by omega
    have h1 := in1 (px - x) (py - y) (by omega) (by omega) (by omega) (by omega)
    have h2 := (in2 (px - x) (py - y) (by omega) (by omega) (by omega) (by omega)).1
    rw [ex, ey] at h1 h2
    have hc := clamp_exact
      ((((1 : Int) : ℚ) - alpha) * (((dst.rd (lin dst.width px py) : Nat) : Int) : ℚ)
        + alpha * (((src.rd (lin src.width (px - x) (py - y)) : Nat) : Int) : ℚ) + 1/2)
      dst.maxval (le_of_lt hd.2.2.1) hd.2.2.2.1
    simp only [Double.mul, Double.add, Double.sub, Double.ofInt] at h2 hc
    rw [hc] at h2
    rw [h1]
    have h3 := Option.some.inj h2
    rw [← h3]
    push_cast
    rfl
  · rw [out1 px py hp0 hpW hq0 hrect, out2 px py hp0 hpW hq0 hrect]

/-- With a finite alpha the value that `ImageBlend` clamps is not a NaN as long
as the product `(1 - alpha) * p1` does not overflow: a NaN can only come from
the two products being infinities of opposite signs. -/
theorem blend_value_ne_nan (rnd : ℚ → Double) (hrnd : ∀ q, rnd q ≠ Double.nan) (alpha : ℚ)
    (p1 p2 : Nat)
    (hfin : ∃ u, Double.mul rnd (Double.sub rnd (Double.ofInt 1) (Double.fin alpha))
      (Double.ofInt (p1 : Int)) = Double.fin u) :
    Double.add rnd
      (Double.add rnd
        (Double.mul rnd (Double.sub rnd (Double.ofInt 1) (Double.fin alpha))
          (Double.ofInt (p1 : Int)))
        (Double.mul rnd (Double.fin alpha) (Double.ofInt (p2 : Int))))
      (Double.fin (1/2)) ≠ Double.nan := by
  obtain ⟨u, hu⟩ := hfin
  rw [hu]
  apply add_fin_ne_nan rnd hrnd
  have h2 : Double.mul rnd (Double.fin alpha) (Double.ofInt (p2 : Int))
      = rnd (alpha * ((p2 : Int) : ℚ)) := by
    simp only [Double.mul, Double.ofInt]
  rw [h2]
  cases hv : rnd (alpha * ((p2 : Int) : ℚ)) with
  | nan => exact absurd hv (hrnd _)
  | inf n => simp [Double.add]
  | fin v =>
    simp only [Double.add]
    exact hrnd _

theorem blurLevel_le {img : Image} (hwf : img.WF) (hrange : img.InRange) (hW : 1 ≤ img.width)
    (hH : 1 ≤ img.height) {dx dy : Int} (hdx : 0 ≤ dx) (hdy : 0 ≤ dy) (x y : Int) :
    blurLevel img dx dy x y ≤ img.maxval := by
  have hs := shaped_of_wf hwf
  have cx0 := @clampInt_mem (x - dx) (img.width - 1) (by omega)
  have cx1 := @clampInt_mem (x + dx) (img.width - 1) (by omega)
  have cy0 := @clampInt_mem (y - dy) (img.height - 1) (by omega)
  have cy1 := @clampInt_mem (y + dy) (img.height - 1) (by omega)
  have hxle : clampInt (x - dx) 0 (img.width - 1) ≤ clampInt (x + dx) 0 (img.width - 1) :=
    clampInt_mono (by omega) (by omega)
  have hyle : clampInt (y - dy) 0 (img.height - 1) ≤ clampInt (y + dy) 0 (img.height - 1) :=
    clampInt_mono (by omega) (by omega)
  have hM0 := hwf.2.2.1
  have hsum := windowSum_le img (clampInt (x - dx) 0 (img.width - 1))
    (clampInt (x + dx) 0 (img.width - 1)) (clampInt (y - dy) 0 (img.height - 1))
    (clampInt (y + dy) 0 (img.height - 1)) img.maxval.toNat (fun i j hi0 hi1 hj0 hj1 => by
      rw [(pixelAt_shaped hs (by omega : 0 ≤ i) (by omega : i < img.width)
        (by omega : 0 ≤ j) (by omega : j < img.height)).2]
      have := rd_le hM0 hrange (lin img.width i j)
      omega)
  have hS : ((windowSum img (clampInt (x - dx) 0 (img.width - 1))
      (clampInt (x + dx) 0 (img.width - 1)) (clampInt (y - dy) 0 (img.height - 1))
      (clampInt (y + dy) 0 (img.height - 1)) : Nat) : Int) ≤ img.maxval *
      ((windowCount (clampInt (x - dx) 0 (img.width - 1))
      (clampInt (x + dx) 0 (img.width - 1)) (clampInt (y - dy) 0 (img.height - 1))
      (clampInt (y + dy) 0 (img.height - 1)) : Nat) : Int) := by
    have h1 : ((img.maxval.toNat : Nat) : Int) = img.maxval := Int.toNat_of_nonneg (by omega)
    have h2 := Int.ofNat_le.mpr hsum
    push_cast at h2
    rw [h1] at h2
    exact h2
  rw [blurLevel_eq img dx dy x y hW hH]
  exact (mean_round_bounds _ _ img.maxval (windowCount_pos hxle hyle) hS).2.2

/-- Claim C20 as stated fails. `ImageBrighten` with a NaN factor on the 1x1
image of level 200, `ImageBrighten` with the factor `+infinity` on the 1x1
image of level 0 (`inf * 0` is a NaN), and `ImageBlend` with a NaN alpha of
the 2x1 image into the 3x2 sample image at `(1, 1)`: each image satisfies the
invariant, and in each call the value handed to `clampDouble` is a NaN, of
which both comparisons are false, so `clampDouble` returns the NaN and the
conversion `(uint8) NaN` is undefined: no level at most `maxval` is stored,
the call has no defined result. -/
theorem range_nan_counterexample :
    bright255.WF ∧ bright255.InRange ∧
    IEEE.clampDouble Double.nan (Double.fin 0) (Double.ofInt 255) = Double.nan ∧
    Double.toUint8 Double.nan = none ∧
    IEEE.ImageBrighten Double.fin bright255 Double.nan = none ∧
    dark100.WF ∧ dark100.InRange ∧
    Double.mul Double.fin (Double.inf false) (Double.ofInt 0) = Double.nan ∧
    IEEE.ImageBrighten Double.fin dark100 (Double.inf false) = none ∧
    sample32.WF ∧ sample32.InRange ∧ pair21.WF ∧
    ImageValidRect sample32 1 1 pair21.width pair21.height = some true ∧
    IEEE.ImageBlend Double.fin sample32 1 1 pair21 Double.nan = none := by
  decide

/-- Claim C20, amended. The invariant "every pixel is at most maxval" is
preserved: for every well-formed image that satisfies it, each of the
following succeeds and leaves an image of the same maxval in which every pixel
is at most maxval: `ImageNegative`; `ImageThreshold` with any `thr`;
`ImageBrighten` with any finite factor (neither a NaN nor an infinity),
whatever the rounding of the `double` operations; `ImageBlur` with any
`dx, dy ≥ 0` on an image of width and height at least 1, when the `int`
arithmetic does not overflow (`(width - 1) + dx` and `(height - 1) + dy` at
most `INT_MAX`, 255 times the largest window size at most `INT_MAX`); and
`ImageBlend` with any fitting well-formed `src` and any alpha for which the
value handed to `clampDouble`, `(1 - alpha) * p1 + alpha * p2 + 0.5`, is a NaN
for no pair of 8-bit levels `p1`, `p2`. -/
theorem C20_range_invariant_preserved :
    (∀ img : Image, img.WF → img.InRange →
      ∃ r, ImageNegative img = some r ∧ r.maxval = img.maxval ∧ r.InRange) ∧
    (∀ (img : Image) (thr : Nat), img.WF → img.InRange →
      ∃ r, ImageThreshold img thr = some r ∧ r.maxval = img.maxval ∧ r.InRange) ∧
    (∀ (rnd : ℚ → Double) (img : Image) (factor : ℚ), (∀ q, rnd q ≠ Double.nan) →
      img.WF → img.InRange →
      ∃ r, IEEE.ImageBrighten rnd img (Double.fin factor) = some r ∧
        r.maxval = img.maxval ∧ r.InRange) ∧
    (∀ (img : Image) (dx dy : Int), img.WF → img.InRange → 1 ≤ img.width → 1 ≤ img.height →
      0 ≤ dx → 0 ≤ dy →
      (img.width - 1) + dx ≤ INT_MAX → (img.height - 1) + dy ≤ INT_MAX →
      255 * (min img.width (2 * dx + 1) * min img.height (2 * dy + 1)) ≤ INT_MAX →
      ∃ r, ImageBlur img dx dy = some r ∧ r.maxval = img.maxval ∧ r.InRange) ∧
    (∀ (rnd : ℚ → Double) (img src : Image) (x y : Int) (alpha : Double),
      img.WF → img.InRange → src.WF →
      ImageValidRect img x y src.width src.height = some true →
      (∀ p1 p2 : Nat, p1 < 256 → p2 < 256 →
        Double.add rnd
          (Double.add rnd
            (Double.mul rnd (Double.sub rnd (Double.ofInt 1) alpha) (Double.ofInt (p1 : Int)))
            (Double.mul rnd alpha (Double.ofInt (p2 : Int))))
          (Double.fin (1/2)) ≠ Double.nan) →
      ∃ r, IEEE.ImageBlend rnd img x y src alpha = some r ∧
        r.maxval = img.maxval ∧ r.InRange) := by
  refine ⟨?_, ?_, ?_, ?_, ?_⟩
  · intro img hwf hrange
    obtain ⟨r, e, sr, hpix⟩ := negative_spec (shaped_of_wf hwf)
    refine ⟨r, e, sr.2.2.1, inRange_of_rd sr hwf.1 ?_⟩
    intro x y hx0 hxW hy0 hyH
    rw [hpix x y hx0 hxW hy0 hyH]
    have hle := rd_le hwf.2.2.1 hrange (lin img.width x y)
    have hM := hwf.2.2.2.1
    unfold toUint8
    simp only [Int.ofNat_eq_coe]
    omega
  · intro img thr hwf _
    obtain ⟨r, e, sr, hpix⟩ := threshold_spec (shaped_of_wf hwf) thr
    refine ⟨r, e, sr.2.2.1, inRange_of_rd sr hwf.1 ?_⟩
    intro x y hx0 hxW hy0 hyH
    rw [hpix x y hx0 hxW hy0 hyH]
    have hM0 := hwf.2.2.1
    have hM := hwf.2.2.2.1
    unfold toUint8
    split <;> omega
  · intro rnd img factor hrnd hwf _
    obtain ⟨r, e, sr, hpix⟩ := brighten_ieee_spec hwf rnd (Double.fin factor)
      (fun p _ => brighten_value_ne_nan rnd hrnd factor p)
    exact ⟨r, e, sr.2.2.1, inRange_of_rd sr hwf.1
      (fun x y hx0 hxW hy0 hyH => (hpix x y hx0 hxW hy0 hyH).2)⟩
  · intro img dx dy hwf hrange hW hH hdx hdy hxo hyo hwin
    unfold INT_MAX at hxo hyo hwin
    obtain ⟨r, e, sr, hpix⟩ := blur_spec hwf hW hH hdx hdy (by omega) (by omega) hwin
    refine ⟨r, e, sr.2.2.1, inRange_of_rd sr hwf.1 ?_⟩
    intro x y hx0 hxW hy0 hyH
    rw [hpix x y hx0 hxW hy0 hyH]
    exact blurLevel_le hwf hrange hW hH hdx hdy x y
  · intro rnd img src x y alpha hwf hrange hsrc hr hnan
    obtain ⟨r, e, sr, hin, hout⟩ := blend_ieee_spec hwf hsrc rnd alpha hr hnan
    refine ⟨r, e, sr.2.2.1, inRange_of_rd sr hwf.1 ?_⟩
    intro px py hp0 hpW hq0 hqH
    by_cases hrect : x ≤ px ∧ px < x + src.width ∧ y ≤ py ∧ py < y + src.height
    · have h1 := hin (px - x) (py - y) (by omega) (by omega) (by omega) (by omega)
      have ex : x + (px - x) = px := by omega
      have ey : y + (py - y) = py := by omega
      rw [ex, ey] at h1
      exact h1.2
    · rw [hout px py hp0 hpW hq0 hrect]
      exact rd_le hwf.2.2.1 hrange _

/-- C20 (amended) at concrete images: the five transforms applied to the 4x3
scenario image, with exact rounding (`Double.fin`), factor 3, and alpha 1/2
blending the 2x1 image at `(1, 1)`. -/
theorem C20_range_invariant_preserved_witness :
    scenario43.WF ∧ scenario43.InRange ∧
    (∃ r, ImageNegative scenario43 = some r ∧ r.maxval = scenario43.maxval ∧ r.InRange) ∧
    (∃ r, ImageThreshold scenario43 100 = some r ∧ r.maxval = scenario43.maxval ∧ r.InRange) ∧
    (∃ r, IEEE.ImageBrighten Double.fin scenario43 (Double.fin 3) = some r ∧
      r.maxval = scenario43.maxval ∧ r.InRange) ∧
    (∃ r, ImageBlur scenario43 1 1 = some r ∧ r.maxval = scenario43.maxval ∧ r.InRange) ∧
    (∃ r, IEEE.ImageBlend Double.fin scenario43 1 1 pair21 (Double.fin (1/2)) = some r ∧
      r.maxval = scenario43.maxval ∧ r.InRange) :=
  ⟨by decide, by decide,
   C20_range_invariant_preserved.1 scenario43 (by decide) (by decide),
   C20_range_invariant_preserved.2.1 scenario43 100 (by decide) (by decide),
   C20_range_invariant_preserved.2.2.1 Double.fin scenario43 3 (fun _ => by simp)
     (by decide) (by decide),
   C20_range_invariant_preserved.2.2.2.1 scenario43 1 1 (by decide) (by decide) (by decide)
     (by decide) (by decide) (by decide) (by decide) (by decide) (by decide),
   C20_range_invariant_preserved.2.2.2.2 Double.fin scenario43 pair21 1 1 (Double.fin (1/2))
     (by decide) (by decide) (by decide) (by decide)
     (fun _ _ _ _ => by simp [Double.add, Double.mul, Double.sub, Double.ofInt])⟩

/-! ## Loops with early return -/

theorem scanRet_cons {κ ρ : Type} (body : κ → Option (Option ρ)) (k : κ) (rest : List κ) :
    scanRet body (k :: rest) = body k >>= fun r =>
      match r with
      | some v => some (some v)
      | none => scanRet body rest := rfl

theorem foldlM_ret_some {κ ρ : Type} (body : κ → Option (Option ρ)) (v : ρ) (l : List κ) :
    l.foldlM (fun (acc : Option ρ) (k : κ) =>
      match acc with
      | some r => some (some r)
      | none => body k) (some v) = some (some v) := by
  induction l with
  | nil => rfl
  | cons k rest ih =>
    rw [List.foldlM_cons]
    exact ih

theorem foldlM_ret_none {κ ρ : Type} (body : κ → Option (Option ρ)) (l : List κ) :
    l.foldlM (fun (acc : Option ρ) (k : κ) =>
      match acc with
      | some r => some (some r)
      | none => body k) none = scanRet body l := by
  induction l with
  | nil => rfl
  | cons k rest ih =>
    rw [List.foldlM_cons]
    rw [scanRet_cons]
    cases hb : body k with
    | none => rfl
    | some r =>
      cases r with
      | none => simpa using ih
      | some v => simpa using foldlM_ret_some body v rest

theorem forRangeRet_eq_scan {ρ : Type} (n : Int) (body : Int → Option (Option ρ)) :
    forRangeRet n body = scanRet body ((List.range n.toNat).map (fun (k : Nat) => (k : Int))) := by
  unfold forRangeRet
  rw [← foldlM_ret_none, List.foldlM_map]

theorem scanRet_append {κ ρ : Type} (body : κ → Option (Option ρ)) (l1 l2 : List κ) :
    scanRet body (l1 ++ l2) = scanRet body l1 >>= fun r =>
      match r with
      | some v => some (some v)
      | none => scanRet body l2 := by
  induction l1 with
  | nil => rfl
  | cons k rest ih =>
    rw [List.cons_append, scanRet_cons, scanRet_cons]
    cases hb : body k with
    | none => rfl
    | some r =>
      cases r with
      | none => simpa using ih
      | some v => rfl

theorem scanRet_map {κ κ2 ρ : Type} (body : κ2 → Option (Option ρ)) (f : κ → κ2) (l : List κ) :
    scanRet body (l.map f) = scanRet (fun k => body (f k)) l := by
  induction l with
  | nil => rfl
  | cons k rest ih =>
    rw [List.map_cons, scanRet_cons, scanRet_cons, ih]

/-- Two nested scans are one scan of the pairs, outer key first. -/
theorem scanRet_nested {α β ρ : Type} (f : α → β → Option (Option ρ)) (xs : List α)
    (ys : List β) :
    scanRet (fun y => scanRet (fun x => f x y) xs) ys =
      scanRet (fun (p : α × β) => f p.1 p.2) (ys.flatMap fun y => xs.map fun x => (x, y)) := by
  induction ys with
  | nil => rfl
  | cons y rest ih =>
    rw [List.flatMap_cons, scanRet_append, scanRet_map, ← ih]
    rfl

theorem scanRet_all_none {κ ρ : Type} (body : κ → Option (Option ρ)) (l : List κ)
    (h : ∀ k ∈ l, body k = some none) : scanRet body l = some none := by
  induction l with
  | nil => rfl
  | cons k rest ih =>
    rw [scanRet_cons]
    rw [h k (List.mem_cons_self k rest)]
    exact ih (fun q hq => h q (List.mem_cons_of_mem k hq))

theorem forRangeRet_all_none {ρ : Type} (n : Int) (body : Int → Option (Option ρ))
    (h : ∀ k : Int, 0 ≤ k → k < n → body k = some none) : forRangeRet n body = some none := by
  rw [forRangeRet_eq_scan]
  apply scanRet_all_none
  intro k hk
  rw [List.mem_map] at hk
  obtain ⟨m, hm, rfl⟩ := hk
  rw [List.mem_range] at hm
  exact h _ (by omega) (by omega)

theorem scanRet_result {κ ρ : Type} (P : ρ → Prop) (body : κ → Option (Option ρ))
    (h : ∀ k v, body k = some (some v) → P v) (l : List κ) (v : ρ)
    (hv : scanRet body l = some (some v)) : P v := by
  induction l with
  | nil => simp [scanRet] at hv
  | cons k rest ih =>
    rw [scanRet_cons] at hv
    cases hb : body k with
    | none => simp [hb] at hv
    | some r =>
      cases r with
      | none =>
        rw [hb] at hv
        exact ih hv
      | some w =>
        rw [hb] at hv
        simp only [Option.bind_eq_bind, Option.some_bind, Option.some.injEq] at hv
        subst hv
        exact h k w hb

/-- The function `ImageMatchSubImage` returns 0 or 1 when it returns. -/
theorem match_zero_one {img1 img2 : Image} {x y m : Int}
    (h : ImageMatchSubImage img1 x y img2 = some m) : m = 0 ∨ m = 1 := by
  unfold ImageMatchSubImage at h
  simp only [Option.bind_eq_bind, Option.bind_eq_some] at h
  obtain ⟨_, _, r, hr, hres⟩ := h
  cases r with
  | none =>
    simp only [Option.some.injEq] at hres
    exact Or.inr hres.symm
  | some v =>
    simp only [Option.some.injEq] at hres
    subst hres
    left
    rw [forRangeRet_eq_scan] at hr
    refine scanRet_result (fun v => v = 0) _ ?_ _ v hr
    intro j w hj
    rw [forRangeRet_eq_scan] at hj
    refine scanRet_result (fun v => v = 0) _ ?_ _ w hj
    intro i w2 hi
    simp only [Option.bind_eq_some] at hi
    obtain ⟨p1, _, p2, _, hif⟩ := hi
    split at hif
    · simp only [Option.some.injEq] at hif
      exact hif.symm
    · simp at hif

/-- The two nested loops of `ImageLocateSubImage` scan `scanOffsets` in order. -/
theorem locate_loops_scan {ρ : Type} (img1 img2 : Image) (B : Int → Int → Option (Option ρ)) :
    forRangeRet (img1.height - img2.height + 1) (fun j =>
      forRangeRet (img1.width - img2.width + 1) (fun i => B i j)) =
    scanRet (fun (o : Int × Int) => B o.1 o.2) (scanOffsets img1 img2) := by
  rw [forRangeRet_eq_scan]
  have hinner : (fun j => forRangeRet (img1.width - img2.width + 1) (fun i => B i j)) =
      (fun j => scanRet (fun i => B i j)
        ((List.range (img1.width - img2.width + 1).toNat).map (fun (k : Nat) => (k : Int)))) := by
    funext j
    rw [forRangeRet_eq_scan]
  rw [hinner, scanRet_nested]
  congr 1
  unfold scanOffsets
  rw [List.flatMap_map]
  congr 1
  funext j
  simp [List.map_map, Function.comp_def]

theorem firstMatch_cons (img1 img2 : Image) (o : Int × Int) (rest : List (Int × Int)) :
    firstMatch img1 img2 (o :: rest) = ImageMatchSubImage img1 o.1 o.2 img2 >>= fun m =>
      if m ≠ 0 then some (some o) else firstMatch img1 img2 rest := rfl

/-- The scan of `ImageLocateSubImage` is the reference `firstMatch`. -/
theorem scan_eq_firstMatch (img1 img2 : Image) (l : List (Int × Int)) :
    scanRet (fun (o : Int × Int) => ImageMatchSubImage img1 o.1 o.2 img2 >>= fun m =>
      if m ≠ 0 then some (some ((1 : Int), o.1, o.2)) else some none) l =
    (firstMatch img1 img2 l).map (Option.map fun o => ((1 : Int), o.1, o.2)) := by
  induction l with
  | nil => rfl
  | cons o rest ih =>
    rw [scanRet_cons, firstMatch_cons]
    cases hm : ImageMatchSubImage img1 o.1 o.2 img2 with
    | none => rfl
    | some m =>
      by_cases h0 : m ≠ 0
      · simp [h0]
      · simp only [Option.bind_eq_bind, Option.some_bind, h0, if_false]
        exact ih

theorem firstMatch_some_iff (img1 img2 : Image) (l : List (Int × Int)) (o : Int × Int) :
    firstMatch img1 img2 l = some (some o) ↔
      ∃ before after, l = before ++ o :: after ∧
        (∀ q ∈ before, ImageMatchSubImage img1 q.1 q.2 img2 = some 0) ∧
        ImageMatchSubImage img1 o.1 o.2 img2 = some 1 := by
  induction l with
  | nil =>
    constructor
    · intro h; simp [firstMatch] at h
    · rintro ⟨before, after, h, _⟩; simp at h
  | cons q rest ih =>
    rw [firstMatch_cons]
    cases hm : ImageMatchSubImage img1 q.1 q.2 img2 with
    | none =>
      constructor
      · intro h; simp at h
      · rintro ⟨before, after, h, hb, ho⟩
        cases before with
        | nil =>
          simp only [List.nil_append, List.cons.injEq] at h
          rw [← h.1, hm] at ho
          simp at ho
        | cons b bs =>
          simp only [List.cons_append, List.cons.injEq] at h
          have := hb b (List.mem_cons_self b bs)
          rw [← h.1, hm] at this
          simp at this
    | some m =>
      rcases match_zero_one hm with h0 | h1
      · subst h0
        simp only [Option.bind_eq_bind, Option.some_bind, ne_eq, not_true_eq_false, if_false]
        rw [ih]
        constructor
        · rintro ⟨before, after, h, hb, ho⟩
          refine ⟨q :: before, after, by rw [h]; rfl, ?_, ho⟩
          intro p hp
          rcases List.mem_cons.mp hp with rfl | hp2
          · exact hm
          · exact hb p hp2
        · rintro ⟨before, after, h, hb, ho⟩
          cases before with
          | nil =>
            simp only [List.nil_append, List.cons.injEq] at h
            rw [← h.1, hm] at ho
            simp at ho
          | cons b bs =>
            simp only [List.cons_append, List.cons.injEq] at h
            exact ⟨bs, after, h.2, fun p hp => hb p (List.mem_cons_of_mem b hp), ho⟩
      · subst h1
        simp only [Option.bind_eq_bind, Option.some_bind, ne_eq, one_ne_zero, not_false_eq_true,
          if_true, Option.some.injEq]
        constructor
        · intro h
          subst h
          exact ⟨[], rest, rfl, fun p hp => by simp at hp, hm⟩
        · rintro ⟨before, after, h, hb, ho⟩
          cases before with
          | nil =>
            simp only [List.nil_append, List.cons.injEq] at h
            exact h.1
          | cons b bs =>
            simp only [List.cons_append, List.cons.injEq] at h
            have := hb b (List.mem_cons_self b bs)
            rw [← h.1, hm] at this
            simp at this

theorem firstMatch_none_iff (img1 img2 : Image) (l : List (Int × Int)) :
    firstMatch img1 img2 l = some none ↔
      ∀ q ∈ l, ImageMatchSubImage img1 q.1 q.2 img2 = some 0 := by
  induction l with
  | nil => simp [firstMatch]
  | cons q rest ih =>
    rw [firstMatch_cons]
    cases hm : ImageMatchSubImage img1 q.1 q.2 img2 with
    | none =>
      constructor
      · intro h; simp at h
      · intro h
        have := h q (List.mem_cons_self q rest)
        rw [hm] at this
        simp at this
    | some m =>
      rcases match_zero_one hm with h0 | h1
      · subst h0
        simp only [Option.bind_eq_bind, Option.some_bind, ne_eq, not_true_eq_false, if_false]
        rw [ih]
        constructor
        · intro h p hp
          rcases List.mem_cons.mp hp with rfl | hp2
          · exact hm
          · exact h p hp2
        · intro h p hp
          exact h p (List.mem_cons_of_mem q hp)
      · subst h1
        constructor
        · intro h; simp at h
        · intro h
          have := h q (List.mem_cons_self q rest)
          rw [hm] at this
          simp at this

theorem firstMatch_total (img1 img2 : Image) (l : List (Int × Int))
    (h : ∀ q ∈ l, ∃ m, ImageMatchSubImage img1 q.1 q.2 img2 = some m) :
    ∃ r, firstMatch img1 img2 l = some r := by
  induction l with
  | nil => exact ⟨none, rfl⟩
  | cons q rest ih =>
    rw [firstMatch_cons]
    obtain ⟨m, hm⟩ := h q (List.mem_cons_self q rest)
    rw [hm]
    by_cases h0 : m ≠ 0
    · exact ⟨some q, by simp [h0]⟩
    · obtain ⟨r, hr⟩ := ih (fun p hp => h p (List.mem_cons_of_mem q hp))
      have hm0 : m = 0 := by omega
      subst hm0
      exact ⟨r, by simpa using hr⟩

/-- When `img2` fits at the origin, `ImageLocateSubImage` is the reference
`firstMatch` over `scanOffsets`, wrapped into the returned triple. -/
theorem locate_eq_firstMatch (img1 img2 : Image) (px py : Int)
    (hr : ImageValidRect img1 0 0 img2.width img2.height = some true) :
    ImageLocateSubImage img1 px py img2 =
      (firstMatch img1 img2 (scanOffsets img1 img2) >>= fun r =>
        match r with
        | some o => some ((1 : Int), o.1, o.2)
        | none => some (0, px, py)) := by
  unfold ImageLocateSubImage
  rw [hr]
  have hscan := locate_loops_scan img1 img2 (fun i j =>
    ImageMatchSubImage img1 i j img2 >>= fun m =>
      if m ≠ 0 then some (some ((1 : Int), i, j)) else some none)
  have hfm := scan_eq_firstMatch img1 img2 (scanOffsets img1 img2)
  simp only [Option.bind_eq_bind, Option.some_bind, assert, if_true] at hscan hfm ⊢
  rw [hscan, hfm]
  cases firstMatch img1 img2 (scanOffsets img1 img2) with
  | none => rfl
  | some r =>
    cases r with
    | none => rfl
    | some o => rfl

/-- The scan of `ImageLocateSubImage`, as far as the comparisons return. For
`img2` fitting at the origin of `img1`, `ImageLocateSubImage` is the scan
`locateReference` of the offsets, `j` outer and `i` inner, both ascending.  It
returns 1 with `(*px, *py) = (i, j)` exactly when `(i, j)` is the first offset
of the scan at which `ImageMatchSubImage` returns 1, every earlier one
returning 0; it returns 0 with `*px`, `*py` at their prior values exactly when
`ImageMatchSubImage` returns 0 at every offset; and it returns whenever every
comparison of the scan returns.  A comparison that does not return leaves the
search without a result. -/
theorem locate_scan (img1 img2 : Image) (px py : Int)
    (hr : ImageValidRect img1 0 0 img2.width img2.height = some true) :
    ImageLocateSubImage img1 px py img2 = locateReference img1 px py img2 ∧
    (∀ i j : Int, ImageLocateSubImage img1 px py img2 = some (1, i, j) ↔
      ∃ before after, scanOffsets img1 img2 = before ++ (i, j) :: after ∧
        (∀ q ∈ before, ImageMatchSubImage img1 q.1 q.2 img2 = some 0) ∧
        ImageMatchSubImage img1 i j img2 = some 1) ∧
    (ImageLocateSubImage img1 px py img2 = some (0, px, py) ↔
      ∀ q ∈ scanOffsets img1 img2, ImageMatchSubImage img1 q.1 q.2 img2 = some 0) ∧
    ((∀ q ∈ scanOffsets img1 img2, ∃ m, ImageMatchSubImage img1 q.1 q.2 img2 = some m) →
      ∃ v, ImageLocateSubImage img1 px py img2 = some v) := by
  have hloc := locate_eq_firstMatch img1 img2 px py hr
  refine ⟨?_, ?_, ?_, ?_⟩
  · rw [hloc]
    unfold locateReference
    rw [hr]
    rfl
  · intro i j
    rw [hloc, ← firstMatch_some_iff img1 img2 (scanOffsets img1 img2) (i, j)]
    cases firstMatch img1 img2 (scanOffsets img1 img2) with
    | none => simp
    | some r =>
      cases r with
      | none => simp
      | some o =>
        obtain ⟨a, b⟩ := o
        simp
  · rw [hloc, ← firstMatch_none_iff img1 img2 (scanOffsets img1 img2)]
    cases firstMatch img1 img2 (scanOffsets img1 img2) with
    | none => simp
    | some r =>
      cases r with
      | none => simp
      | some o => simp
  · intro hall
    obtain ⟨r, hrr⟩ := firstMatch_total img1 img2 (scanOffsets img1 img2) hall
    rw [hloc, hrr]
    cases r with
    | none => exact ⟨_, rfl⟩
    | some o => exact ⟨_, rfl⟩

/-- Claim C14 fails on the code. `img1` is the 3x2 image `[1, 2, 3; 4, 5, 6]`
and `img2` the 2x1 image `[2, 3]`, which fits at the origin of `img1` (and
occurs in it at `(1, 0)`).  The scan visits the offsets `(0, 0)` and `(1, 0)`
first.  At `(0, 0)` `ImageMatchSubImage` returns 0.  At `(1, 0)` it iterates
over `min(img1.height - 0, img2.width) = 2` rows and reads `(0, 1)` of `img2`,
which is not a valid position: the assertion of `ImageGetPixel` fails.  So
`ImageMatchSubImage` returns 1 at no offset, yet `ImageLocateSubImage` does not
return 0 with `*px`, `*py` untouched: it returns nothing (nor does it return 1
with the offset `(1, 0)` at which `img2` occurs). -/
theorem C14_locate_faults_on_nonsquare_subimage :
    sample32.WF ∧ pair23.WF ∧
    ImageValidRect sample32 0 0 pair23.width pair23.height = some true ∧
    scanOffsets sample32 pair23 = [(0, 0), (1, 0), (0, 1), (1, 1)] ∧
    ImageMatchSubImage sample32 0 0 pair23 = some 0 ∧
    minInt (sample32.height - 0) pair23.width = 2 ∧
    ImageGetPixel sample32 (1 + 0) (0 + 0) = some 2 ∧ ImageGetPixel pair23 0 0 = some 2 ∧
    ImageGetPixel sample32 (1 + 1) (0 + 0) = some 3 ∧ ImageGetPixel pair23 1 0 = some 3 ∧
    ImageValidPos pair23 0 1 = false ∧
    ImageMatchSubImage sample32 1 0 pair23 = none ∧
    (∀ q ∈ scanOffsets sample32 pair23, ImageMatchSubImage sample32 q.1 q.2 pair23 ≠ some 1) ∧
    ImageLocateSubImage sample32 (-7) (-9) pair23 = none := by
  decide

theorem minInt_le (a b : Int) : minInt a b ≤ a ∧ minInt a b ≤ b := by
  unfold minInt
  split <;> omega

/-- Comparing an image with one that has the same pixel at every position
compared returns 1. -/
theorem match_identical {img1 img2 : Image} (hwf : img1.WF) (hW : 1 ≤ img1.width)
    (hH : 1 ≤ img1.height)
    (hpix : ∀ x y : Int, ImageValidPos img1 x y = true →
      ImageGetPixel img2 x y = ImageGetPixel img1 x y) :
    ImageMatchSubImage img1 0 0 img2 = some 1 := by
  have hs := shaped_of_wf hwf
  have hv : ImageValidPos img1 0 0 = true := by
    simp [ImageValidPos]; omega
  have hloops : forRangeRet (minInt (img1.height - 0) img2.width) (fun j =>
      forRangeRet (minInt (img1.width - 0) img2.height) (fun i =>
        ImageGetPixel img1 (0 + i) (0 + j) >>= fun p1 =>
        ImageGetPixel img2 i j >>= fun p2 =>
        if p1 ≠ p2 then some (some (0 : Int)) else some none)) = some none := by
    apply forRangeRet_all_none
    intro j hj0 hjn
    apply forRangeRet_all_none
    intro i hi0 hin
    have h1 := (minInt_le (img1.height - 0) img2.width).1
    have h2 := (minInt_le (img1.width - 0) img2.height).1
    have hvp : ImageValidPos img1 i j = true := by
      simp [ImageValidPos]; omega
    rw [zero_add, zero_add, hpix i j hvp,
      getPixel_shaped hs hi0 (by omega) hj0 (by omega)]
    simp
  unfold ImageMatchSubImage
  rw [hv]
  simp only [assert, if_true, Option.bind_eq_bind, Option.some_bind] at hloops ⊢
  rw [hloops]
  rfl

/-- Claim C15 as stated fails. `img1` and `img2` are both the empty image (same
width, height and pixels), yet `ImageLocateSubImage` does not return: its
assertion `ImageValidRect(img1, 0, 0, 0, 0)` is false, `(0, 0)` not being a
valid position of an empty image. -/
theorem locate_identical_empty_counterexample :
    empty00.WF ∧ ImageValidRect empty00 0 0 empty00.width empty00.height = some false ∧
    ImageLocateSubImage empty00 5 5 empty00 = none := by
  decide

/-- Claim C15, amended. For every well-formed image `img1` of width and height
at least 1 and every `img2` with the same width and height and the same pixel
at every position, `ImageLocateSubImage` returns 1 with `(*px, *py) = (0, 0)`. -/
theorem C15_locate_identical (img1 img2 : Image) (px py : Int) (hwf : img1.WF)
    (hW : 1 ≤ img1.width) (hH : 1 ≤ img1.height) (hw : img2.width = img1.width)
    (hh : img2.height = img1.height)
    (hpix : ∀ x y : Int, ImageValidPos img1 x y = true →
      ImageGetPixel img2 x y = ImageGetPixel img1 x y) :
    ImageLocateSubImage img1 px py img2 = some (1, 0, 0) := by
  have hr : ImageValidRect img1 0 0 img2.width img2.height = some true :=
    validRect_origin hW hH hw hh
  have hoff : scanOffsets img1 img2 = [(0, 0)] := by
    unfold scanOffsets
    rw [hw, hh]
    have e1 : (img1.height - img1.height + 1).toNat = 1 := by omega
    have e2 : (img1.width - img1.width + 1).toNat = 1 := by omega
    rw [e1, e2]
    rfl
  rw [locate_eq_firstMatch img1 img2 px py hr, hoff, firstMatch_cons,
    match_identical hwf hW hH hpix]
  rfl

/-- C15 (amended) at the 3x2 sample image compared with itself. -/
theorem C15_locate_identical_witness :
    ImageLocateSubImage sample32 (-7) (-9) sample32 = some (1, 0, 0) :=
  C15_locate_identical sample32 sample32 (-7) (-9) (by decide) (by decide) (by decide) rfl rfl
    (fun _ _ _ => rfl)

/-! ## Paste and the range invariant -/

/-- Claim C21 as stated fails. `dst` is 1x1 with maxval 100 and pixel 0, `src`
is 1x1 with maxval 255 and pixel 200: each has all its pixels at most its own
maxval and `src` fits at `(0, 0)`, but after `ImagePaste` the pixel of `dst` is
200, above `dst.maxval = 100`: the levels are copied without rescaling. -/
theorem paste_range_counterexample :
    dark100.WF ∧ dark100.InRange ∧ bright255.WF ∧ bright255.InRange ∧
    ImageValidRect dark100 0 0 bright255.width bright255.height = some true ∧
    ImagePaste dark100 0 0 bright255 = some ⟨1, 1, 100, [200]⟩ ∧
    ¬ (⟨1, 1, 100, [200]⟩ : Image).InRange := by
  decide

/-- Claim C21, amended. For every well-formed `dst` with all pixels at most
`dst.maxval`, every well-formed `src` and every `(x, y)` at which `src` fits
inside `dst`, `ImagePaste` succeeds and keeps `dst.maxval`; afterwards every
pixel of `dst` is at most `dst.maxval` if and only if every pixel of `src` is
at most `dst.maxval` (which holds in particular when `src` has all pixels at
most its own maxval and `src.maxval ≤ dst.maxval`). -/
theorem C21_paste_range (dst src : Image) (x y : Int) (hd : dst.WF) (hdr : dst.InRange)
    (hs : src.WF) (hr : ImageValidRect dst x y src.width src.height = some true) :
    ∃ r, ImagePaste dst x y src = some r ∧ r.maxval = dst.maxval ∧
      (r.InRange ↔ ∀ p ∈ src.pixel, (p : Int) ≤ dst.maxval) ∧
      (src.InRange → src.maxval ≤ dst.maxval → r.InRange) := by
  have sd := shaped_of_wf hd
  have ss := shaped_of_wf hs
  obtain ⟨hx, hy, hw, hh, hxW, hyH, hxw, hyh⟩ := validRect_true hr
  obtain ⟨r, e, sr, hin, hout⟩ := paste_spec sd ss hr
  have hiff : r.InRange ↔ ∀ p ∈ src.pixel, (p : Int) ≤ dst.maxval := by
    constructor
    · intro hrange p hp
      obtain ⟨k, hk, rfl⟩ := List.mem_iff_getElem.mp hp
      obtain ⟨i, j, hi0, hiw, hj0, hjh, rfl⟩ := lin_surj hs.1 (by rw [← ss.2.2.2]; exact hk)
      have hmem := rd_mem sr (by omega : 0 ≤ x + i) (by omega : x + i < dst.width)
        (by omega : 0 ≤ y + j) (by omega : y + j < dst.height)
      have hle := hrange _ hmem
      rw [hin i j hi0 hiw hj0 hjh, sr.2.2.1] at hle
      simpa [Image.rd, List.getD_eq_getElem?_getD, List.getElem?_eq_getElem hk] using hle
    · intro hfit
      apply inRange_of_rd sr hd.1
      intro px py hp0 hpW hq0 hqH
      by_cases hrect : x ≤ px ∧ px < x + src.width ∧ y ≤ py ∧ py < y + src.height
      · have h1 := hin (px - x) (py - y) (by omega) (by omega) (by omega) (by omega)
        have ex : x + (px - x) = px := by omega
        have ey : y + (py - y) = py := by omega
        rw [ex, ey] at h1
        rw [h1]
        exact hfit _ (rd_mem ss (by omega) (by omega) (by omega) (by omega))
      · rw [hout px py hp0 hpW hq0 hrect]
        exact rd_le hd.2.2.1 hdr _
  refine ⟨r, e, sr.2.2.1, hiff, ?_⟩
  intro hsr hmax
  rw [hiff]
  intro p hp
  exact le_trans (hsr p hp) hmax

/-- C21 (amended) at the 3x2 sample image, pasting a 2x1 image of the same
maxval at `(1, 1)`. -/
theorem C21_paste_range_witness :
    ImagePaste sample32 1 1 pair21 = some ⟨3, 2, 255, [1, 2, 3, 4, 7, 9]⟩ ∧
    ∃ r, ImagePaste sample32 1 1 pair21 = some r ∧ r.maxval = sample32.maxval ∧ r.InRange :=
  ⟨by decide,
    (C21_paste_range sample32 pair21 1 1 (by decide) (by decide) (by decide) (by decide)).imp
      fun _ h => ⟨h.1, h.2.1, h.2.2.2 (by decide) (by decide)⟩⟩

/-! ## Precondition faults -/

/-- The positions that `ImageMatchSubImage` reads in `img1` are always valid. -/
theorem match_reads_img1_valid (img1 img2 : Image) (x y i j : Int)
    (hv : ImageValidPos img1 x y = true) (hi0 : 0 ≤ i)
    (hi : i < minInt (img1.width - x) img2.height) (hj0 : 0 ≤ j)
    (hj : j < minInt (img1.height - y) img2.width) :
    ImageValidPos img1 (x + i) (y + j) = true := by
  obtain ⟨hx0, hxW, hy0, hyH⟩ := validPos_true hv
  have h1 := (minInt_le (img1.width - x) img2.height).1
  have h2 := (minInt_le (img1.height - y) img2.width).1
  simp [ImageValidPos]
  omega

/-- Claim C22 fails on the code. `img1` is the 3x3 all-zero image, `img2` the
all-zero image of width 1 and height 2, and `(0, 0)` is a valid position of
`img1`.  `ImageMatchSubImage` iterates `j` over `min(3, 1) = 1` row and `i`
over `min(3, 2) = 2` columns; at `i = 1, j = 0` it reads `(1, 0)` of `img2`,
which is not a valid position of `img2`, and the assertion of `ImageGetPixel`
fails: nothing is returned. -/
theorem C22_match_reads_outside_img2 :
    zero33.WF ∧ column12.WF ∧ ImageValidPos zero33 0 0 = true ∧
    minInt (zero33.height - 0) column12.width = 1 ∧
    minInt (zero33.width - 0) column12.height = 2 ∧
    ImageGetPixel zero33 (0 + 0) (0 + 0) = some 0 ∧ ImageGetPixel column12 0 0 = some 0 ∧
    ImageValidPos zero33 (0 + 1) (0 + 0) = true ∧ ImageValidPos column12 1 0 = false ∧
    ImageGetPixel column12 1 0 = none ∧
    ImageMatchSubImage zero33 0 0 column12 = none := by
  decide

/-- Claim C23 fails on the code. On the empty image (width 0 and height 0, as
`ImageCreate` builds it) and on the image of width 0 and height 3,
`ImageBlur` with `dx = dy = 0` does not run to completion: no pixel is read or
written, and the final `ImagePaste(img, 0, 0, blurred)` fails its assertion,
`ImageValidRect(img, 0, 0, img.width, img.height)` being false because `(0, 0)`
is not a valid position of an image without pixels. -/
theorem C23_blur_faults_on_empty_image :
    ImageCreate 0 0 255 = some empty00 ∧ empty00.WF ∧
    ImageValidPos empty00 0 0 = false ∧
    ImageValidRect empty00 0 0 empty00.width empty00.height = some false ∧
    ImagePaste empty00 0 0 empty00 = none ∧
    ImageBlur empty00 0 0 = none ∧
    ImageCreate 0 3 255 = some empty03 ∧ empty03.WF ∧
    ImageValidRect empty03 0 0 empty03.width empty03.height = some false ∧
    ImageBlur empty03 0 0 = none := by
  decide

end Image8bit
